import Mathlib

/-!
Verification of player-count: monthly sanitisation, month summaries and the
batch engine.

A shallow embedding of `src/utils.go` (package `tracula`) and
`src/src/core/core.go` (package `core`), followed by theorems about them.

Conventions of the embedding

* Go `int` is the 64-bit two's-complement integer of amd64/arm64: values are
  `Int`, and `+`, `-` wrap through `wrapInt`; `/` and `%` truncate toward zero
  (`Int.tdiv`, `Int.tmod`).
* A `time.Time` is an instant, held as nanoseconds since the Unix epoch and read
  in UTC (no monotonic clock reading, as for every time that comes out of the
  store); `Month`, `Year` and `Date` follow the proleptic Gregorian calendar.
* A finite `float32`/`float64` value is held exactly, as a fraction; every
  floating-point operation is the exact operation followed by rounding to
  nearest, ties to even (IEEE 754), at the precision of the format.
* Store and provider calls are external: their outcomes are inputs of the
  model, their effects are recorded in an explicit state.
* `sort.Slice` is the pattern-defeating quicksort of package `sort` (Go 1.19 and
  later), embedded loop by loop on the slice held as a list; it is not stable.
-/

set_option maxRecDepth 100000

namespace PlayerCount

/-! ## Go integers -/

/-- Wrap an integer to the range of a 64-bit signed `int`. -/
def wrapInt (x : Int) : Int := (x + 2 ^ 63) % 2 ^ 64 - 2 ^ 63

/-- Go `a + b` on `int`. -/
def intAdd (a b : Int) : Int := wrapInt (a + b)

/-- Go `a - b` on `int`. -/
def intSub (a b : Int) : Int := wrapInt (a - b)

/-- Go `a / b` on `int` (truncated; the callers guard `b > 0`). -/
def intDiv (a b : Int) : Int := wrapInt (Int.tdiv a b)

/-- Whether a value is representable as a 64-bit `int`. -/
def InInt (x : Int) : Prop := -(2 ^ 63) ≤ x ∧ x < 2 ^ 63

instance (x : Int) : Decidable (InInt x) := by unfold InInt; infer_instance

/-! ## Floating point -/

/-- The exact value `num / den` of a finite floating-point number. -/
structure FP where
  num : Int
  den : Nat
deriving Repr, DecidableEq

/-- A binary format: significand precision in bits and the exponent of the
least subnormal (binary64: 53 and -1074; binary32: 24 and -149). -/
structure FPFormat where
  prec : Nat
  emin : Int

def binary64 : FPFormat := ⟨53, -1074⟩

def binary32 : FPFormat := ⟨24, -149⟩

/-- Number of binary digits of `n`, by halving (`fuel` bounds the halvings). -/
def bitLenAux : Nat → Nat → Nat
  | 0, _ => 0
  | fuel + 1, n => if n = 0 then 0 else bitLenAux fuel (n / 2) + 1

/-- Number of binary digits of `n` (0 for 0). -/
def bitLen (n : Nat) : Nat := bitLenAux n n

/-- The fraction `n / (d * 2^e)` written with natural numerator and denominator. -/
def scaleBy (n d : Nat) (e : Int) : Nat × Nat :=
  if 0 ≤ e then (n, d * 2 ^ e.toNat) else (n * 2 ^ (-e).toNat, d)

/-- Exponent `e` of the unit in the last place for the positive fraction `n / d`:
the least `e ≥ emin` with `n / d < 2^(prec + e)`. -/
def ulpExp (f : FPFormat) (n d : Nat) : Int :=
  let e0 : Int := (bitLen n : Int) - (bitLen d : Int) - (f.prec : Int)
  let s := scaleBy n d e0
  let e := if s.1 / s.2 < 2 ^ f.prec then e0 else e0 + 1
  max e f.emin

/-- Round the fraction `n / d` (both positive) to an integer multiple `m * 2^e`
of its unit in the last place: nearest, ties to the even `m`. -/
def roundMag (f : FPFormat) (n d : Nat) : Nat × Int :=
  let e := ulpExp f n d
  let s := scaleBy n d e
  let q := s.1 / s.2
  let r := s.1 % s.2
  let m := if s.2 < 2 * r ∨ (2 * r = s.2 ∧ q % 2 = 1) then q + 1 else q
  (m, e)

/-- Round the exact value `num / den` into format `f`. -/
def fpRound (f : FPFormat) (num : Int) (den : Nat) : FP :=
  if num = 0 ∨ den = 0 then ⟨0, 1⟩
  else
    let r := roundMag f num.natAbs den
    let s := scaleBy r.1 1 (-r.2)
    ⟨(if num < 0 then -1 else 1) * (s.1 : Int), s.2⟩

/-- Conversion `float64(i)` / `float32(i)` of an integer. -/
def fpOfInt (f : FPFormat) (i : Int) : FP := fpRound f i 1

/-- Floating-point `a + b`. -/
def fpAdd (f : FPFormat) (a b : FP) : FP :=
  fpRound f (a.num * b.den + b.num * a.den) (a.den * b.den)

/-- Floating-point `a / b` for `b ≠ 0`. -/
def fpDiv (f : FPFormat) (a b : FP) : FP :=
  fpRound f ((if b.num < 0 then -1 else 1) * (a.num * b.den)) (a.den * b.num.natAbs)

/-- Conversion `int(x)` of a float: the fraction is discarded (toward zero). -/
def fpToInt (a : FP) : Int := Int.tdiv a.num a.den

/-! ## Instants and the calendar -/

/-- An instant: nanoseconds since 1970-01-01T00:00:00Z. -/
structure Time where
  unixNano : Int
deriving Repr, DecidableEq

/-- Go `time.January`; a `time.Month` is an integer, January = 1 … December = 12. -/
def January : Int := 1

/-- Go `time.December`. -/
def December : Int := 12

def nanosPerSecond : Int := 1000000000

def nanosPerHour : Int := 3600 * nanosPerSecond

def nanosPerDay : Int := 86400 * nanosPerSecond

/-- Days since 1970-01-01 of the civil date `y-m-d` (proleptic Gregorian);
`m` outside 1..12 carries into the year, as `time.Date` normalises it. -/
def daysFromCivil (y : Int) (m : Int) (d : Int) : Int :=
  let y1 := y + (m - 1) / 12
  let m1 := (m - 1) % 12 + 1
  let y2 := if m1 ≤ 2 then y1 - 1 else y1
  let era := y2 / 400
  let yoe := y2 - era * 400
  let mp := if m1 > 2 then m1 - 3 else m1 + 9
  let doy := (153 * mp + 2) / 5 + (d - 1)
  let doe := yoe * 365 + yoe / 4 - yoe / 100 + doy
  era * 146097 + doe - 719468

/-- Civil year and month that contain day number `z` (days since 1970-01-01). -/
def civilFromDays (z : Int) : Int × Int :=
  let z1 := z + 719468
  let era := z1 / 146097
  let doe := z1 - era * 146097
  let yoe := (doe - doe / 1460 + doe / 36524 - doe / 146096) / 365
  let doy := doe - (365 * yoe + yoe / 4 - yoe / 100)
  let mp := (5 * doy + 2) / 153
  let m := if mp < 10 then mp + 3 else mp - 9
  let y := yoe + era * 400
  (if m ≤ 2 then y + 1 else y, m)

/-- Day number (days since 1970-01-01, UTC) of an instant. -/
def Time.dayNumber (t : Time) : Int := t.unixNano / nanosPerDay

/-- Go `t.Month()`. -/
def Time.Month (t : Time) : Int := (civilFromDays t.dayNumber).2

/-- Go `t.Year()`. -/
def Time.Year (t : Time) : Int := (civilFromDays t.dayNumber).1

/-- Go `time.Date(y, m, d, hh, mm, ss, ns, time.UTC)`. -/
def Time.Date (y : Int) (m : Int) (d hh mm ss ns : Int) : Time :=
  ⟨daysFromCivil y m d * nanosPerDay + hh * nanosPerHour
    + mm * (60 * nanosPerSecond) + ss * nanosPerSecond + ns⟩

/-- Go `t.Before(u)`. -/
def Time.Before (t u : Time) : Bool := decide (t.unixNano < u.unixNano)

/-- Go `t.Sub(u)`: the duration `t - u` in nanoseconds, saturated to the range of
`time.Duration` (an `int64`). -/
def Time.Sub (t u : Time) : Int :=
  let d := t.unixNano - u.unixNano
  if d < -(2 ^ 63) then -(2 ^ 63) else if 2 ^ 63 - 1 < d then 2 ^ 63 - 1 else d

/-- Go `d.Hours()`: `float64(d / Hour) + float64(d % Hour) / (60 * 60 * 1e9)`. -/
def Duration.Hours (d : Int) : FP :=
  let hour := Int.tdiv d nanosPerHour
  let nsec := Int.tmod d nanosPerHour
  fpAdd binary64 (fpOfInt binary64 hour)
    (fpDiv binary64 (fpOfInt binary64 nsec) (fpOfInt binary64 nanosPerHour))

/-! ## `utils.go` -/

def HOURSPERDAY : Int := 24

def RETENTIONLIMIT : Int := 90

/-- Modelled from the spec: the declaration of `DailyMetric` is in a file of the
package that is not at hand; a daily sample is a date and a player count, the
two fields `monthlySanitise` reads (`PlayerCount` is an `int` there). -/
structure DailyMetric where
  Date : Time
  PlayerCount : Int
deriving Repr, DecidableEq

/-- Modelled from the spec: the declaration of `Metric` is in a file of the
package that is not at hand; the fields are those of the composite literal in
`constructNewMonthMetric`. -/
structure Metric where
  Date : Time
  AvgPlayers : Int
  Gain : String
  GainPercent : String
  Peak : Int
deriving Repr, DecidableEq

/-- Modelled from the spec: the declaration of `App` is in a file of the package
that is not at hand; `monthlySanitise` reads its `DailyMetrics` only. -/
structure App where
  DailyMetrics : List DailyMetric
deriving Repr, DecidableEq

/-- The dynamic types an `interface{}` argument of `sortDates` can carry:
the two pointer types its type switch names, the two slice types themselves,
and anything else. -/
inductive Dyn where
  | ptrMetrics (list : List Metric)
  | ptrDailyMetrics (list : List DailyMetric)
  | metrics (list : List Metric)
  | dailyMetrics (list : List DailyMetric)
  | other
deriving Repr, DecidableEq

/-- Go `sort.SliceIsSorted(list, less)` with `less i j = date i before date j`:
no element is before its predecessor. -/
def sliceIsSorted {α : Type} (date : α → Time) : List α → Bool
  | [] => true
  | [_] => true
  | a :: b :: rest => !(date b).Before (date a) && sliceIsSorted date (b :: rest)

/-- Go `data.Less(i, j)` with the closure of `sortDates`: element `i` of the slice
is dated before element `j`. -/
def lessAt {α : Type} (date : α → Time) (data : List α) (i j : Nat) : Bool :=
  match data[i]?, data[j]? with
  | some x, some y => (date x).Before (date y)
  | _, _ => false

/-- Go `data.Swap(i, j)`. -/
def swapAt {α : Type} (data : List α) (i j : Nat) : List α :=
  match data[i]?, data[j]? with
  | some x, some y => (data.set i y).set j x
  | _, _ => data

/-- The inner loop of `insertionSort_func`:
`for j := i; j > a && data.Less(j, j-1); j-- { data.Swap(j, j-1) }`. -/
def insertionSortInner {α : Type} (date : α → Time) (a : Nat) : Nat → List α → List α
  | 0, data => data
  | j + 1, data =>
    if a < j + 1 && lessAt date data (j + 1) j then
      insertionSortInner date a j (swapAt data (j + 1) j)
    else data

/-- The outer loop of `insertionSort_func`, `for i := a + 1; i < b; i++`, from `i` on. -/
def insertionSortLoop {α : Type} (date : α → Time) (a b : Nat) :
    Nat → Nat → List α → List α
  | 0, _, data => data
  | fuel + 1, i, data =>
    if i < b then insertionSortLoop date a b fuel (i + 1) (insertionSortInner date a i data)
    else data

/-- Go `insertionSort_func(data, a, b)` of package `sort`: insertion sort of
`data[a:b]`. -/
def insertionSort_func {α : Type} (date : α → Time) (data : List α) (a b : Nat) : List α :=
  insertionSortLoop date a b (b - a) (a + 1) data

/-- The loop of `siftDown_func` from `root` on. -/
def siftDownLoop {α : Type} (date : α → Time) (hi first : Nat) :
    Nat → Nat → List α → List α
  | 0, _, data => data
  | fuel + 1, root, data =>
    let child := 2 * root + 1
    if child ≥ hi then data
    else
      let child :=
        if child + 1 < hi && lessAt date data (first + child) (first + child + 1) then child + 1
        else child
      if !lessAt date data (first + root) (first + child) then data
      else siftDownLoop date hi first fuel child (swapAt data (first + root) (first + child))

/-- Go `siftDown_func(data, lo, hi, first)`. -/
def siftDown_func {α : Type} (date : α → Time) (data : List α) (lo hi first : Nat) : List α :=
  siftDownLoop date hi first hi lo data

/-- The first loop of `heapSort_func`, `for i := (hi - 1) / 2; i >= 0; i--`, from `i` on. -/
def heapBuild {α : Type} (date : α → Time) (hi first : Nat) : Nat → List α → List α
  | 0, data => siftDown_func date data 0 hi first
  | i + 1, data => heapBuild date hi first i (siftDown_func date data (i + 1) hi first)

/-- The second loop of `heapSort_func`, `for i := hi - 1; i >= 0; i--`, with
`n = i + 1` iterations left. -/
def heapPop {α : Type} (date : α → Time) (lo first : Nat) : Nat → List α → List α
  | 0, data => data
  | i + 1, data => heapPop date lo first i (siftDown_func date (swapAt data first (first + i)) lo i first)

/-- Go `heapSort_func(data, a, b)`. -/
def heapSort_func {α : Type} (date : α → Time) (data : List α) (a b : Nat) : List α :=
  let first := a
  let lo := 0
  let hi := b - a
  heapPop date lo first hi (heapBuild date hi first ((hi - 1) / 2) data)

/-- Go `for i <= j && cond(i) { i++ }`: the value of `i` after the loop. -/
def scanUp (cond : Nat → Bool) (j : Nat) : Nat → Nat → Nat
  | 0, i => i
  | fuel + 1, i => if i ≤ j && cond i then scanUp cond j fuel (i + 1) else i

/-- Go `for i <= j && cond(j) { j-- }`: the value of `j` after the loop (`i` is
at least 1 here, so `j` stays non-negative). -/
def scanDown (cond : Nat → Bool) (i : Nat) : Nat → Nat
  | 0 => 0
  | j + 1 => if i ≤ j + 1 && cond (j + 1) then scanDown cond i j else j + 1

/-- The second, unbounded loop of `partition_func`: the slice and `j` when it breaks. -/
def partitionLoop {α : Type} (date : α → Time) (a : Nat) :
    Nat → Nat → Nat → List α → List α × Nat
  | 0, _, j, data => (data, j)
  | fuel + 1, i, j, data =>
    let i := scanUp (fun i => lessAt date data i a) j (j + 1 - i) i
    let j := scanDown (fun j => !lessAt date data j a) i j
    if i > j then (data, j)
    else partitionLoop date a fuel (i + 1) (j - 1) (swapAt data i j)

/-- Go `partition_func(data, a, b, pivot)`: the slice, the new pivot index and
whether the slice was already partitioned. -/
def partition_func {α : Type} (date : α → Time) (data : List α) (a b pivot : Nat) :
    List α × Nat × Bool :=
  let data := swapAt data a pivot
  let i := a + 1
  let j := b - 1
  let i := scanUp (fun i => lessAt date data i a) j (j + 1 - i) i
  let j := scanDown (fun j => !lessAt date data j a) i j
  if i > j then (swapAt data j a, j, true)
  else
    let data := swapAt data i j
    let r := partitionLoop date a (b - a) (i + 1) (j - 1) data
    (swapAt r.1 r.2 a, r.2, false)

/-- The loop of `partitionEqual_func`: the value of `i` when it breaks, and the slice. -/
def partitionEqualLoop {α : Type} (date : α → Time) (a : Nat) :
    Nat → Nat → Nat → List α → List α × Nat
  | 0, i, _, data => (data, i)
  | fuel + 1, i, j, data =>
    let i := scanUp (fun i => !lessAt date data a i) j (j + 1 - i) i
    let j := scanDown (fun j => lessAt date data a j) i j
    if i > j then (data, i)
    else partitionEqualLoop date a fuel (i + 1) (j - 1) (swapAt data i j)

/-- Go `partitionEqual_func(data, a, b, pivot)`. -/
def partitionEqual_func {α : Type} (date : α → Time) (data : List α) (a b pivot : Nat) :
    List α × Nat :=
  let data := swapAt data a pivot
  partitionEqualLoop date a (b - a) (a + 1) (b - 1) data

/-- `for j := i - 1; j >= 1; j-- { if !data.Less(j, j-1) { break }; data.Swap(j, j-1) }`
of `partialInsertionSort_func`, from `j` on. -/
def shiftSmaller {α : Type} (date : α → Time) : Nat → List α → List α
  | 0, data => data
  | j + 1, data =>
    if !lessAt date data (j + 1) j then data
    else shiftSmaller date j (swapAt data (j + 1) j)

/-- `for j := i + 1; j < b; j++ { if !data.Less(j, j-1) { break }; data.Swap(j, j-1) }`
of `partialInsertionSort_func`, from `j` on. -/
def shiftGreater {α : Type} (date : α → Time) (b : Nat) : Nat → Nat → List α → List α
  | 0, _, data => data
  | fuel + 1, j, data =>
    if j < b then
      if !lessAt date data j (j - 1) then data
      else shiftGreater date b fuel (j + 1) (swapAt data j (j - 1))
    else data

/-- The loop `for j := 0; j < maxSteps; j++` of `partialInsertionSort_func`, with
`steps` iterations left. -/
def partialInsertionSortLoop {α : Type} (date : α → Time) (a b : Nat) :
    Nat → Nat → List α → List α × Bool
  | 0, _, data => (data, false)
  | steps + 1, i, data =>
    let i := scanUp (fun i => !lessAt date data i (i - 1)) (b - 1) (b - i) i
    if i = b then (data, true)
    else if b - a < 50 then (data, false)
    else
      let data := swapAt data i (i - 1)
      let data := if i - a ≥ 2 then shiftSmaller date (i - 1) data else data
      let data := if b - i ≥ 2 then shiftGreater date b (b - i) (i + 1) data else data
      partialInsertionSortLoop date a b steps i data

/-- Go `partialInsertionSort_func(data, a, b)`: the slice and whether it is
sorted at the end (`maxSteps = 5`, `shortestShifting = 50`). -/
def partialInsertionSort_func {α : Type} (date : α → Time) (data : List α) (a b : Nat) :
    List α × Bool :=
  partialInsertionSortLoop date a b 5 (a + 1) data

/-- Go `(*xorshift).Next` of package `sort`: the shifts 13, 7 and 17 on a `uint64`. -/
def xorshiftNext (r : Nat) : Nat :=
  let r := (r ^^^ (r <<< 13)) % 2 ^ 64
  let r := r ^^^ (r >>> 7)
  (r ^^^ (r <<< 17)) % 2 ^ 64

/-- Go `nextPowerOfTwo(length) = 1 << bits.Len(uint(length))`. -/
def nextPowerOfTwo (length : Nat) : Nat := 2 ^ bitLen length

/-- The loop `for i := 0; i < 3; i++` of `breakPatterns_func`, with `n` iterations left. -/
def breakPatternsLoop {α : Type} (a length modulus idx : Nat) :
    Nat → Nat → Nat → List α → List α
  | 0, _, _, data => data
  | n + 1, i, random, data =>
    let random := xorshiftNext random
    let other := random % modulus
    let other := if other ≥ length then other - length else other
    breakPatternsLoop a length modulus idx n (i + 1) random (swapAt data (idx - 1 + i) (a + other))

/-- Go `breakPatterns_func(data, a, b)`. -/
def breakPatterns_func {α : Type} (data : List α) (a b : Nat) : List α :=
  let length := b - a
  if length ≥ 8 then
    let random := length
    let modulus := nextPowerOfTwo length
    let idx := a + (length / 4) * 2 - 1
    breakPatternsLoop a length modulus idx 3 0 random data
  else data

/-- Go `sortedHint`. -/
inductive sortedHint where
  | unknownHint
  | increasingHint
  | decreasingHint
deriving Repr, DecidableEq

/-- Go `order2_func(data, a, b, swaps)`: the two indices in order and the new
value of `*swaps`. -/
def order2_func {α : Type} (date : α → Time) (data : List α) (a b : Nat) (swaps : Nat) :
    Nat × Nat × Nat :=
  if lessAt date data b a then (b, a, swaps + 1) else (a, b, swaps)

/-- Go `median_func(data, a, b, c, swaps)`: the index of the median and the new
value of `*swaps`. -/
def median_func {α : Type} (date : α → Time) (data : List α) (a b c : Nat) (swaps : Nat) :
    Nat × Nat :=
  let (a, b, swaps) := order2_func date data a b swaps
  let (b, _, swaps) := order2_func date data b c swaps
  let (_, b, swaps) := order2_func date data a b swaps
  (b, swaps)

/-- Go `medianAdjacent_func(data, a, swaps)`. -/
def medianAdjacent_func {α : Type} (date : α → Time) (data : List α) (a : Nat) (swaps : Nat) :
    Nat × Nat :=
  median_func date data (a - 1) a (a + 1) swaps

/-- Go `choosePivot_func(data, a, b)` (`shortestNinther = 50`, `maxSwaps = 12`). -/
def choosePivot_func {α : Type} (date : α → Time) (data : List α) (a b : Nat) :
    Nat × sortedHint :=
  let l := b - a
  let i := a + l / 4 * 1
  let j := a + l / 4 * 2
  let k := a + l / 4 * 3
  let (j, swaps) :=
    if l ≥ 8 then
      if l ≥ 50 then
        let (i, swaps) := medianAdjacent_func date data i 0
        let (j, swaps) := medianAdjacent_func date data j swaps
        let (k, swaps) := medianAdjacent_func date data k swaps
        median_func date data i j k swaps
      else median_func date data i j k 0
    else (j, 0)
  if swaps = 0 then (j, .increasingHint)
  else if swaps = 12 then (j, .decreasingHint)
  else (j, .unknownHint)

/-- The loop of `reverseRange_func` from `i`, `j` on. -/
def reverseRangeLoop {α : Type} : Nat → Nat → Nat → List α → List α
  | 0, _, _, data => data
  | fuel + 1, i, j, data =>
    if i < j then reverseRangeLoop fuel (i + 1) (j - 1) (swapAt data i j) else data

/-- Go `reverseRange_func(data, a, b)`. -/
def reverseRange_func {α : Type} (data : List α) (a b : Nat) : List α :=
  reverseRangeLoop (b - a) a (b - 1) data

/-- Go `pdqsort_func(data, a, b, limit)` of package `sort` (Go 1.19 and later):
one turn of its loop per unit of `fuel`, each turn and each recursive call working
on a strictly shorter range, so that `b - a + 1` units are enough. -/
def pdqsortLoop {α : Type} (date : α → Time) :
    Nat → List α → Nat → Nat → Nat → Bool → Bool → List α
  | 0, data, _, _, _, _, _ => data
  | fuel + 1, data, a, b, limit, wasBalanced, wasPartitioned =>
    let length := b - a
    if length ≤ 12 then insertionSort_func date data a b
    else if limit = 0 then heapSort_func date data a b
    else
      let data := if !wasBalanced then breakPatterns_func data a b else data
      let limit := if !wasBalanced then limit - 1 else limit
      let (pivot, hint) := choosePivot_func date data a b
      let data := if hint = .decreasingHint then reverseRange_func data a b else data
      let pivot := if hint = .decreasingHint then (b - 1) - (pivot - a) else pivot
      let hint := if hint = .decreasingHint then sortedHint.increasingHint else hint
      let tryPartial := wasBalanced && wasPartitioned && hint = .increasingHint
      let ps :=
        if tryPartial then partialInsertionSort_func date data a b else (data, false)
      if ps.2 then ps.1
      else
        let data := ps.1
        if a > 0 && !lessAt date data (a - 1) pivot then
          let r := partitionEqual_func date data a b pivot
          pdqsortLoop date fuel r.1 r.2 b limit wasBalanced wasPartitioned
        else
          let (data, mid, alreadyPartitioned) := partition_func date data a b pivot
          let leftLen := mid - a
          let rightLen := b - mid
          let balanceThreshold := length / 8
          if leftLen < rightLen then
            let data := pdqsortLoop date fuel data a mid limit true true
            pdqsortLoop date fuel data (mid + 1) b limit (leftLen ≥ balanceThreshold)
              alreadyPartitioned
          else
            let data := pdqsortLoop date fuel data (mid + 1) b limit true true
            pdqsortLoop date fuel data a mid limit (rightLen ≥ balanceThreshold)
              alreadyPartitioned

/-- Go `sort.Slice(list, less)` with `less i j = date i before date j`:
`pdqsort_func(data, 0, length, bits.Len(length))`, the pattern-defeating quicksort
of package `sort` since Go 1.19. Up to 12 elements it is the insertion sort and
keeps the order of equal dates; on longer slices it does not. -/
def sortSlice {α : Type} (date : α → Time) (list : List α) : List α :=
  pdqsortLoop date (list.length + 1) list 0 list.length (bitLen list.length) true true

/-- Go `sortDates(m)`: the argument as the call leaves it. Only a `*[]Metric` or a
`*[]DailyMetric` is sorted (when not sorted already); every other dynamic type
falls to the empty `default` case. -/
def sortDates : Dyn → Dyn
  | .ptrMetrics list =>
    if sliceIsSorted Metric.Date list then .ptrMetrics list
    else .ptrMetrics (sortSlice Metric.Date list)
  | .ptrDailyMetrics list =>
    if sliceIsSorted DailyMetric.Date list then .ptrDailyMetrics list
    else .ptrDailyMetrics (sortSlice DailyMetric.Date list)
  | m => m

/-- Go `dayDiff(a, b) = int(a.Sub(*b).Hours() / HOURSPERDAY)`. -/
def dayDiff (a b : Time) : Int :=
  fpToInt (fpDiv binary64 (Duration.Hours (a.Sub b)) (fpOfInt binary64 HOURSPERDAY))

/-- Go `max(a, b)` of `utils.go`. -/
def max (a b : Int) : Int := if a > b then a else b

/-- Go `min(a, b)` of `utils.go`. -/
def min (a b : Int) : Int := if a < b then a else b

/-- The local variables of the loop of `monthlySanitise`. -/
structure SanitiseVars where
  newDailyMetricList : List DailyMetric
  total : Int
  numCounted : Int
  newPeak : Int
deriving Repr, DecidableEq

/-- The target month of `monthlySanitise`: `currentDateTime.Month() - 1`,
`time.December` when that is 0. -/
def sanitiseTargetMonth (currentDateTime : Time) : Int :=
  let targetMonth := currentDateTime.Month - 1
  if targetMonth = 0 then December else targetMonth

/-- One iteration of the loop of `monthlySanitise`. `numCounted++` is not
wrapped: a slice has fewer than 2^63 elements. -/
def sanitiseStep (currentDateTime : Time) (targetMonth : Int)
    (v : SanitiseVars) (dailyMetric : DailyMetric) : SanitiseVars :=
  if dayDiff currentDateTime dailyMetric.Date ≥ 90 then v
  else
    let v1 : SanitiseVars :=
      if targetMonth = dailyMetric.Date.Month then
        { v with
          newPeak := max v.newPeak dailyMetric.PlayerCount
          total := intAdd v.total dailyMetric.PlayerCount
          numCounted := v.numCounted + 1 }
      else v
    { v1 with newDailyMetricList := v1.newDailyMetricList ++ [dailyMetric] }

/-- Go `monthlySanitise(appBom, currentDateTime)`: the retained list, the peak and
the average. `sortDates` receives the slice itself, not a pointer to it. -/
def monthlySanitise (appBom : App) (currentDateTime : Time) :
    List DailyMetric × Int × Int :=
  let targetMonth := sanitiseTargetMonth currentDateTime
  let v := appBom.DailyMetrics.foldl (sanitiseStep currentDateTime targetMonth) ⟨[], 0, 0, 0⟩
  let newDailyMetricList :=
    match sortDates (.dailyMetrics v.newDailyMetricList) with
    | .dailyMetrics list => list
    | _ => v.newDailyMetricList
  let newAverage := if v.numCounted > 0 then intDiv v.total v.numCounted else 0
  (newDailyMetricList, v.newPeak, newAverage)

/-- Go `fmt.Sprintf("%d", i)`: an optional minus sign and the decimal digits. -/
def sprintfD (i : Int) : String :=
  (if i < 0 then "-" else "") ++ toString i.natAbs

/-- Go `fmt.Sprintf("%.2f", x)`: the value rounded to hundredths (nearest, ties to
even, as `strconv` rounds the exact decimal expansion), with the sign of `x`. -/
def sprintfF2 (x : FP) : String :=
  let n := x.num.natAbs * 100
  let q := n / x.den
  let r := n % x.den
  let h := if x.den < 2 * r ∨ (2 * r = x.den ∧ q % 2 = 1) then q + 1 else q
  (if x.num < 0 then "-" else "") ++ toString (h / 100) ++ "."
    ++ toString (h % 100 / 10) ++ toString (h % 10)

/-- Go `constructNewMonthMetric(previous, peak, avg, cdt)`; a nil `previous` is `none`. -/
def constructNewMonthMetric (previous : Option Metric) (peak avg : Int) (cdt : Time) :
    Metric :=
  let strs : String × String :=
    match previous with
    | none => ("-", "-")
    | some prev =>
      let gain := intSub avg prev.AvgPlayers
      let gainPcStr :=
        if prev.AvgPlayers > 0 then
          let gainPc := intDiv gain prev.AvgPlayers
          sprintfF2 (fpOfInt binary32 gainPc) ++ "%"
        else "-"
      (sprintfD gain, gainPcStr)
  { Date := Time.Date cdt.Year cdt.Month 1 0 0 0 0
    AvgPlayers := avg
    Gain := strs.1
    GainPercent := strs.2
    Peak := peak }

/-! ## `core.go` -/

def MONTHS : Int := 12

def DURATION : Int := 8

/-- A non-nil Go `error`; `Option Error` is an `error`, `none` being nil. -/
structure Error where
  msg : String
deriving Repr, DecidableEq

/-- Modelled from the spec: the declaration of `db.AppRef` is not at hand; an
application has an identity, a display name, a provider domain and an identifier
in that domain, the fields `processApp` reads. -/
structure AppRef where
  ID : Nat
  Name : String
  Domain : String
  DomainID : Int
deriving Repr, DecidableEq

/-- Modelled from the spec: the declaration of `db.AppShadow` is not at hand; an
application reference and the date to process, the fields `processApp` reads. -/
structure AppShadow where
  Ref : AppRef
  Date : Time
deriving Repr, DecidableEq

/-- Go `math.Max(a, b)` on finite values. -/
def fpMax (a b : FP) : FP := if a.num * b.den < b.num * a.den then b else a

/-- The local variables of the scan of `processAppMonthly`. -/
structure MonthlyVars where
  newDailyMetricList : List DailyMetric
  total : Int
  numCounted : Int
  newPeak : FP
deriving Repr, DecidableEq

/-- One iteration of the scan of `processAppMonthly`, lines 162-186; each
`continue` leaves the remaining statements of the iteration out. Month and year
arithmetic stays far from the bounds of `int` and is not wrapped; `%` is Go's
truncated remainder. -/
def monthlyStep (monthToAvg : Int) (yearToAvg : Int)
    (v : MonthlyVars) (dailyMetric : DailyMetric) : MonthlyVars :=
  let elementMonth := dailyMetric.Date.Month
  let elementYear := dailyMetric.Date.Year
  let monthDiff := monthToAvg - elementMonth
  let count (w : MonthlyVars) : MonthlyVars :=
    if elementMonth ≠ monthToAvg then w
    else
      { w with
        newPeak := fpMax w.newPeak (fpOfInt binary64 dailyMetric.PlayerCount)
        total := intAdd w.total dailyMetric.PlayerCount
        numCounted := w.numCounted + 1 }
  if Int.tmod (monthDiff + MONTHS) MONTHS < 3 then
    if monthDiff < 0 ∧ elementYear ≠ yearToAvg - 1 then v
    else count { v with newDailyMetricList := v.newDailyMetricList ++ [dailyMetric] }
  else count v

/-- The scan of `processAppMonthly` over a daily list. -/
def monthlyScan (monthToAvg : Int) (yearToAvg : Int) (dailyMetricList : List DailyMetric) :
    MonthlyVars :=
  dailyMetricList.foldl (monthlyStep monthToAvg yearToAvg) ⟨[], 0, 0, ⟨0, 1⟩⟩

/-- The outcomes of the four store operations of one `processAppMonthly` call. -/
structure MonthlyStore (μ : Type) where
  GetDailyList : Except Error (List DailyMetric)
  UpdateDailyList : Option Error
  GetMonthlyList : Except Error (List μ)
  UpdateMonthlyList : Option Error

/-- How the body of `processAppMonthly` ends: the value of `err` that the
deferred `workDone` reads, whether the body stopped on a run-time panic, and the
lists handed to `UpdateDailyList` and `UpdateMonthlyList` when they were called. -/
structure MonthlyExit (μ : Type) where
  err : Option Error
  panicked : Bool
  dailyUpdate : Option (List DailyMetric)
  monthlyUpdate : Option (List μ)

/-- What one `processAppMonthly` call does: the booleans it sends on the
channel, in order, and the rest of `MonthlyExit`. -/
structure MonthlyRun (μ : Type) where
  sent : List Bool
  panicked : Bool
  dailyUpdate : Option (List DailyMetric)
  monthlyUpdate : Option (List μ)

/-- Go `workDone(ch, err)`: the boolean sent, `true` exactly when `*err` is nil. -/
def workDone (err : Option Error) : Bool :=
  match err with
  | none => true
  | some _ => false

/-- The body of `processAppMonthly`, lines 150-226. `monthSort` and the
five-argument `constructNewMonthMetric` of package `core` are not among the
sources at hand and are parameters; `μ` is `db.Metric`. The result of
`UpdateMonthlyList` is not assigned to `err` (line 219). Indexing the sorted
monthly list at `len - 1` panics when it is empty (line 212). -/
def processAppMonthlyBody {μ : Type} (monthSort : List μ → List μ)
    (construct : μ → FP → FP → Int → Int → μ)
    (cfg : MonthlyStore μ) (monthToAvg : Int) (yearToAvg : Int) : MonthlyExit μ :=
  match cfg.GetDailyList with
  | .error e => ⟨some e, false, none, none⟩
  | .ok dailyMetricList =>
    let v := monthlyScan monthToAvg yearToAvg dailyMetricList
    let newAverage := if v.numCounted > 0 then intDiv v.total v.numCounted else 0
    match cfg.UpdateDailyList with
    | some e => ⟨some e, false, some v.newDailyMetricList, none⟩
    | none =>
      match cfg.GetMonthlyList with
      | .error e => ⟨some e, false, some v.newDailyMetricList, none⟩
      | .ok stored =>
        let monthMetricList := monthSort stored
        match monthMetricList.getLast? with
        | none => ⟨none, true, some v.newDailyMetricList, none⟩
        | some previousMonthMetrics =>
          let newMonth := construct previousMonthMetrics v.newPeak
            (fpOfInt binary64 newAverage) monthToAvg yearToAvg
          ⟨none, false, some v.newDailyMetricList, some (monthMetricList ++ [newMonth])⟩

/-- Go `processAppMonthly`: the body, then the deferred `workDone(ch, &err)`, which
also runs when the body panics. -/
def processAppMonthly {μ : Type} (monthSort : List μ → List μ)
    (construct : μ → FP → FP → Int → Int → μ)
    (cfg : MonthlyStore μ) (monthToAvg : Int) (yearToAvg : Int) : MonthlyRun μ :=
  let x := processAppMonthlyBody monthSort construct cfg monthToAvg yearToAvg
  ⟨[workDone x.err], x.panicked, x.dailyUpdate, x.monthlyUpdate⟩

/-- What the `select` of the drain loop of `ExecuteMonthly` yields in one
iteration: a message from `workChannel`, or the deadline. -/
inductive Event where
  | result (msg : Bool)
  | timeout
deriving Repr, DecidableEq

/-- The drain loop of `ExecuteMonthly`, lines 90-103: `remaining` iterations are
left, `i` is the loop counter, `events i` is what iteration `i` selects, and the
pair is `(numSuccess, numErrors)`. -/
def drainLoop (events : Nat → Event) : Nat → Nat → Nat × Nat → Nat × Nat
  | 0, _, tally => tally
  | remaining + 1, i, (numSuccess, numErrors) =>
    match events i with
    | .result true => drainLoop events remaining (i + 1) (numSuccess + 1, numErrors)
    | .result false => drainLoop events remaining (i + 1) (numSuccess, numErrors + 1)
    | .timeout => (numSuccess, numErrors)

/-- The report of `ExecuteMonthly` for `n` applications: `(numSuccess, numErrors)`
as `finalise` prints them. -/
def ExecuteMonthlyReport (n : Nat) (events : Nat → Event) : Nat × Nat :=
  drainLoop events n 0 (0, 0)

/-- A call that `processApp` makes on the provider or the store. -/
inductive Call where
  | Fetch (date : Time) (domain : String) (domainID : Int)
  | PushDaily (id : Nat) (dm : DailyMetric)
  | PushException (app : AppShadow)
deriving Repr, DecidableEq

/-- The outcomes of the calls of one `processApp`. -/
structure DailyOutcome where
  Fetch : Except Error DailyMetric
  PushDaily : Option Error
  PushException : Option Error

/-- The store as `processApp` changes it: the exception queue, the daily samples
pushed, and the calls made so far, oldest first. A call that fails changes
neither the queue nor the samples. -/
structure Db where
  exceptions : List AppShadow
  daily : List (Nat × DailyMetric)
  log : List Call
deriving Repr, DecidableEq

/-- Go `cfg.PushException(app)` with the given outcome. -/
def Db.PushException (db : Db) (outcome : Option Error) (app : AppShadow) :
    Db × Option Error :=
  match outcome with
  | some e => ({ db with log := db.log ++ [.PushException app] }, some e)
  | none =>
    ({ db with exceptions := db.exceptions ++ [app], log := db.log ++ [.PushException app] },
      none)

/-- Go `processApp(cfg, app)`: the store afterwards and the error returned. -/
def processApp (o : DailyOutcome) (app : AppShadow) (db : Db) : Db × Option Error :=
  let db1 : Db :=
    { db with log := db.log ++ [.Fetch app.Date app.Ref.Domain app.Ref.DomainID] }
  match o.Fetch with
  | .error _ => db1.PushException o.PushException app
  | .ok dm =>
    let db2 : Db := { db1 with log := db1.log ++ [.PushDaily app.Ref.ID dm] }
    match o.PushDaily with
    | some _ => db2.PushException o.PushException app
    | none => ({ db2 with daily := db2.daily ++ [(app.Ref.ID, dm)] }, none)

/-- The month that `ExecuteMonthly` averages, lines 63-66:
`currentDateTime.Month() - 1`, 12 when the current month is 1. -/
def ExecuteMonthly.monthToAvg (currentDateTime : Time) : Int :=
  let monthToAvg := currentDateTime.Month - 1
  if currentDateTime.Month = 1 then 12 else monthToAvg

/-- The year that `ExecuteMonthly` averages, lines 68-71:
`currentDateTime.Year()`, one less when the current month is 1. -/
def ExecuteMonthly.yearToAvg (currentDateTime : Time) : Int :=
  let yearToAvg := currentDateTime.Year
  if currentDateTime.Month = 1 then currentDateTime.Year - 1 else yearToAvg

/-- The channel `workChannel` as a sender meets it: open or closed. -/
structure Chan where
  closed : Bool
deriving Repr, DecidableEq

/-- What a send `ch <- msg` does to the goroutine that executes it: on an open
unbuffered channel it waits for a receiver, on a closed channel it panics
("send on closed channel"); a send that is waiting when the channel gets closed
panics as well. -/
inductive SendOutcome where
  | waits
  | panics
deriving Repr, DecidableEq

/-- The send `ch <- msg` of `workDone` on a channel in the given state. -/
def Chan.send (ch : Chan) : SendOutcome :=
  if ch.closed then .panics else .waits

/-- The effect of `finalise` on the channel: `close(ch)`. -/
def finalise (ch : Chan) : Chan := { ch with closed := true }

/-- How a run of `ExecuteMonthly` ends: the two tallies that `finalise` reports
and the state of `workChannel`. -/
structure MonthlyBatch where
  numSuccess : Nat
  numErrors : Nat
  channel : Chan
deriving Repr, DecidableEq

/-- Go `ExecuteMonthly` from line 73 on, for `n` applications: the channel is made
open, the drain loop runs, and the deferred `finalise` closes the channel on
either return of the loop (all results received, or the deadline). -/
def ExecuteMonthly (n : Nat) (events : Nat → Event) : MonthlyBatch :=
  let workChannel : Chan := ⟨false⟩
  let tally := drainLoop events n 0 (0, 0)
  ⟨tally.1, tally.2, finalise workChannel⟩

/-- The outcomes of the store calls of one `ExecuteRecovery`: reading the queue,
flushing it, and the calls of the retry of the record at each position. -/
structure RecoveryOutcome where
  GetExceptions : Option Error
  FlushExceptions : Option Error
  retry : Nat → DailyOutcome

/-- Go `dbcfg.FlushExceptions()` with the given outcome. -/
def Db.FlushExceptions (db : Db) (outcome : Option Error) : Db :=
  match outcome with
  | some _ => db
  | none => { db with exceptions := [] }

/-- The loop of `ExecuteRecovery`, lines 125-131, from position `i` on: the
store, and the records for which "Daily retry failed" is logged. -/
def recoveryLoop (retry : Nat → DailyOutcome) :
    Nat → List AppShadow → Db × List AppShadow → Db × List AppShadow
  | _, [], st => st
  | i, app :: rest, (db, failed) =>
    match processApp (retry i) app db with
    | (db1, some _) => recoveryLoop retry (i + 1) rest (db1, failed ++ [app])
    | (db1, none) => recoveryLoop retry (i + 1) rest (db1, failed)

/-- Go `ExecuteRecovery(cfg)`: the store afterwards and the records logged as
failed. `GetExceptions` returns the content of the queue; the result of
`FlushExceptions` is not looked at. -/
def ExecuteRecovery (o : RecoveryOutcome) (db : Db) : Db × List AppShadow :=
  match o.GetExceptions with
  | some _ => (db, [])
  | none =>
    let appsToUpdate := db.exceptions
    recoveryLoop o.retry 0 appsToUpdate (db.FlushExceptions o.FlushExceptions, [])

/-! ## Notions the statements are written with -/

/-- Whether `monthlySanitise` keeps a sample: its day difference to the
reference date is below 90. -/
def retained (currentDateTime : Time) (s : DailyMetric) : Bool :=
  decide (dayDiff currentDateTime s.Date < 90)

/-- The player counts of the samples of `l` dated in the target month of
`monthlySanitise` for the reference date. -/
def matchingCounts (currentDateTime : Time) (l : List DailyMetric) : List Int :=
  (l.filter (fun s => decide (s.Date.Month = sanitiseTargetMonth currentDateTime))).map
    DailyMetric.PlayerCount

/-- The value `p` is the maximum of the list `cs`: an element that no element exceeds. -/
def IsMaximumOf (cs : List Int) (p : Int) : Prop := p ∈ cs ∧ ∀ c ∈ cs, c ≤ p

/-- Whether the fetch of a `processApp` call failed. -/
def DailyOutcome.fetchFailed (o : DailyOutcome) : Bool :=
  match o.Fetch with
  | .error _ => true
  | .ok _ => false

/-- Whether the daily persist of a `processApp` call, if made, fails. -/
def DailyOutcome.persistFailed (o : DailyOutcome) : Bool := o.PushDaily.isSome

/-- The calls that one `processApp` adds to the log. -/
def newCalls (o : DailyOutcome) (app : AppShadow) (db : Db) : List Call :=
  (processApp o app db).1.log.drop db.log.length

/-- Whether a call is a daily persist. -/
def Call.isPushDaily : Call → Bool
  | .PushDaily _ _ => true
  | _ => false

/-- Whether a call pushes an exception record. -/
def Call.isPushException : Call → Bool
  | .PushException _ => true
  | _ => false

/-- The events that the drain loop of `ExecuteMonthly` sees for `n` applications:
those of its `n` iterations that come before the deadline fires. -/
def eventsSeen (n : Nat) (events : Nat → Event) : List Event :=
  ((List.range' 0 n).map events).takeWhile (fun ev => decide (ev ≠ Event.timeout))

/-- The event sequence that starts with `first` and goes on with `events`. -/
def consEvent (first : Event) (events : Nat → Event) : Nat → Event
  | 0 => first
  | i + 1 => events i

/-- Day of the month of day number `z` (days since 1970-01-01), by the same
calendar computation as `civilFromDays`. -/
def civilDayOfMonth (z : Int) : Int :=
  let z1 := z + 719468
  let era := z1 / 146097
  let doe := z1 - era * 146097
  let yoe := (doe - doe / 1460 + doe / 36524 - doe / 146096) / 365
  let doy := doe - (365 * yoe + yoe / 4 - yoe / 100)
  let mp := (5 * doy + 2) / 153
  doy - (153 * mp + 2) / 5 + 1

/-- Go `t.Day()`: the day of the month. -/
def Time.Day (t : Time) : Int := civilDayOfMonth t.dayNumber

/-- Nanoseconds since midnight UTC of an instant. -/
def Time.nanoOfDay (t : Time) : Int := t.unixNano % nanosPerDay

/-- Calendar months counted from year 0: `12 * year + month`. -/
def Time.monthIndex (t : Time) : Int := 12 * t.Year + t.Month

/-- Whether the retry of a record failed: its fetch or its persist did. -/
def DailyOutcome.failed (o : DailyOutcome) : Bool := o.fetchFailed || o.persistFailed

/-- Whether a call is a fetch. -/
def Call.isFetch : Call → Bool
  | .Fetch _ _ _ => true
  | _ => false

/-- The fetch that the retry of a record makes. -/
def fetchOf (app : AppShadow) : Call := .Fetch app.Date app.Ref.Domain app.Ref.DomainID

/-- A collection is in date-ascending order: no element is dated before its
predecessor (equal dates allowed). -/
def DateAscending {α : Type} (date : α → Time) (l : List α) : Prop :=
  List.Chain' (fun a b => (date a).unixNano ≤ (date b).unixNano) l

/-- The tasks still in flight when `ExecuteMonthly` returns: those of the `n`
whose result was not received. -/
def orphans (n : Nat) (events : Nat → Event) : Nat :=
  n - ((ExecuteMonthly n events).numSuccess + (ExecuteMonthly n events).numErrors)

/-- The whole days of a duration in nanoseconds, the fraction discarded
(toward zero). -/
def wholeDays (d : Int) : Int := Int.tdiv d nanosPerDay

/-- The player counts of the samples of `l` whose month number is `t`. -/
def countsOfMonth (t : Int) (l : List DailyMetric) : List Int :=
  (l.filter (fun s => decide (s.Date.Month = t))).map DailyMetric.PlayerCount

/-- The exact rational value of a floating-point number. -/
def FP.val (a : FP) : ℚ := (a.num : ℚ) / (a.den : ℚ)

/-- The fraction `N / D` rounded to an integer: nearest, ties to even (the
rounding step inside `roundMag`). -/
def roundNearestEven (N D : Nat) : Nat :=
  if D < 2 * (N % D) ∨ (2 * (N % D) = D ∧ N / D % 2 = 1) then N / D + 1 else N / D

/-- The day count that `dayDiff` computes from a duration in nanoseconds:
`int(d.Hours() / HOURSPERDAY)`. -/
def daysOfDuration (d : Int) : Int :=
  fpToInt (fpDiv binary64 (Duration.Hours d) (fpOfInt binary64 HOURSPERDAY))

/-- The floating-point number of opposite sign. -/
def fpNeg (a : FP) : FP := ⟨-a.num, a.den⟩

/-- A floating-point number that is not negative, with a proper denominator. -/
def FP.Good (a : FP) : Prop := 0 < a.den ∧ 0 ≤ a.num

/-- Midnight UTC of a civil date. -/
def day (y : Int) (m : Int) (d : Int) : Time := Time.Date y m d 0 0 0 0

/-! ## Theorems -/

theorem wrapInt_add_wrapInt (a b : Int) : wrapInt (wrapInt a + b) = wrapInt (a + b) := by
  unfold wrapInt
  omega

theorem wrapInt_of_inInt {x : Int} (h : InInt x) : wrapInt x = x := by
  unfold InInt at h
  unfold wrapInt
  omega

theorem tdiv_inInt {t n : Int} (ht : InInt t) (hn : 0 < n) : InInt (t.tdiv n) := by
  unfold InInt at ht ⊢
  rcases le_or_lt 0 t with h | h
  · rw [Int.tdiv_eq_ediv h (le_of_lt hn)]
    have h1 := Int.ediv_nonneg h (le_of_lt hn)
    have h2 := Int.ediv_le_self n h
    omega
  · have h0 : 0 ≤ -t := by omega
    have h3 := Int.neg_tdiv t n
    rw [Int.tdiv_eq_ediv h0 (le_of_lt hn)] at h3
    have h1 := Int.ediv_nonneg h0 (le_of_lt hn)
    have h2 := Int.ediv_le_self n h0
    omega

theorem foldl_intAdd (cs : List Int) (a : Int) :
    cs.foldl intAdd (wrapInt a) = wrapInt (a + cs.sum) := by
  induction cs generalizing a with
  | nil => simp
  | cons c cs ih =>
    simp only [List.foldl_cons, List.sum_cons, intAdd, wrapInt_add_wrapInt, ih]
    congr 1
    ring

theorem le_foldl_max (cs : List Int) (p : Int) :
    p ≤ cs.foldl max p ∧ ∀ c ∈ cs, c ≤ cs.foldl max p := by
  induction cs generalizing p with
  | nil => simp
  | cons c cs ih =>
    have h := ih (max p c)
    have hp : p ≤ max p c := by unfold max; split <;> omega
    have hc : c ≤ max p c := by unfold max; split <;> omega
    refine ⟨le_trans hp h.1, ?_⟩
    intro x hx
    rcases List.mem_cons.mp hx with rfl | hx
    · exact le_trans hc h.1
    · exact h.2 x hx

theorem foldl_max_mem (cs : List Int) (p : Int) : cs.foldl max p ∈ p :: cs := by
  induction cs generalizing p with
  | nil => simp
  | cons c cs ih =>
    have h := ih (max p c)
    rcases List.mem_cons.mp h with h | h
    · rw [List.foldl_cons, h]
      unfold max
      split <;> simp
    · exact List.mem_cons_of_mem _ (List.mem_cons_of_mem _ h)

theorem foldl_sanitiseStep (cdt : Time) (l : List DailyMetric) (v : SanitiseVars) :
    l.foldl (sanitiseStep cdt (sanitiseTargetMonth cdt)) v =
      { newDailyMetricList := v.newDailyMetricList ++ l.filter (retained cdt)
        total := (matchingCounts cdt (l.filter (retained cdt))).foldl intAdd v.total
        numCounted := v.numCounted + (matchingCounts cdt (l.filter (retained cdt))).length
        newPeak := (matchingCounts cdt (l.filter (retained cdt))).foldl max v.newPeak } := by
  induction l generalizing v with
  | nil => simp [matchingCounts]
  | cons s l ih =>
    rw [List.foldl_cons, ih]
    by_cases h1 : dayDiff cdt s.Date < 90
    · by_cases h2 : s.Date.Month = sanitiseTargetMonth cdt
      · simp [sanitiseStep, matchingCounts, retained, h1, h2, not_le.mpr h1]
        omega
      · have h2' : ¬ sanitiseTargetMonth cdt = s.Date.Month := fun h => h2 h.symm
        simp [sanitiseStep, matchingCounts, retained, h1, h2, h2', not_le.mpr h1]
    · simp [sanitiseStep, matchingCounts, retained, h1, not_lt.mp h1]

/-- The three results of `monthlySanitise` in closed form. -/
theorem monthlySanitise_eq (appBom : App) (cdt : Time) :
    monthlySanitise appBom cdt =
      (appBom.DailyMetrics.filter (retained cdt),
        (matchingCounts cdt (appBom.DailyMetrics.filter (retained cdt))).foldl max 0,
        if (matchingCounts cdt (appBom.DailyMetrics.filter (retained cdt))) = [] then 0
        else intDiv (wrapInt (matchingCounts cdt (appBom.DailyMetrics.filter (retained cdt))).sum)
          (matchingCounts cdt (appBom.DailyMetrics.filter (retained cdt))).length) := by
  unfold monthlySanitise
  simp only [foldl_sanitiseStep, sortDates, List.nil_append]
  have h0 : ∀ l : List Int, l.foldl intAdd 0 = wrapInt l.sum := by
    intro l
    have h := foldl_intAdd l 0
    have hz : wrapInt 0 = 0 := by decide
    rw [hz] at h
    simpa using h
  refine Prod.ext rfl (Prod.ext rfl ?_)
  simp only
  generalize matchingCounts cdt (appBom.DailyMetrics.filter (retained cdt)) = cs
  cases cs with
  | nil => simp
  | cons c cs =>
    have hpos : (0 : Int) + ((c :: cs).length : Int) > 0 := by
      simp only [List.length_cons]; omega
    rw [if_pos hpos, if_neg (List.cons_ne_nil c cs)]
    rw [h0]
    simp

/-! ### Floating point and formatting -/

theorem bitLenAux_spec (fuel n : Nat) (hf : n ≤ fuel) (hn : n ≠ 0) :
    2 ^ (bitLenAux fuel n - 1) ≤ n ∧ n < 2 ^ bitLenAux fuel n ∧ 1 ≤ bitLenAux fuel n := by
  induction fuel generalizing n with
  | zero => omega
  | succ fuel ih =>
    unfold bitLenAux
    rw [if_neg hn]
    by_cases h2 : n / 2 = 0
    · have h1 : n = 1 := by omega
      subst h1
      cases fuel <;> simp [bitLenAux]
    · have hle : n / 2 ≤ fuel := by omega
      obtain ⟨ha, hb, hc⟩ := ih (n / 2) hle h2
      generalize bitLenAux fuel (n / 2) = L at ha hb hc
      refine ⟨?_, ?_, by omega⟩
      · have : L + 1 - 1 = (L - 1) + 1 := by omega
        rw [this, pow_succ]
        omega
      · rw [pow_succ]
        omega

theorem bitLen_spec (n : Nat) (hn : n ≠ 0) :
    2 ^ (bitLen n - 1) ≤ n ∧ n < 2 ^ bitLen n ∧ 1 ≤ bitLen n :=
  bitLenAux_spec n n (le_refl n) hn

theorem scaleBy_neg (n d k : Nat) (hk : 0 < k) :
    scaleBy n d (-(k : Int)) = (n * 2 ^ k, d) := by
  unfold scaleBy
  have h : ¬ (0 : Int) ≤ -(k : Int) := by omega
  rw [if_neg h]
  simp

theorem scaleBy_nonneg (n d k : Nat) : scaleBy n d (k : Int) = (n, d * 2 ^ k) := by
  unfold scaleBy
  have h : (0 : Int) ≤ (k : Int) := by omega
  rw [if_pos h]
  simp

/-- The quotient and remainder of the fraction `n / (1 * 2^(-k))`: an integer. -/
theorem scaleBy_one_neg_divmod (n k : Nat) :
    (scaleBy n 1 (-(k : Int))).1 / (scaleBy n 1 (-(k : Int))).2 = n * 2 ^ k
      ∧ (scaleBy n 1 (-(k : Int))).1 % (scaleBy n 1 (-(k : Int))).2 = 0 := by
  rcases Nat.eq_zero_or_pos k with h | h
  · subst h
    have := scaleBy_nonneg n 1 0
    simp only [Nat.cast_zero, pow_zero, mul_one] at this
    simp only [Nat.cast_zero, neg_zero, this, pow_zero, mul_one, Nat.div_one, Nat.mod_one,
      and_self]
  · rw [scaleBy_neg n 1 k h]
    simp only [Nat.div_one, Nat.mod_one, and_self]

theorem scaleBy_one_neg_den (n k : Nat) : (scaleBy n 1 (-(k : Int))).2 = 1 := by
  rcases Nat.eq_zero_or_pos k with h | h
  · subst h
    have := scaleBy_nonneg n 1 0
    simp only [Nat.cast_zero, pow_zero, mul_one] at this
    simp only [Nat.cast_zero, neg_zero, this]
  · rw [scaleBy_neg n 1 k h]

theorem bitLen_one : bitLen 1 = 1 := by decide

theorem ulpExp_int (f : FPFormat) (n : Nat) (hn : n ≠ 0) (hlt : n < 2 ^ f.prec)
    (hemin : f.emin ≤ -(f.prec : Int)) :
    ulpExp f n 1 = -((f.prec - bitLen n : Nat) : Int) ∧ bitLen n ≤ f.prec := by
  obtain ⟨ha, hb, hc⟩ := bitLen_spec n hn
  generalize hLdef : bitLen n = L at ha hb hc
  have hL : L ≤ f.prec := by
    by_contra hgt
    have h1 : f.prec ≤ L - 1 := by omega
    have := Nat.pow_le_pow_right (show 0 < 2 by omega) h1
    omega
  refine ⟨?_, hL⟩
  obtain ⟨k, hk⟩ : ∃ k, f.prec = L + k := ⟨f.prec - L, by omega⟩
  have hk' : f.prec - L = k := by omega
  rw [hk']
  unfold ulpExp
  rw [bitLen_one, hLdef]
  have he0 : ((L : Int) - ((1 : Nat) : Int) - (f.prec : Int)) = -((k + 1 : Nat) : Int) := by
    rw [hk]; push_cast; ring
  simp only [he0]
  rw [scaleBy_neg n 1 (k + 1) (by omega)]
  simp only [Nat.div_one]
  have hge : ¬ n * 2 ^ (k + 1) < 2 ^ f.prec := by
    rw [hk, not_lt]
    calc 2 ^ (L + k) = 2 ^ (L - 1) * 2 ^ (k + 1) := by
            rw [← pow_add]; congr 1; omega
      _ ≤ n * 2 ^ (k + 1) := Nat.mul_le_mul_right _ ha
  rw [if_neg hge]
  have : (-((k + 1 : Nat) : Int) + 1) = -(k : Int) := by push_cast; ring
  rw [this]
  apply max_eq_left
  rw [hk] at hemin
  push_cast at hemin
  omega

theorem fpOfInt_exact (f : FPFormat) (i : Int) (hlt : i.natAbs < 2 ^ f.prec)
    (hemin : f.emin ≤ -(f.prec : Int)) :
    0 < (fpOfInt f i).den ∧ (fpOfInt f i).num = i * (fpOfInt f i).den := by
  unfold fpOfInt fpRound
  by_cases h0 : i = 0
  · simp [h0]
  · have hc : ¬ (i = 0 ∨ 1 = 0) := by omega
    rw [if_neg hc]
    have hn : i.natAbs ≠ 0 := by omega
    obtain ⟨he, _⟩ := ulpExp_int f i.natAbs hn hlt hemin
    generalize f.prec - bitLen i.natAbs = k at he
    obtain ⟨hq, hr⟩ := scaleBy_one_neg_divmod i.natAbs k
    have hm : roundMag f i.natAbs 1 = (i.natAbs * 2 ^ k, -(k : Int)) := by
      unfold roundMag
      simp only [he, hq, hr]
      have : ¬ ((scaleBy i.natAbs 1 (-(k : Int))).2 < 2 * 0
          ∨ (2 * 0 = (scaleBy i.natAbs 1 (-(k : Int))).2 ∧ i.natAbs * 2 ^ k % 2 = 1)) := by
        rw [scaleBy_one_neg_den]
        omega
      rw [if_neg this]
    simp only [hm, neg_neg, scaleBy_nonneg]
    have hpos : 0 < 2 ^ k := pow_pos (by norm_num) k
    refine ⟨by simp, ?_⟩
    simp only [one_mul]
    push_cast
    by_cases hneg : i < 0
    · rw [if_pos hneg, abs_of_neg hneg]; ring
    · rw [if_neg hneg, abs_of_nonneg (not_lt.mp hneg)]; ring

theorem sprintfF2_of_int (x : FP) (i : Int) (hd : 0 < x.den) (h : x.num = i * x.den) :
    sprintfF2 x = sprintfD i ++ ".00" := by
  have hn : x.num.natAbs * 100 = (i.natAbs * 100) * x.den := by
    rw [h, Int.natAbs_mul, Int.natAbs_ofNat]; ring
  have hq : x.num.natAbs * 100 / x.den = i.natAbs * 100 := by
    rw [hn]; exact Nat.mul_div_cancel _ hd
  have hr : x.num.natAbs * 100 % x.den = 0 := by
    rw [hn]; exact Nat.mul_mod_left _ _
  have hs : (x.num < 0) ↔ (i < 0) := by
    rw [h]
    have hd' : (0 : Int) < (x.den : Int) := by exact_mod_cast hd
    constructor
    · intro hlt
      by_contra hge
      have := mul_nonneg (not_lt.mp hge) (le_of_lt hd')
      omega
    · intro hlt
      exact mul_neg_of_neg_of_pos hlt hd'
  unfold sprintfF2 sprintfD
  simp only [hq, hr]
  have hcond : ¬ (x.den < 2 * 0 ∨ (2 * 0 = x.den ∧ i.natAbs * 100 % 2 = 1)) := by omega
  rw [if_neg hcond]
  have h1 : i.natAbs * 100 / 100 = i.natAbs := by omega
  have h2 : i.natAbs * 100 % 100 / 10 = 0 := by omega
  have h3 : i.natAbs * 100 % 10 = 0 := by omega
  rw [h1, h2, h3]
  simp only [hs]
  have h0 : toString (0 : Nat) = "0" := by decide
  rw [h0]
  simp only [String.append_assoc]
  rfl

/-! ### `monthlySanitise` and `dayDiff` -/

/-- The day difference depends on the two instants through their distance only. -/
theorem dayDiff_eq_of_sub (a b : Time) (n : Int) (h : a.unixNano - b.unixNano = n) :
    dayDiff a b = dayDiff ⟨n⟩ ⟨0⟩ := by
  unfold dayDiff Time.Sub
  simp [h]

/-! ### C1: retention -/

/-- C1: the list retained by `monthlySanitise` is the input history filtered by
`dayDiff(D, sample.Date) < 90`, every kept sample once, unmodified and in input
order; a sample dated exactly 90 days before the reference date is never in it, a
sample of the history dated 89 days before is always in it; for D = 2024-06-01 the
difference to 2024-03-03 is 90 (excluded) and to 2024-03-04 is 89 (included). -/
theorem monthlySanitise_retention (appBom : App) (D : Time) :
    (monthlySanitise appBom D).1
        = appBom.DailyMetrics.filter (fun s => decide (dayDiff D s.Date < 90))
      ∧ (∀ s : DailyMetric, s.Date.unixNano = D.unixNano - 90 * nanosPerDay →
          s ∉ (monthlySanitise appBom D).1)
      ∧ (∀ s ∈ appBom.DailyMetrics, s.Date.unixNano = D.unixNano - 89 * nanosPerDay →
          s ∈ (monthlySanitise appBom D).1)
      ∧ dayDiff (day 2024 6 1) (day 2024 3 3) = 90
      ∧ dayDiff (day 2024 6 1) (day 2024 3 4) = 89
      ∧ (monthlySanitise ⟨[⟨day 2024 3 3, 7⟩, ⟨day 2024 3 4, 8⟩]⟩ (day 2024 6 1)).1
          = [⟨day 2024 3 4, 8⟩] := by
  have hfilter : (monthlySanitise appBom D).1
      = appBom.DailyMetrics.filter (fun s => decide (dayDiff D s.Date < 90)) := by
    rw [monthlySanitise_eq]
    rfl
  refine ⟨hfilter, ?_, ?_, by decide, by decide, by decide⟩
  · intro s hs hmem
    rw [hfilter, List.mem_filter] at hmem
    have h90 : dayDiff D s.Date = 90 := by
      rw [dayDiff_eq_of_sub D s.Date (90 * nanosPerDay) (by rw [hs]; ring)]
      decide
    have := of_decide_eq_true hmem.2
    omega
  · intro s hs hdate
    rw [hfilter, List.mem_filter]
    refine ⟨hs, decide_eq_true ?_⟩
    have h89 : dayDiff D s.Date = 89 := by
      rw [dayDiff_eq_of_sub D s.Date (89 * nanosPerDay) (by rw [hdate]; ring)]
      decide
    omega

/-- Witness of C1 at the history [2024-03-03, 2024-03-04] and D = 2024-06-01. -/
theorem monthlySanitise_retention_witness :
    (⟨day 2024 3 3, 7⟩ : DailyMetric)
        ∉ (monthlySanitise ⟨[⟨day 2024 3 3, 7⟩, ⟨day 2024 3 4, 8⟩]⟩ (day 2024 6 1)).1
      ∧ (⟨day 2024 3 4, 8⟩ : DailyMetric)
        ∈ (monthlySanitise ⟨[⟨day 2024 3 3, 7⟩, ⟨day 2024 3 4, 8⟩]⟩ (day 2024 6 1)).1 :=
  ⟨(monthlySanitise_retention ⟨[⟨day 2024 3 3, 7⟩, ⟨day 2024 3 4, 8⟩]⟩ (day 2024 6 1)).2.1
      ⟨day 2024 3 3, 7⟩ (by decide),
    (monthlySanitise_retention ⟨[⟨day 2024 3 3, 7⟩, ⟨day 2024 3 4, 8⟩]⟩ (day 2024 6 1)).2.2.1
      ⟨day 2024 3 4, 8⟩ (by decide) (by decide)⟩

/-! ### C2: peak and average -/

/-- The peak and the average of `monthlySanitise` for any history: the peak is
the greatest of 0 and the player counts of the retained samples of the target
month; the average is 0 when there is no such sample and otherwise the truncated
quotient of their total, summed in 64-bit arithmetic, by their number. -/
theorem monthlySanitise_peak_average (appBom : App) (D : Time) :
    ((monthlySanitise appBom D).2.1 ∈ 0 :: matchingCounts D (monthlySanitise appBom D).1
        ∧ ∀ c ∈ 0 :: matchingCounts D (monthlySanitise appBom D).1,
            c ≤ (monthlySanitise appBom D).2.1)
      ∧ (matchingCounts D (monthlySanitise appBom D).1 ≠ [] →
          (∀ c ∈ matchingCounts D (monthlySanitise appBom D).1, 0 ≤ c) →
          IsMaximumOf (matchingCounts D (monthlySanitise appBom D).1)
            (monthlySanitise appBom D).2.1)
      ∧ (monthlySanitise appBom D).2.2
          = (if matchingCounts D (monthlySanitise appBom D).1 = [] then 0
             else intDiv (wrapInt (matchingCounts D (monthlySanitise appBom D).1).sum)
               (matchingCounts D (monthlySanitise appBom D).1).length)
      ∧ (matchingCounts D (monthlySanitise appBom D).1 ≠ [] →
          InInt (matchingCounts D (monthlySanitise appBom D).1).sum →
          (monthlySanitise appBom D).2.2
            = Int.tdiv (matchingCounts D (monthlySanitise appBom D).1).sum
                (matchingCounts D (monthlySanitise appBom D).1).length)
      ∧ (matchingCounts D (monthlySanitise appBom D).1 = [] →
          (monthlySanitise appBom D).2.2 = 0 ∧ (monthlySanitise appBom D).2.1 = 0)
      ∧ sanitiseTargetMonth D = (if D.Month = 1 then 12 else D.Month - 1)
      ∧ monthlySanitise
            ⟨[⟨day 2024 5 1, 10⟩, ⟨day 2024 5 2, 20⟩, ⟨day 2024 5 3, 30⟩]⟩ (day 2024 6 1)
          = ([⟨day 2024 5 1, 10⟩, ⟨day 2024 5 2, 20⟩, ⟨day 2024 5 3, 30⟩], 30, 20) := by
  rw [monthlySanitise_eq]
  simp only
  generalize matchingCounts D (appBom.DailyMetrics.filter (retained D)) = cs
  have hmem := foldl_max_mem cs 0
  have hle := le_foldl_max cs 0
  have htarget : sanitiseTargetMonth D = (if D.Month = 1 then 12 else D.Month - 1) := by
    unfold sanitiseTargetMonth December
    simp only
    by_cases h : D.Month = 1
    · rw [if_pos h, if_pos (by omega)]
    · rw [if_neg h, if_neg (by omega)]
  refine ⟨⟨hmem, ?_⟩, ?_, trivial, ?_, ?_, htarget, by decide⟩
  · intro c hc
    rcases List.mem_cons.mp hc with rfl | hc
    · exact hle.1
    · exact hle.2 c hc
  · intro hne hnn
    refine ⟨?_, hle.2⟩
    rcases List.mem_cons.mp hmem with h0 | h
    · obtain ⟨c, hc⟩ := List.exists_mem_of_ne_nil cs hne
      have h1 := hle.2 c hc
      have h2 := hnn c hc
      have : c = 0 := by omega
      rw [h0, ← this]
      exact hc
    · exact h
  · intro hne hin
    rw [if_neg hne, wrapInt_of_inInt hin]
    apply wrapInt_of_inInt
    have hlen : (1 : Int) ≤ (cs.length : Int) := by
      have := List.length_pos.mpr hne
      omega
    exact tdiv_inInt hin (by omega)
  · intro hnil
    simp [hnil]

/-- C2: for a history of non-negative player counts, `monthlySanitise` returns as
peak the maximum player count of the retained samples dated in the target month,
the calendar month before that of the reference date, and as average their total
divided by their number in integer division (Go's `int` total, which is their sum
whenever the sum fits an `int`); when no retained sample is in the target month
the average and the peak are 0; for the matching counts [10, 20, 30] the average
is 20 and the peak 30. -/
theorem monthlySanitise_peak_maximum (appBom : App) (D : Time)
    (hnn : ∀ s ∈ appBom.DailyMetrics, 0 ≤ s.PlayerCount) :
    (monthlySanitise appBom D).1 = appBom.DailyMetrics.filter (retained D)
      ∧ (matchingCounts D (monthlySanitise appBom D).1 ≠ [] →
          IsMaximumOf (matchingCounts D (monthlySanitise appBom D).1)
              (monthlySanitise appBom D).2.1
            ∧ (monthlySanitise appBom D).2.2
              = intDiv (wrapInt (matchingCounts D (monthlySanitise appBom D).1).sum)
                  (matchingCounts D (monthlySanitise appBom D).1).length
            ∧ (InInt (matchingCounts D (monthlySanitise appBom D).1).sum →
                (monthlySanitise appBom D).2.2
                  = Int.tdiv (matchingCounts D (monthlySanitise appBom D).1).sum
                      (matchingCounts D (monthlySanitise appBom D).1).length))
      ∧ (matchingCounts D (monthlySanitise appBom D).1 = [] →
          (monthlySanitise appBom D).2.2 = 0 ∧ (monthlySanitise appBom D).2.1 = 0)
      ∧ sanitiseTargetMonth D = (if D.Month = 1 then 12 else D.Month - 1)
      ∧ monthlySanitise
            ⟨[⟨day 2024 5 1, 10⟩, ⟨day 2024 5 2, 20⟩, ⟨day 2024 5 3, 30⟩]⟩ (day 2024 6 1)
          = ([⟨day 2024 5 1, 10⟩, ⟨day 2024 5 2, 20⟩, ⟨day 2024 5 3, 30⟩], 30, 20) := by
  have hlist : (monthlySanitise appBom D).1 = appBom.DailyMetrics.filter (retained D) := by
    rw [monthlySanitise_eq]
  obtain ⟨_, hmax, havg, hexact, hnil, htarget, hex⟩ := monthlySanitise_peak_average appBom D
  have hcounts : ∀ c ∈ matchingCounts D (monthlySanitise appBom D).1, 0 ≤ c := by
    intro c hc
    rw [hlist] at hc
    unfold matchingCounts at hc
    obtain ⟨s, hs, rfl⟩ := List.mem_map.mp hc
    exact hnn s (List.mem_filter.mp (List.mem_filter.mp hs).1).1
  refine ⟨hlist, fun hne => ⟨hmax hne hcounts, ?_, hexact hne⟩, hnil, htarget, hex⟩
  rw [havg, if_neg hne]

/-- Witness of C2 at the history [10, 20, 30] of May 2024 and the reference date
2024-06-01. -/
theorem monthlySanitise_peak_maximum_witness :
    IsMaximumOf
        (matchingCounts (day 2024 6 1) (monthlySanitise
          ⟨[⟨day 2024 5 1, 10⟩, ⟨day 2024 5 2, 20⟩, ⟨day 2024 5 3, 30⟩]⟩ (day 2024 6 1)).1)
        (monthlySanitise
          ⟨[⟨day 2024 5 1, 10⟩, ⟨day 2024 5 2, 20⟩, ⟨day 2024 5 3, 30⟩]⟩ (day 2024 6 1)).2.1
      ∧ (monthlySanitise
          ⟨[⟨day 2024 5 1, 10⟩, ⟨day 2024 5 2, 20⟩, ⟨day 2024 5 3, 30⟩]⟩ (day 2024 6 1)).2.2
        = Int.tdiv (matchingCounts (day 2024 6 1) (monthlySanitise
            ⟨[⟨day 2024 5 1, 10⟩, ⟨day 2024 5 2, 20⟩, ⟨day 2024 5 3, 30⟩]⟩ (day 2024 6 1)).1).sum
          (matchingCounts (day 2024 6 1) (monthlySanitise
            ⟨[⟨day 2024 5 1, 10⟩, ⟨day 2024 5 2, 20⟩, ⟨day 2024 5 3, 30⟩]⟩ (day 2024 6 1)).1).length :=
  ⟨((monthlySanitise_peak_maximum
      ⟨[⟨day 2024 5 1, 10⟩, ⟨day 2024 5 2, 20⟩, ⟨day 2024 5 3, 30⟩]⟩ (day 2024 6 1)
      (by decide)).2.1 (by decide)).1,
    ((monthlySanitise_peak_maximum
      ⟨[⟨day 2024 5 1, 10⟩, ⟨day 2024 5 2, 20⟩, ⟨day 2024 5 3, 30⟩]⟩ (day 2024 6 1)
      (by decide)).2.1 (by decide)).2.2 (by decide)⟩

/-! ### `sort.Slice` -/

/-- Up to 12 elements `sort.Slice` is the insertion sort of the whole slice. -/
theorem sortSlice_short {α : Type} (date : α → Time) (list : List α)
    (h : list.length ≤ 12) :
    sortSlice date list = insertionSort_func date list 0 list.length := by
  unfold sortSlice pdqsortLoop
  simp only [Nat.sub_zero, h, if_true]

/-- On 13 samples `sort.Slice` does not keep the order of equal dates: the pivot
is the sample at index 6, which the partition moves to the front. -/
theorem sortSlice_thirteen :
    sortSlice DailyMetric.Date
        [⟨day 2024 5 2, 0⟩, ⟨day 2024 5 1, 1⟩, ⟨day 2024 5 1, 2⟩, ⟨day 2024 5 1, 3⟩,
          ⟨day 2024 5 1, 4⟩, ⟨day 2024 5 1, 5⟩, ⟨day 2024 5 1, 6⟩, ⟨day 2024 5 1, 7⟩,
          ⟨day 2024 5 1, 8⟩, ⟨day 2024 5 1, 9⟩, ⟨day 2024 5 1, 10⟩, ⟨day 2024 5 1, 11⟩,
          ⟨day 2024 5 1, 12⟩]
      = [⟨day 2024 5 1, 6⟩, ⟨day 2024 5 1, 1⟩, ⟨day 2024 5 1, 2⟩, ⟨day 2024 5 1, 3⟩,
          ⟨day 2024 5 1, 4⟩, ⟨day 2024 5 1, 5⟩, ⟨day 2024 5 1, 7⟩, ⟨day 2024 5 1, 8⟩,
          ⟨day 2024 5 1, 9⟩, ⟨day 2024 5 1, 10⟩, ⟨day 2024 5 1, 11⟩, ⟨day 2024 5 1, 12⟩,
          ⟨day 2024 5 2, 0⟩] := by
  decide

/-! ### C3: order of the retained list -/

/-- C3 fails on the code: `monthlySanitise` hands `sortDates` the slice, not a
pointer to it, so nothing is sorted. For the history [2024-05-20, 2024-05-10]
and the reference date 2024-06-01 both samples are retained in input order,
which is not date-ascending, while `sortDates` on a pointer to the same slice
does put it in order. -/
theorem monthlySanitise_keeps_input_order :
    (monthlySanitise ⟨[⟨day 2024 5 20, 1⟩, ⟨day 2024 5 10, 2⟩]⟩ (day 2024 6 1)).1
        = [⟨day 2024 5 20, 1⟩, ⟨day 2024 5 10, 2⟩]
      ∧ sliceIsSorted DailyMetric.Date
          (monthlySanitise ⟨[⟨day 2024 5 20, 1⟩, ⟨day 2024 5 10, 2⟩]⟩ (day 2024 6 1)).1
        = false
      ∧ sortDates (.dailyMetrics [⟨day 2024 5 20, 1⟩, ⟨day 2024 5 10, 2⟩])
        = .dailyMetrics [⟨day 2024 5 20, 1⟩, ⟨day 2024 5 10, 2⟩]
      ∧ sortDates (.ptrDailyMetrics [⟨day 2024 5 20, 1⟩, ⟨day 2024 5 10, 2⟩])
        = .ptrDailyMetrics [⟨day 2024 5 10, 2⟩, ⟨day 2024 5 20, 1⟩] := by
  refine ⟨by decide, by decide, by decide, by decide⟩

/-! ### C4: gain percentage -/

/-- C4, as stated, fails: with previous average 1 and new average 16777218 the
integer quotient is 16777217, but `float32` cannot hold it and the text written
is "16777216.00%", not the quotient with two decimals. -/
theorem constructNewMonthMetric_gainPercent_not_quotient :
    intDiv (intSub 16777218 1) 1 = 16777217
      ∧ (constructNewMonthMetric (some ⟨day 2024 4 1, 1, "-", "-", 5⟩) 9 16777218
          (day 2024 5 17)).GainPercent = "16777216.00%"
      ∧ (constructNewMonthMetric (some ⟨day 2024 4 1, 1, "-", "-", 5⟩) 9 16777218
          (day 2024 5 17)).GainPercent ≠ sprintfD 16777217 ++ ".00%" := by
  refine ⟨by decide, by decide, by decide⟩

/-- C4, amended: `GainPercent` is "-" when `previous` is absent or its
`AvgPlayers` is not greater than 0; otherwise it is the truncated integer
quotient `(avg - previous.AvgPlayers) / previous.AvgPlayers` converted to
`float32` and written with two decimals and a percent sign, which is the
quotient itself followed by ".00%" whenever its magnitude is at most 2^24; the
quotient is that of the exact difference whenever the difference fits an `int`;
for previous average 100 and new average 150 the text is "0.00%". -/
theorem constructNewMonthMetric_gainPercent (previous : Option Metric) (peak avg : Int)
    (cdt : Time) :
    (previous = none → (constructNewMonthMetric previous peak avg cdt).GainPercent = "-")
      ∧ (∀ prev, previous = some prev → ¬ prev.AvgPlayers > 0 →
          (constructNewMonthMetric previous peak avg cdt).GainPercent = "-")
      ∧ (∀ prev, previous = some prev → prev.AvgPlayers > 0 →
          (constructNewMonthMetric previous peak avg cdt).GainPercent
              = sprintfF2 (fpOfInt binary32
                  (intDiv (intSub avg prev.AvgPlayers) prev.AvgPlayers)) ++ "%"
            ∧ ((intDiv (intSub avg prev.AvgPlayers) prev.AvgPlayers).natAbs ≤ 2 ^ 24 →
                (constructNewMonthMetric previous peak avg cdt).GainPercent
                  = sprintfD (intDiv (intSub avg prev.AvgPlayers) prev.AvgPlayers) ++ ".00%")
            ∧ (InInt (avg - prev.AvgPlayers) →
                intDiv (intSub avg prev.AvgPlayers) prev.AvgPlayers
                  = Int.tdiv (avg - prev.AvgPlayers) prev.AvgPlayers))
      ∧ (constructNewMonthMetric (some ⟨day 2024 4 1, 100, "-", "-", 5⟩) 9 150
          (day 2024 5 17)).GainPercent = "0.00%" := by
  refine ⟨?_, ?_, ?_, by decide⟩
  · intro h
    subst h
    rfl
  · intro prev h hle
    subst h
    simp [constructNewMonthMetric, hle]
  · intro prev h hpos
    subst h
    have hgp : (constructNewMonthMetric (some prev) peak avg cdt).GainPercent
        = sprintfF2 (fpOfInt binary32
            (intDiv (intSub avg prev.AvgPlayers) prev.AvgPlayers)) ++ "%" := by
      simp [constructNewMonthMetric, hpos]
    refine ⟨hgp, ?_, ?_⟩
    · intro hq
      rw [hgp]
      generalize intDiv (intSub avg prev.AvgPlayers) prev.AvgPlayers = q at hq
      have hfmt : sprintfF2 (fpOfInt binary32 q) = sprintfD q ++ ".00" := by
        rcases Nat.lt_or_ge q.natAbs (2 ^ 24) with hlt | hge
        · obtain ⟨hd, hnum⟩ := fpOfInt_exact binary32 q hlt (by decide)
          exact sprintfF2_of_int _ q hd hnum
        · have habs : q.natAbs = 2 ^ 24 := le_antisymm hq hge
          have hcases : q = 16777216 ∨ q = -16777216 := by omega
          rcases hcases with h | h <;> subst h <;> decide
      rw [hfmt, String.append_assoc]
      rfl
    · intro hin
      unfold intDiv intSub
      rw [wrapInt_of_inInt hin]
      exact wrapInt_of_inInt (tdiv_inInt hin hpos)

/-- Witness of C4 (amended) at previous average 100 and new average -150: the
quotient is -2 and the text "-2.00%". -/
theorem constructNewMonthMetric_gainPercent_witness :
    (constructNewMonthMetric (some ⟨day 2024 4 1, 100, "-", "-", 5⟩) 9 (-150)
        (day 2024 5 17)).GainPercent = sprintfD (intDiv (intSub (-150) 100) 100) ++ ".00%"
      ∧ intDiv (intSub (-150) 100) 100 = Int.tdiv (-150 - 100) 100
      ∧ (constructNewMonthMetric none 9 (-150) (day 2024 5 17)).GainPercent = "-"
      ∧ (constructNewMonthMetric (some ⟨day 2024 4 1, 0, "-", "-", 5⟩) 9 (-150)
          (day 2024 5 17)).GainPercent = "-" :=
  ⟨((constructNewMonthMetric_gainPercent (some ⟨day 2024 4 1, 100, "-", "-", 5⟩) 9 (-150)
      (day 2024 5 17)).2.2.1 ⟨day 2024 4 1, 100, "-", "-", 5⟩ rfl (by decide)).2.1 (by decide),
    ((constructNewMonthMetric_gainPercent (some ⟨day 2024 4 1, 100, "-", "-", 5⟩) 9 (-150)
      (day 2024 5 17)).2.2.1 ⟨day 2024 4 1, 100, "-", "-", 5⟩ rfl (by decide)).2.2 (by decide),
    (constructNewMonthMetric_gainPercent none 9 (-150) (day 2024 5 17)).1 rfl,
    (constructNewMonthMetric_gainPercent (some ⟨day 2024 4 1, 0, "-", "-", 5⟩) 9 (-150)
      (day 2024 5 17)).2.1 ⟨day 2024 4 1, 0, "-", "-", 5⟩ rfl (by decide)⟩

/-! ### C5: gain -/

/-- C5: `Gain` is the sentinel "-" (and so not "0") when `previous` is absent;
when `previous` is present it is the decimal text of `avg - previous.AvgPlayers`
computed on `int` (of the exact difference whenever that fits an `int`), also
when `previous.AvgPlayers` is 0, where `GainPercent` alone is the sentinel. -/
theorem constructNewMonthMetric_gain (previous : Option Metric) (peak avg : Int)
    (cdt : Time) :
    (previous = none →
        (constructNewMonthMetric previous peak avg cdt).Gain = "-"
          ∧ (constructNewMonthMetric previous peak avg cdt).Gain ≠ "0"
          ∧ (constructNewMonthMetric previous peak avg cdt).GainPercent = "-")
      ∧ (∀ prev, previous = some prev →
          (constructNewMonthMetric previous peak avg cdt).Gain
              = sprintfD (intSub avg prev.AvgPlayers)
            ∧ (InInt (avg - prev.AvgPlayers) →
                (constructNewMonthMetric previous peak avg cdt).Gain
                  = sprintfD (avg - prev.AvgPlayers)))
      ∧ (∀ prev, previous = some prev → prev.AvgPlayers = 0 →
          (constructNewMonthMetric previous peak avg cdt).GainPercent = "-"
            ∧ (constructNewMonthMetric previous peak avg cdt).Gain = sprintfD (wrapInt avg))
      ∧ (constructNewMonthMetric (some ⟨day 2024 4 1, 0, "-", "-", 5⟩) 9 7
          (day 2024 5 17)).Gain = "7"
      ∧ (constructNewMonthMetric (some ⟨day 2024 4 1, 100, "-", "-", 5⟩) 9 150
          (day 2024 5 17)).Gain = "50" := by
  refine ⟨?_, ?_, ?_, by decide, by decide⟩
  · intro h
    subst h
    refine ⟨rfl, ?_, rfl⟩
    show ("-" : String) ≠ "0"
    decide
  · intro prev h
    subst h
    refine ⟨rfl, ?_⟩
    intro hin
    show sprintfD (intSub avg prev.AvgPlayers) = _
    unfold intSub
    rw [wrapInt_of_inInt hin]
  · intro prev h h0
    subst h
    refine ⟨?_, ?_⟩
    · simp [constructNewMonthMetric, h0]
    · show sprintfD (intSub avg prev.AvgPlayers) = _
      unfold intSub
      rw [h0, sub_zero]

/-- Witness of C5 at previous average 0 and at an absent previous summary. -/
theorem constructNewMonthMetric_gain_witness :
    (constructNewMonthMetric (some ⟨day 2024 4 1, 0, "-", "-", 5⟩) 9 7
        (day 2024 5 17)).Gain = sprintfD (7 - 0)
      ∧ (constructNewMonthMetric (some ⟨day 2024 4 1, 0, "-", "-", 5⟩) 9 7
        (day 2024 5 17)).GainPercent = "-"
      ∧ (constructNewMonthMetric none 9 7 (day 2024 5 17)).Gain = "-" :=
  ⟨((constructNewMonthMetric_gain (some ⟨day 2024 4 1, 0, "-", "-", 5⟩) 9 7
      (day 2024 5 17)).2.1 ⟨day 2024 4 1, 0, "-", "-", 5⟩ rfl).2 (by decide),
    ((constructNewMonthMetric_gain (some ⟨day 2024 4 1, 0, "-", "-", 5⟩) 9 7
      (day 2024 5 17)).2.2.1 ⟨day 2024 4 1, 0, "-", "-", 5⟩ rfl rfl).1,
    ((constructNewMonthMetric_gain none 9 7 (day 2024 5 17)).1 rfl).1⟩

/-! ### C6: the month filter of `processAppMonthly` -/

theorem month_range (t : Time) : 1 ≤ t.Month ∧ t.Month ≤ 12 := by
  unfold Time.Month civilFromDays
  simp only
  split <;> omega

theorem foldl_monthlyStep_list (t : Int) (Y : Int) (hist : List DailyMetric)
    (v : MonthlyVars) :
    (hist.foldl (monthlyStep t Y) v).newDailyMetricList
      = v.newDailyMetricList ++ hist.filter (fun s =>
          decide (Int.tmod (t - s.Date.Month + 12) 12 < 3
            ∧ (t - s.Date.Month < 0 → s.Date.Year = Y - 1))) := by
  induction hist generalizing v with
  | nil => simp
  | cons s hist ih =>
    rw [List.foldl_cons, ih]
    have hstep : (monthlyStep t Y v s).newDailyMetricList
        = v.newDailyMetricList ++ (if Int.tmod (t - s.Date.Month + 12) 12 < 3
            ∧ (t - s.Date.Month < 0 → s.Date.Year = Y - 1) then [s] else []) := by
      unfold monthlyStep
      simp only [MONTHS]
      by_cases h1 : Int.tmod (t - s.Date.Month + 12) 12 < 3
      · by_cases hneg : t - s.Date.Month < 0
        · by_cases hy : s.Date.Year = Y - 1
          · have hp : Int.tmod (t - s.Date.Month + 12) 12 < 3
                ∧ (t - s.Date.Month < 0 → s.Date.Year = Y - 1) := ⟨h1, fun _ => hy⟩
            have hc : ¬ (t - s.Date.Month < 0 ∧ s.Date.Year ≠ Y - 1) := fun h => h.2 hy
            rw [if_pos h1, if_neg hc, if_pos hp]
            split <;> rfl
          · have hp : ¬ (Int.tmod (t - s.Date.Month + 12) 12 < 3
                ∧ (t - s.Date.Month < 0 → s.Date.Year = Y - 1)) := fun h => hy (h.2 hneg)
            have hc : t - s.Date.Month < 0 ∧ s.Date.Year ≠ Y - 1 := ⟨hneg, hy⟩
            rw [if_pos h1, if_pos hc, if_neg hp]
            simp
        · have hp : Int.tmod (t - s.Date.Month + 12) 12 < 3
              ∧ (t - s.Date.Month < 0 → s.Date.Year = Y - 1) :=
            ⟨h1, fun h => absurd h hneg⟩
          have hc : ¬ (t - s.Date.Month < 0 ∧ s.Date.Year ≠ Y - 1) := fun h => hneg h.1
          rw [if_pos h1, if_neg hc, if_pos hp]
          split <;> rfl
      · have hp : ¬ (Int.tmod (t - s.Date.Month + 12) 12 < 3
            ∧ (t - s.Date.Month < 0 → s.Date.Year = Y - 1)) := fun h => h1 h.1
        rw [if_neg h1, if_neg hp]
        split <;> simp
    rw [hstep, List.filter_cons]
    by_cases hp : Int.tmod (t - s.Date.Month + 12) 12 < 3
        ∧ (t - s.Date.Month < 0 → s.Date.Year = Y - 1)
    · rw [if_pos hp, if_pos (decide_eq_true hp)]
      simp
    · rw [if_neg hp, if_neg (by simpa using hp)]
      simp

theorem tmod_month_eq (t m : Int) (ht : 1 ≤ t) (hm : m ≤ 12) :
    Int.tmod (t - m + 12) 12 = (t - m + 12) % 12 := by
  rw [Int.tmod_eq_emod (by omega) (by omega)]

/-- C6: the scan of `processAppMonthly` retains exactly the samples, in input
order, for which `(t - m + 12) mod 12 < 3` and, when `t - m` is negative,
`y = Y - 1`, where `m`, `y` are the sample's month and year, `t` the target month
(a month, 1..12) and `Y` the target year; for `t` = January a December sample of
year `Y - 1` is retained and one of year `Y - 2` is dropped. -/
theorem monthlyScan_retains (hist : List DailyMetric) (t : Int) (Y : Int)
    (ht : 1 ≤ t ∧ t ≤ 12) :
    (monthlyScan t Y hist).newDailyMetricList
        = hist.filter (fun s =>
            decide ((t - s.Date.Month + 12) % 12 < 3
              ∧ (t - s.Date.Month < 0 → s.Date.Year = Y - 1)))
      ∧ (∀ s ∈ hist,
          (s ∈ (monthlyScan t Y hist).newDailyMetricList
            ↔ ((t - s.Date.Month + 12) % 12 < 3
              ∧ (t - s.Date.Month < 0 → s.Date.Year = Y - 1))))
      ∧ (∀ s ∈ hist, s.Date.Month = December → s.Date.Year = Y - 1 →
          s ∈ (monthlyScan January Y hist).newDailyMetricList)
      ∧ (∀ s, s.Date.Month = December → s.Date.Year = Y - 2 →
          s ∉ (monthlyScan January Y hist).newDailyMetricList)
      ∧ (monthlyScan January 2024 [⟨day 2023 12 15, 5⟩, ⟨day 2022 12 15, 6⟩]).newDailyMetricList
          = [⟨day 2023 12 15, 5⟩] := by
  have hscan : ∀ u : Int, (monthlyScan u Y hist).newDailyMetricList
      = hist.filter (fun s => decide (Int.tmod (u - s.Date.Month + 12) 12 < 3
          ∧ (u - s.Date.Month < 0 → s.Date.Year = Y - 1))) := by
    intro u
    unfold monthlyScan
    rw [foldl_monthlyStep_list]
    simp
  have hfilter : (monthlyScan t Y hist).newDailyMetricList
      = hist.filter (fun s =>
          decide ((t - s.Date.Month + 12) % 12 < 3
            ∧ (t - s.Date.Month < 0 → s.Date.Year = Y - 1))) := by
    rw [hscan]
    apply List.filter_congr
    intro s _
    rw [tmod_month_eq t s.Date.Month ht.1 (month_range s.Date).2]
  refine ⟨hfilter, ?_, ?_, ?_, by decide⟩
  · intro s hs
    rw [hfilter, List.mem_filter]
    constructor
    · intro h
      exact of_decide_eq_true h.2
    · intro h
      exact ⟨hs, decide_eq_true h⟩
  · intro s hs hm hy
    rw [hscan, List.mem_filter]
    refine ⟨hs, ?_⟩
    simp only [January, hm, December, decide_eq_true_eq]
    exact ⟨by decide, fun _ => hy⟩
  · intro s hm hy hmem
    rw [hscan, List.mem_filter] at hmem
    have h := of_decide_eq_true hmem.2
    simp only [January, hm, December] at h
    have := h.2 (by decide)
    omega

/-- Witness of C6 at target January 2024 and the history
[2023-12-15, 2022-12-15]. -/
theorem monthlyScan_retains_witness :
    ((⟨day 2023 12 15, 5⟩ : DailyMetric)
        ∈ (monthlyScan January 2024 [⟨day 2023 12 15, 5⟩, ⟨day 2022 12 15, 6⟩]).newDailyMetricList)
      ∧ ((⟨day 2022 12 15, 6⟩ : DailyMetric)
        ∉ (monthlyScan January 2024 [⟨day 2023 12 15, 5⟩, ⟨day 2022 12 15, 6⟩]).newDailyMetricList) :=
  ⟨(monthlyScan_retains [⟨day 2023 12 15, 5⟩, ⟨day 2022 12 15, 6⟩] January 2024
      (by decide)).2.2.1 ⟨day 2023 12 15, 5⟩ (by decide) (by decide) (by decide),
    (monthlyScan_retains [⟨day 2023 12 15, 5⟩, ⟨day 2022 12 15, 6⟩] January 2024
      (by decide)).2.2.2.1 ⟨day 2022 12 15, 6⟩ (by decide) (by decide)⟩

/-! ### C7: the boolean sent by `processAppMonthly` -/

/-- On every path `processAppMonthly` sends one boolean. -/
theorem processAppMonthly_sends_once {μ : Type} (monthSort : List μ → List μ)
    (construct : μ → FP → FP → Int → Int → μ) (cfg : MonthlyStore μ)
    (monthToAvg yearToAvg : Int) :
    (processAppMonthly monthSort construct cfg monthToAvg yearToAvg).sent.length = 1 := rfl

/-- An error of `GetDailyList`, `UpdateDailyList` or `GetMonthlyList` makes
`processAppMonthly` send `false`. -/
theorem processAppMonthly_sends_false {μ : Type} (monthSort : List μ → List μ)
    (construct : μ → FP → FP → Int → Int → μ) (cfg : MonthlyStore μ)
    (monthToAvg yearToAvg : Int)
    (h : (∃ e, cfg.GetDailyList = .error e) ∨ (∃ e, cfg.UpdateDailyList = some e)
      ∨ (∃ e, cfg.GetMonthlyList = .error e)) :
    (processAppMonthly monthSort construct cfg monthToAvg yearToAvg).sent = [false] := by
  obtain ⟨getDaily, updateDaily, getMonthly, updateMonthly⟩ := cfg
  unfold processAppMonthly processAppMonthlyBody
  cases getDaily with
  | error e => rfl
  | ok l =>
    cases updateDaily with
    | some e => rfl
    | none =>
      cases getMonthly with
      | error e => rfl
      | ok stored =>
        rcases h with ⟨e, he⟩ | ⟨e, he⟩ | ⟨e, he⟩ <;> simp at he

/-- C7 fails on the code at a failed `UpdateMonthlyList`: whenever the first
three store operations succeed and the sorted monthly list is not empty,
`processAppMonthly` sends exactly one boolean and that boolean is `true`, whatever
`UpdateMonthlyList` returns, an error included: its result is never assigned to
`err`. -/
theorem processAppMonthly_ignores_update_error {μ : Type} (monthSort : List μ → List μ)
    (construct : μ → FP → FP → Int → Int → μ) (cfg : MonthlyStore μ)
    (monthToAvg yearToAvg : Int) (dailyMetricList : List DailyMetric) (stored : List μ)
    (e : Error)
    (h1 : cfg.GetDailyList = .ok dailyMetricList) (h2 : cfg.UpdateDailyList = none)
    (h3 : cfg.GetMonthlyList = .ok stored) (h4 : monthSort stored ≠ [])
    (h5 : cfg.UpdateMonthlyList = some e) :
    (processAppMonthly monthSort construct cfg monthToAvg yearToAvg).sent = [true]
      ∧ (processAppMonthly monthSort construct cfg monthToAvg yearToAvg).panicked = false
      ∧ cfg.UpdateMonthlyList ≠ none := by
  refine ⟨?_, ?_, by rw [h5]; simp⟩
  · unfold processAppMonthly processAppMonthlyBody
    simp only [h1, h2, h3]
    cases hl : (monthSort stored).getLast? with
    | none => exact absurd (List.getLast?_eq_none_iff.mp hl) h4
    | some prev => rfl
  · unfold processAppMonthly processAppMonthlyBody
    simp only [h1, h2, h3]
    cases hl : (monthSort stored).getLast? with
    | none => exact absurd (List.getLast?_eq_none_iff.mp hl) h4
    | some prev => rfl

/-- Witness of C7's failing input: one stored summary, every operation succeeds
except `UpdateMonthlyList`. -/
theorem processAppMonthly_ignores_update_error_witness :
    (processAppMonthly (fun l : List Metric => l) (fun prev _ _ _ _ => prev)
        ⟨.ok [⟨day 2024 5 3, 10⟩], none, .ok [⟨day 2024 4 1, 100, "-", "-", 5⟩],
          some ⟨"update failed"⟩⟩ 5 2024).sent = [true] :=
  (processAppMonthly_ignores_update_error (fun l : List Metric => l) (fun prev _ _ _ _ => prev)
    ⟨.ok [⟨day 2024 5 3, 10⟩], none, .ok [⟨day 2024 4 1, 100, "-", "-", 5⟩],
      some ⟨"update failed"⟩⟩ 5 2024 [⟨day 2024 5 3, 10⟩] [⟨day 2024 4 1, 100, "-", "-", 5⟩]
    ⟨"update failed"⟩ rfl rfl rfl (by decide) rfl).1

/-! ### C8: an empty monthly collection -/

/-- C8 fails on the code: when the daily operations succeed and `GetMonthlyList`
returns an empty collection (which sorting leaves empty), `processAppMonthly`
stops on the out-of-range index `monthMetricList[len(monthMetricList)-1]`: it
panics, builds no summary and never calls `UpdateMonthlyList`; the deferred
`workDone` still sends `true` while the panic unwinds. -/
theorem processAppMonthly_empty_monthly_panics {μ : Type} (monthSort : List μ → List μ)
    (construct : μ → FP → FP → Int → Int → μ) (cfg : MonthlyStore μ)
    (monthToAvg yearToAvg : Int) (dailyMetricList : List DailyMetric)
    (h1 : cfg.GetDailyList = .ok dailyMetricList) (h2 : cfg.UpdateDailyList = none)
    (h3 : cfg.GetMonthlyList = .ok []) (h4 : monthSort [] = []) :
    (processAppMonthly monthSort construct cfg monthToAvg yearToAvg).panicked = true
      ∧ (processAppMonthly monthSort construct cfg monthToAvg yearToAvg).monthlyUpdate = none
      ∧ (processAppMonthly monthSort construct cfg monthToAvg yearToAvg).sent = [true] := by
  unfold processAppMonthly processAppMonthlyBody
  simp only [h1, h2, h3, h4, List.getLast?_nil]
  exact ⟨trivial, trivial, rfl⟩

/-- Witness of C8's failing input: an application with daily samples and no
monthly summary yet. -/
theorem processAppMonthly_empty_monthly_panics_witness :
    (processAppMonthly (fun l : List Metric => l) (fun prev _ _ _ _ => prev)
        ⟨.ok [⟨day 2024 5 3, 10⟩], none, .ok [], none⟩ 5 2024).panicked = true :=
  (processAppMonthly_empty_monthly_panics (fun l : List Metric => l) (fun prev _ _ _ _ => prev)
    ⟨.ok [⟨day 2024 5 3, 10⟩], none, .ok [], none⟩ 5 2024 [⟨day 2024 5 3, 10⟩]
    rfl rfl rfl rfl).1

/-! ### C9: the tally of `ExecuteMonthly` -/

theorem drainLoop_eq (events : Nat → Event) (k i s e : Nat) :
    drainLoop events k i (s, e)
      = (s + (((List.range' i k).map events).takeWhile
              (fun ev => decide (ev ≠ Event.timeout))).count (Event.result true),
         e + (((List.range' i k).map events).takeWhile
              (fun ev => decide (ev ≠ Event.timeout))).count (Event.result false)) := by
  induction k generalizing i s e with
  | zero => simp [drainLoop]
  | succ k ih =>
    rw [List.range'_succ, List.map_cons, drainLoop]
    cases hev : events i with
    | timeout => simp
    | result msg =>
      cases msg with
      | true =>
        simp only [ih]
        rw [List.takeWhile_cons_of_pos (by simp)]
        simp [List.count_cons]
        omega
      | false =>
        simp only [ih]
        rw [List.takeWhile_cons_of_pos (by simp)]
        simp [List.count_cons]
        omega

theorem count_results (l : List Event) (h : ∀ ev ∈ l, ev ≠ Event.timeout) :
    l.count (Event.result true) + l.count (Event.result false) = l.length := by
  induction l with
  | nil => simp
  | cons ev l ih =>
    have ih' := ih (fun x hx => h x (List.mem_cons_of_mem _ hx))
    have hev := h ev (List.mem_cons_self _ _)
    cases ev with
    | timeout => exact absurd rfl hev
    | result msg =>
      cases msg <;> simp [List.count_cons] <;> omega

theorem drainLoop_consEvent (first : Event) (events : Nat → Event) (k i : Nat)
    (tally : Nat × Nat) :
    drainLoop (consEvent first events) k (i + 1) tally = drainLoop events k i tally := by
  induction k generalizing i tally with
  | zero => simp [drainLoop]
  | succ k ih =>
    obtain ⟨s, e⟩ := tally
    simp only [drainLoop, consEvent, ih]

/-- C9: for `n` applications and any sequence of select outcomes, `numSuccess`
is the number of `true` results and `numErrors` the number of `false` results
among the events the loop sees before the deadline fires; their sum is at most
`n`, equal to `n` when the deadline fires in none of the `n` iterations and less
than `n` when it fires in one; a `false` result in front of a sequence adds one
error and leaves the count of successes of the rest untouched. -/
theorem ExecuteMonthlyReport_tally (n : Nat) (events : Nat → Event) :
    (ExecuteMonthlyReport n events).1 = (eventsSeen n events).count (Event.result true)
      ∧ (ExecuteMonthlyReport n events).2 = (eventsSeen n events).count (Event.result false)
      ∧ (ExecuteMonthlyReport n events).1 + (ExecuteMonthlyReport n events).2 ≤ n
      ∧ ((∀ i, i < n → events i ≠ Event.timeout) →
          (ExecuteMonthlyReport n events).1 + (ExecuteMonthlyReport n events).2 = n)
      ∧ ((∃ i, i < n ∧ events i = Event.timeout) →
          (ExecuteMonthlyReport n events).1 + (ExecuteMonthlyReport n events).2 < n)
      ∧ ExecuteMonthlyReport (n + 1) (consEvent (Event.result false) events)
          = ((ExecuteMonthlyReport n events).1, (ExecuteMonthlyReport n events).2 + 1) := by
  have hrep : ExecuteMonthlyReport n events
      = ((eventsSeen n events).count (Event.result true),
         (eventsSeen n events).count (Event.result false)) := by
    unfold ExecuteMonthlyReport eventsSeen
    rw [drainLoop_eq]
    simp
  have hseen : ∀ ev ∈ eventsSeen n events, ev ≠ Event.timeout := by
    intro ev hev
    have := List.mem_takeWhile_imp hev
    simpa using this
  have hsum := count_results (eventsSeen n events) hseen
  have hlen : (eventsSeen n events).length ≤ n := by
    unfold eventsSeen
    have h := (List.takeWhile_sublist (fun ev => decide (ev ≠ Event.timeout))
      (l := (List.range' 0 n).map events)).length_le
    simpa using h
  refine ⟨by rw [hrep], by rw [hrep], ?_, ?_, ?_, ?_⟩
  · rw [hrep]
    simp only
    omega
  · intro hno
    rw [hrep]
    simp only
    rw [hsum]
    unfold eventsSeen
    rw [List.takeWhile_eq_self_iff.mpr]
    · simp
    · intro ev hev
      obtain ⟨i, hi, rfl⟩ := List.mem_map.mp hev
      have hi' := List.mem_range'_1.mp hi
      simpa using hno i (by omega)
  · rintro ⟨i, hi, hto⟩
    rw [hrep]
    simp only
    rw [hsum]
    have hne : eventsSeen n events ≠ (List.range' 0 n).map events := by
      intro heq
      have hmem : events i ∈ eventsSeen n events := by
        rw [heq]
        exact List.mem_map.mpr ⟨i, List.mem_range'_1.mpr ⟨by omega, by omega⟩, rfl⟩
      exact hseen _ hmem hto
    have hsub : (eventsSeen n events).Sublist ((List.range' 0 n).map events) :=
      List.takeWhile_sublist _
    have hlt : (eventsSeen n events).length < ((List.range' 0 n).map events).length := by
      rcases lt_or_eq_of_le hsub.length_le with h | h
      · exact h
      · exact absurd (hsub.eq_of_length h) hne
    simpa using hlt
  · unfold ExecuteMonthlyReport
    rw [drainLoop]
    simp only [consEvent]
    rw [drainLoop_consEvent]
    rw [drainLoop_eq, drainLoop_eq]
    simp
    omega

/-- Witness of C9 with three applications: results false, true, true and no
deadline; and results true, then the deadline. -/
theorem ExecuteMonthlyReport_tally_witness :
    (ExecuteMonthlyReport 3
        (fun i => if i = 0 then Event.result false else Event.result true)).1
      + (ExecuteMonthlyReport 3
        (fun i => if i = 0 then Event.result false else Event.result true)).2 = 3
      ∧ (ExecuteMonthlyReport 3
          (fun i => if i = 0 then Event.result true else Event.timeout)).1
        + (ExecuteMonthlyReport 3
          (fun i => if i = 0 then Event.result true else Event.timeout)).2 < 3 :=
  ⟨(ExecuteMonthlyReport_tally 3
      (fun i => if i = 0 then Event.result false else Event.result true)).2.2.2.1
      (by intro i _; split <;> simp),
    (ExecuteMonthlyReport_tally 3
      (fun i => if i = 0 then Event.result true else Event.timeout)).2.2.2.2.1
      ⟨1, by decide, by decide⟩⟩

/-! ### C10: exception records pushed by `processApp` -/

/-- C10: among the calls `processApp` makes, exactly one pushes an exception
record when the fetch fails or the persist fails, and it pushes the application
at hand; none does when both succeed; after a failed fetch no persist is made.
When the push itself succeeds the record is appended to the queue; the queue is
untouched when fetch and persist succeed. -/
theorem processApp_exception_push (o : DailyOutcome) (app : AppShadow) (db : Db) :
    (processApp o app db).1.log = db.log ++ newCalls o app db
      ∧ ((o.fetchFailed = true ∨ o.persistFailed = true) →
          (newCalls o app db).countP Call.isPushException = 1
            ∧ (newCalls o app db).count (Call.PushException app) = 1)
      ∧ ((o.fetchFailed = false ∧ o.persistFailed = false) →
          (newCalls o app db).countP Call.isPushException = 0
            ∧ (processApp o app db).1.exceptions = db.exceptions)
      ∧ (o.fetchFailed = true → (newCalls o app db).countP Call.isPushDaily = 0)
      ∧ ((o.fetchFailed = true ∨ o.persistFailed = true) → o.PushException = none →
          (processApp o app db).1.exceptions = db.exceptions ++ [app]) := by
  obtain ⟨fetch, pushDaily, pushException⟩ := o
  unfold newCalls
  cases fetch with
  | error e =>
    cases pushException <;>
      simp [processApp, Db.PushException, DailyOutcome.fetchFailed,
        DailyOutcome.persistFailed, Call.isPushException, Call.isPushDaily,
        List.countP_cons, List.count_cons]
  | ok dm =>
    cases pushDaily <;> cases pushException <;>
      simp [processApp, Db.PushException, DailyOutcome.fetchFailed,
        DailyOutcome.persistFailed, Call.isPushException, Call.isPushDaily,
        List.countP_cons, List.count_cons]

/-- Witness of C10: a failed fetch, and a successful fetch with a failed persist. -/
theorem processApp_exception_push_witness :
    (newCalls ⟨.error ⟨"fetch failed"⟩, none, none⟩ ⟨⟨1, "a", "steam", 7⟩, day 2024 5 3⟩
        ⟨[], [], []⟩).count (Call.PushException ⟨⟨1, "a", "steam", 7⟩, day 2024 5 3⟩) = 1
      ∧ (newCalls ⟨.error ⟨"fetch failed"⟩, none, none⟩ ⟨⟨1, "a", "steam", 7⟩, day 2024 5 3⟩
        ⟨[], [], []⟩).countP Call.isPushDaily = 0
      ∧ (processApp ⟨.ok ⟨day 2024 5 3, 10⟩, some ⟨"persist failed"⟩, none⟩
          ⟨⟨1, "a", "steam", 7⟩, day 2024 5 3⟩ ⟨[], [], []⟩).1.exceptions
        = [] ++ [⟨⟨1, "a", "steam", 7⟩, day 2024 5 3⟩]
      ∧ (newCalls ⟨.ok ⟨day 2024 5 3, 10⟩, none, none⟩ ⟨⟨1, "a", "steam", 7⟩, day 2024 5 3⟩
        ⟨[], [], []⟩).countP Call.isPushException = 0 :=
  ⟨((processApp_exception_push ⟨.error ⟨"fetch failed"⟩, none, none⟩
      ⟨⟨1, "a", "steam", 7⟩, day 2024 5 3⟩ ⟨[], [], []⟩).2.1 (Or.inl rfl)).2,
    (processApp_exception_push ⟨.error ⟨"fetch failed"⟩, none, none⟩
      ⟨⟨1, "a", "steam", 7⟩, day 2024 5 3⟩ ⟨[], [], []⟩).2.2.2.1 rfl,
    (processApp_exception_push ⟨.ok ⟨day 2024 5 3, 10⟩, some ⟨"persist failed"⟩, none⟩
      ⟨⟨1, "a", "steam", 7⟩, day 2024 5 3⟩ ⟨[], [], []⟩).2.2.2.2 (Or.inr rfl) rfl,
    ((processApp_exception_push ⟨.ok ⟨day 2024 5 3, 10⟩, none, none⟩
      ⟨⟨1, "a", "steam", 7⟩, day 2024 5 3⟩ ⟨[], [], []⟩).2.2.1 ⟨rfl, rfl⟩).1⟩

/-! ### C13: sorting a collection that is in order -/

theorem sliceIsSorted_of_dateAscending {α : Type} (date : α → Time) (l : List α)
    (h : DateAscending date l) : sliceIsSorted date l = true := by
  induction l with
  | nil => rfl
  | cons a l ih =>
    cases l with
    | nil => rfl
    | cons b rest =>
      unfold DateAscending at h ih
      rw [List.chain'_cons] at h
      have hb : (date b).Before (date a) = false := by
        unfold Time.Before
        exact decide_eq_false (by omega)
      simp only [sliceIsSorted, hb, Bool.not_false, Bool.true_and]
      exact ih h.2

/-- C13: for every collection of monthly summaries and every collection of daily
samples in date-ascending order (equal dates allowed), `sortDates` called with a
pointer to the collection leaves it as it is, element for element. -/
theorem sortDates_of_dateAscending (metrics : List Metric) (dailyMetrics : List DailyMetric) :
    (DateAscending Metric.Date metrics →
        sortDates (.ptrMetrics metrics) = .ptrMetrics metrics)
      ∧ (DateAscending DailyMetric.Date dailyMetrics →
        sortDates (.ptrDailyMetrics dailyMetrics) = .ptrDailyMetrics dailyMetrics)
      ∧ sortDates (.ptrDailyMetrics
            [⟨day 2024 5 1, 1⟩, ⟨day 2024 5 2, 2⟩, ⟨day 2024 5 2, 3⟩, ⟨day 2024 5 4, 4⟩])
          = .ptrDailyMetrics
            [⟨day 2024 5 1, 1⟩, ⟨day 2024 5 2, 2⟩, ⟨day 2024 5 2, 3⟩, ⟨day 2024 5 4, 4⟩] := by
  refine ⟨?_, ?_, by decide⟩
  · intro h
    simp only [sortDates, sliceIsSorted_of_dateAscending Metric.Date metrics h, if_true]
  · intro h
    simp only [sortDates, sliceIsSorted_of_dateAscending DailyMetric.Date dailyMetrics h,
      if_true]

/-- Witness of C13: two summaries and three samples in order, two of the samples
with the same date. -/
theorem sortDates_of_dateAscending_witness :
    sortDates (.ptrMetrics [⟨day 2024 4 1, 10, "-", "-", 12⟩, ⟨day 2024 5 1, 11, "1", "0.00%", 13⟩])
        = .ptrMetrics [⟨day 2024 4 1, 10, "-", "-", 12⟩, ⟨day 2024 5 1, 11, "1", "0.00%", 13⟩]
      ∧ sortDates (.ptrDailyMetrics [⟨day 2024 5 1, 1⟩, ⟨day 2024 5 2, 2⟩, ⟨day 2024 5 2, 3⟩])
        = .ptrDailyMetrics [⟨day 2024 5 1, 1⟩, ⟨day 2024 5 2, 2⟩, ⟨day 2024 5 2, 3⟩] :=
  ⟨(sortDates_of_dateAscending
      [⟨day 2024 4 1, 10, "-", "-", 12⟩, ⟨day 2024 5 1, 11, "1", "0.00%", 13⟩]
      [⟨day 2024 5 1, 1⟩, ⟨day 2024 5 2, 2⟩, ⟨day 2024 5 2, 3⟩]).1
      (by unfold DateAscending; simp only [List.chain'_cons, List.chain'_singleton, and_true]; decide),
    (sortDates_of_dateAscending
      [⟨day 2024 4 1, 10, "-", "-", 12⟩, ⟨day 2024 5 1, 11, "1", "0.00%", 13⟩]
      [⟨day 2024 5 1, 1⟩, ⟨day 2024 5 2, 2⟩, ⟨day 2024 5 2, 3⟩]).2.1
      (by unfold DateAscending; simp only [List.chain'_cons, List.chain'_singleton, and_true]; decide)⟩

/-! ### C17: the error returned by `processApp` -/

/-- C17: `processApp` returns a non-nil error exactly when the fetch or the
persist failed and the push of the exception record failed too, and the error
is then the one of the push; a failed fetch whose push succeeds returns nil, and
`ExecuteRecovery` logs no failed retry for such a record. -/
theorem processApp_error (o : DailyOutcome) (app : AppShadow) (db : Db) :
    ((processApp o app db).2 ≠ none
        ↔ ((o.fetchFailed = true ∨ o.persistFailed = true) ∧ o.PushException ≠ none))
      ∧ ((processApp o app db).2 ≠ none → (processApp o app db).2 = o.PushException)
      ∧ (o.fetchFailed = true → o.PushException = none → (processApp o app db).2 = none)
      ∧ (o.fetchFailed = true → o.PushException = none →
          ∀ ro : RecoveryOutcome, ro.GetExceptions = none → ro.retry 0 = o →
            (ExecuteRecovery ro { db with exceptions := [app] }).2 = []) := by
  obtain ⟨fetch, pushDaily, pushException⟩ := o
  refine ⟨?_, ?_, ?_, ?_⟩
  · cases fetch <;> cases pushDaily <;> cases pushException <;>
      simp [processApp, Db.PushException, DailyOutcome.fetchFailed,
        DailyOutcome.persistFailed]
  · cases fetch <;> cases pushDaily <;> cases pushException <;>
      simp [processApp, Db.PushException]
  · cases fetch <;> cases pushDaily <;> cases pushException <;>
      simp [processApp, Db.PushException, DailyOutcome.fetchFailed]
  · intro hf hp ro hget hretry
    cases fetch with
    | ok dm => simp [DailyOutcome.fetchFailed] at hf
    | error e =>
      simp only at hp
      subst hp
      simp [ExecuteRecovery, hget, recoveryLoop, hretry, processApp, Db.PushException]

/-- Witness of C17: a failed fetch with a successful push returns nil; a failed
persist with a failed push returns the error of the push. -/
theorem processApp_error_witness :
    (processApp ⟨.error ⟨"fetch failed"⟩, none, none⟩ ⟨⟨1, "a", "steam", 7⟩, day 2024 5 3⟩
        ⟨[], [], []⟩).2 = none
      ∧ (processApp ⟨.ok ⟨day 2024 5 3, 10⟩, some ⟨"persist failed"⟩, some ⟨"push failed"⟩⟩
          ⟨⟨1, "a", "steam", 7⟩, day 2024 5 3⟩ ⟨[], [], []⟩).2
        = (⟨.ok ⟨day 2024 5 3, 10⟩, some ⟨"persist failed"⟩, some ⟨"push failed"⟩⟩ :
            DailyOutcome).PushException :=
  ⟨(processApp_error ⟨.error ⟨"fetch failed"⟩, none, none⟩ ⟨⟨1, "a", "steam", 7⟩, day 2024 5 3⟩
      ⟨[], [], []⟩).2.2.1 rfl rfl,
    (processApp_error ⟨.ok ⟨day 2024 5 3, 10⟩, some ⟨"persist failed"⟩, some ⟨"push failed"⟩⟩
      ⟨⟨1, "a", "steam", 7⟩, day 2024 5 3⟩ ⟨[], [], []⟩).2.1 (by decide)⟩

/-! ### C19: the target month of the two monthly paths -/

/-- C19: for every current date the month that `ExecuteMonthly` averages equals
the target month of `monthlySanitise`; it is the calendar month before the
current one (12 when the current month is 1), so it lies in 1..12; and the year
that `ExecuteMonthly` averages is the current year, less one exactly when the
current month is 1. -/
theorem monthToAvg_eq_sanitiseTargetMonth (currentDateTime : Time) :
    ExecuteMonthly.monthToAvg currentDateTime = sanitiseTargetMonth currentDateTime
      ∧ ExecuteMonthly.monthToAvg currentDateTime
          = (if currentDateTime.Month = January then December else currentDateTime.Month - 1)
      ∧ (1 ≤ ExecuteMonthly.monthToAvg currentDateTime
          ∧ ExecuteMonthly.monthToAvg currentDateTime ≤ 12)
      ∧ (1 ≤ sanitiseTargetMonth currentDateTime ∧ sanitiseTargetMonth currentDateTime ≤ 12)
      ∧ (currentDateTime.Month = January →
          ExecuteMonthly.yearToAvg currentDateTime = currentDateTime.Year - 1)
      ∧ (currentDateTime.Month ≠ January →
          ExecuteMonthly.yearToAvg currentDateTime = currentDateTime.Year)
      ∧ (ExecuteMonthly.yearToAvg currentDateTime = currentDateTime.Year - 1
          ↔ currentDateTime.Month = January)
      ∧ ExecuteMonthly.monthToAvg (day 2024 1 15) = 12
      ∧ ExecuteMonthly.yearToAvg (day 2024 1 15) = 2023
      ∧ ExecuteMonthly.monthToAvg (day 2024 6 1) = 5
      ∧ ExecuteMonthly.yearToAvg (day 2024 6 1) = 2024 := by
  have hm := month_range currentDateTime
  unfold ExecuteMonthly.monthToAvg ExecuteMonthly.yearToAvg sanitiseTargetMonth
    January December
  simp only
  generalize currentDateTime.Month = m at hm
  generalize currentDateTime.Year = y
  refine ⟨?_, ?_, ?_, ?_, ?_, ?_, ?_, by decide, by decide, by decide, by decide⟩
  · by_cases h : m = 1
    · rw [if_pos h, if_pos (by omega)]
    · rw [if_neg h, if_neg (by omega)]
  · trivial
  · split <;> omega
  · split <;> omega
  · intro h
    rw [if_pos h]
  · intro h
    rw [if_neg h]
  · by_cases h : m = 1
    · simp [h]
    · rw [if_neg h]
      constructor
      · intro h2
        omega
      · intro h2
        exact absurd h2 h

/-- Witness of C19 at 2024-01-15 and 2024-06-01. -/
theorem monthToAvg_eq_sanitiseTargetMonth_witness :
    ExecuteMonthly.yearToAvg (day 2024 1 15) = (day 2024 1 15).Year - 1
      ∧ ExecuteMonthly.yearToAvg (day 2024 6 1) = (day 2024 6 1).Year :=
  ⟨(monthToAvg_eq_sanitiseTargetMonth (day 2024 1 15)).2.2.2.2.1 (by decide),
    (monthToAvg_eq_sanitiseTargetMonth (day 2024 6 1)).2.2.2.2.2.1 (by decide)⟩

/-! ### C18: average and peak -/

theorem wrapInt_inInt (x : Int) : InInt (wrapInt x) := by
  unfold InInt wrapInt
  omega

theorem wrapInt_le_self {x : Int} (h : 0 ≤ x) : wrapInt x ≤ x := by
  unfold wrapInt
  omega

theorem sum_le_length_mul (cs : List Int) (p : Int) (h : ∀ c ∈ cs, c ≤ p) :
    cs.sum ≤ cs.length * p := by
  induction cs with
  | nil => simp
  | cons c cs ih =>
    have h1 := h c (List.mem_cons_self _ _)
    have h2 := ih (fun x hx => h x (List.mem_cons_of_mem _ hx))
    simp only [List.sum_cons, List.length_cons]
    push_cast
    linarith

theorem tdiv_le_of_le_mul {w n p : Int} (hn : 0 < n) (hp : 0 ≤ p) (h : w ≤ n * p) :
    Int.tdiv w n ≤ p := by
  rcases le_or_lt 0 w with hw | hw
  · rw [Int.tdiv_eq_ediv hw (le_of_lt hn)]
    exact Int.ediv_le_of_le_mul hn (by rw [mul_comm]; exact h)
  · have h0 : 0 ≤ -w := by omega
    have h3 := Int.neg_tdiv w n
    have h1 := Int.tdiv_nonneg h0 (le_of_lt hn)
    omega

/-- C18: for every history whose player counts are all non-negative and every
reference date, the average returned by `monthlySanitise` is at most the peak it
returns, the peak is not negative, and both are 0 when no retained sample falls
in the target month. -/
theorem monthlySanitise_average_le_peak (appBom : App) (D : Time)
    (h : ∀ s ∈ appBom.DailyMetrics, 0 ≤ s.PlayerCount) :
    (monthlySanitise appBom D).2.2 ≤ (monthlySanitise appBom D).2.1
      ∧ 0 ≤ (monthlySanitise appBom D).2.1
      ∧ (matchingCounts D (monthlySanitise appBom D).1 = [] →
          (monthlySanitise appBom D).2.2 = 0 ∧ (monthlySanitise appBom D).2.1 = 0) := by
  have hnn : ∀ c ∈ matchingCounts D (appBom.DailyMetrics.filter (retained D)), 0 ≤ c := by
    intro c hc
    unfold matchingCounts at hc
    obtain ⟨s, hs, rfl⟩ := List.mem_map.mp hc
    exact h s (List.mem_filter.mp (List.mem_filter.mp hs).1).1
  rw [monthlySanitise_eq]
  simp only
  generalize matchingCounts D (appBom.DailyMetrics.filter (retained D)) = cs at hnn
  have hle := le_foldl_max cs 0
  refine ⟨?_, hle.1, ?_⟩
  · by_cases hnil : cs = []
    · rw [if_pos hnil]
      exact hle.1
    · rw [if_neg hnil]
      have hlen : (0 : Int) < (cs.length : Int) := by
        have := List.length_pos.mpr hnil
        omega
      have hsum0 : 0 ≤ cs.sum := List.sum_nonneg hnn
      have hsum := sum_le_length_mul cs _ hle.2
      have hw := wrapInt_le_self hsum0
      unfold intDiv
      rw [wrapInt_of_inInt (tdiv_inInt (wrapInt_inInt _) hlen)]
      exact tdiv_le_of_le_mul hlen hle.1 (le_trans hw hsum)
  · intro hnil
    simp [hnil]

/-- Witness of C18 at the counts [10, 20, 31] of May 2024. -/
theorem monthlySanitise_average_le_peak_witness :
    (monthlySanitise
        ⟨[⟨day 2024 5 1, 10⟩, ⟨day 2024 5 2, 20⟩, ⟨day 2024 5 3, 31⟩]⟩ (day 2024 6 1)).2.2
      ≤ (monthlySanitise
        ⟨[⟨day 2024 5 1, 10⟩, ⟨day 2024 5 2, 20⟩, ⟨day 2024 5 3, 31⟩]⟩ (day 2024 6 1)).2.1 :=
  (monthlySanitise_average_le_peak
    ⟨[⟨day 2024 5 1, 10⟩, ⟨day 2024 5 2, 20⟩, ⟨day 2024 5 3, 31⟩]⟩ (day 2024 6 1)
    (by decide)).1

/-! ### C11: the recovery pass -/

theorem processApp_queue (o : DailyOutcome) (app : AppShadow) (db : Db)
    (hp : o.PushException = none) :
    (processApp o app db).1.exceptions
      = db.exceptions ++ (if o.failed = true then [app] else []) := by
  obtain ⟨fetch, pushDaily, pushException⟩ := o
  simp only at hp
  subst hp
  cases fetch <;> cases pushDaily <;>
    simp [processApp, Db.PushException, DailyOutcome.failed, DailyOutcome.fetchFailed,
      DailyOutcome.persistFailed]

theorem processApp_fetches (o : DailyOutcome) (app : AppShadow) (db : Db) :
    (processApp o app db).1.log.filter Call.isFetch
      = db.log.filter Call.isFetch ++ [fetchOf app] := by
  obtain ⟨fetch, pushDaily, pushException⟩ := o
  cases fetch <;> cases pushDaily <;> cases pushException <;>
    simp [processApp, Db.PushException, Call.isFetch, fetchOf, List.filter_append,
      List.filter_cons]

theorem recoveryLoop_queue (retry : Nat → DailyOutcome)
    (hp : ∀ j, (retry j).PushException = none) (records : List AppShadow) (i : Nat)
    (db : Db) (failed : List AppShadow) :
    (recoveryLoop retry i records (db, failed)).1.exceptions
      = db.exceptions
        ++ ((records.enumFrom i).filter (fun p => (retry p.1).failed)).map Prod.snd := by
  induction records generalizing i db failed with
  | nil => simp [recoveryLoop]
  | cons app rest ih =>
    have hq := processApp_queue (retry i) app db (hp i)
    rw [recoveryLoop]
    rcases hres : processApp (retry i) app db with ⟨db1, err⟩
    rw [hres] at hq
    simp only at hq
    cases err with
    | none =>
      simp only
      rw [ih, hq, List.enumFrom_cons, List.filter_cons]
      split <;> simp
    | some e =>
      simp only
      rw [ih, hq, List.enumFrom_cons, List.filter_cons]
      split <;> simp

theorem recoveryLoop_fetches (retry : Nat → DailyOutcome) (records : List AppShadow)
    (i : Nat) (db : Db) (failed : List AppShadow) :
    (recoveryLoop retry i records (db, failed)).1.log.filter Call.isFetch
      = db.log.filter Call.isFetch ++ records.map fetchOf := by
  induction records generalizing i db failed with
  | nil => simp [recoveryLoop]
  | cons app rest ih =>
    have hq := processApp_fetches (retry i) app db
    rw [recoveryLoop]
    rcases hres : processApp (retry i) app db with ⟨db1, err⟩
    rw [hres] at hq
    simp only at hq
    cases err with
    | none =>
      simp only
      rw [ih, hq]
      simp
    | some e =>
      simp only
      rw [ih, hq]
      simp

/-- C11: when reading the queue succeeds, the flush succeeds and every push of
an exception record succeeds, `ExecuteRecovery` runs its retries from the
emptied queue, fetches each drained record once, in drained order, and leaves
in the queue exactly the drained records whose retry (fetch or persist) failed,
in drained order; when reading the queue fails the store is left as it was and
no call is made. -/
theorem ExecuteRecovery_queue (o : RecoveryOutcome) (db : Db) :
    (o.GetExceptions = none → o.FlushExceptions = none →
        (∀ i, (o.retry i).PushException = none) →
        ExecuteRecovery o db
            = recoveryLoop o.retry 0 db.exceptions ({ db with exceptions := [] }, [])
          ∧ (ExecuteRecovery o db).1.exceptions
            = ((db.exceptions.enumFrom 0).filter (fun p => (o.retry p.1).failed)).map Prod.snd
          ∧ (ExecuteRecovery o db).1.log.filter Call.isFetch
            = db.log.filter Call.isFetch ++ db.exceptions.map fetchOf)
      ∧ (o.GetExceptions ≠ none → ExecuteRecovery o db = (db, [])) := by
  refine ⟨?_, ?_⟩
  · intro hget hflush hpush
    have hrun : ExecuteRecovery o db
        = recoveryLoop o.retry 0 db.exceptions ({ db with exceptions := [] }, []) := by
      simp [ExecuteRecovery, hget, hflush, Db.FlushExceptions]
    refine ⟨hrun, ?_, ?_⟩
    · rw [hrun, recoveryLoop_queue o.retry hpush]
      simp
    · rw [hrun, recoveryLoop_fetches]
  · intro hget
    cases hg : o.GetExceptions with
    | none => exact absurd hg hget
    | some e => simp [ExecuteRecovery, hg]

/-- Witness of C11: a queue of three records of which the second is retried
with success; the first and the third are back in the queue afterwards. -/
theorem ExecuteRecovery_queue_witness :
    (ExecuteRecovery
        ⟨none, none, fun i => if i = 1 then ⟨.ok ⟨day 2024 5 3, 10⟩, none, none⟩
          else ⟨.error ⟨"fetch failed"⟩, none, none⟩⟩
        ⟨[⟨⟨1, "a", "steam", 7⟩, day 2024 5 1⟩, ⟨⟨2, "b", "steam", 8⟩, day 2024 5 2⟩,
          ⟨⟨3, "c", "steam", 9⟩, day 2024 5 3⟩], [], []⟩).1.exceptions
      = [⟨⟨1, "a", "steam", 7⟩, day 2024 5 1⟩, ⟨⟨3, "c", "steam", 9⟩, day 2024 5 3⟩] :=
  (((ExecuteRecovery_queue
      ⟨none, none, fun i => if i = 1 then ⟨.ok ⟨day 2024 5 3, 10⟩, none, none⟩
        else ⟨.error ⟨"fetch failed"⟩, none, none⟩⟩
      ⟨[⟨⟨1, "a", "steam", 7⟩, day 2024 5 1⟩, ⟨⟨2, "b", "steam", 8⟩, day 2024 5 2⟩,
        ⟨⟨3, "c", "steam", 9⟩, day 2024 5 3⟩], [], []⟩).1 rfl rfl
      (by intro i; by_cases h : i = 1 <;> simp [h])).2.1).trans (by decide)

/-! ### C12: what the month filter lets through -/

theorem foldl_monthlyStep_count (t : Int) (Y : Int) (hist : List DailyMetric)
    (v : MonthlyVars) :
    (hist.foldl (monthlyStep t Y) v).total = (countsOfMonth t hist).foldl intAdd v.total
      ∧ (hist.foldl (monthlyStep t Y) v).numCounted
        = v.numCounted + (countsOfMonth t hist).length := by
  induction hist generalizing v with
  | nil => simp [countsOfMonth]
  | cons s hist ih =>
    rw [List.foldl_cons]
    obtain ⟨ih1, ih2⟩ := ih (monthlyStep t Y v s)
    rw [ih1, ih2]
    have hstep : (monthlyStep t Y v s).total
          = (if s.Date.Month = t then intAdd v.total s.PlayerCount else v.total)
        ∧ (monthlyStep t Y v s).numCounted
          = (if s.Date.Month = t then v.numCounted + 1 else v.numCounted) := by
      unfold monthlyStep
      simp only [MONTHS]
      by_cases hm : s.Date.Month = t
      · have h1 : Int.tmod (t - s.Date.Month + 12) 12 < 3 := by
          rw [hm]; simp
        have hc : ¬ (t - s.Date.Month < 0 ∧ s.Date.Year ≠ Y - 1) := by
          rw [hm]; simp
        rw [if_pos h1, if_neg hc]
        simp [hm]
      · by_cases h1 : Int.tmod (t - s.Date.Month + 12) 12 < 3
        · rw [if_pos h1]
          split <;> simp [hm]
        · rw [if_neg h1]
          simp [hm]
    obtain ⟨hs1, hs2⟩ := hstep
    rw [hs1, hs2]
    by_cases hm : s.Date.Month = t
    · simp [countsOfMonth, List.filter_cons, hm]
      omega
    · simp [countsOfMonth, List.filter_cons, hm]

/-- C12 fails on the code: with target month May 2024 a sample dated 2019-05-10
is retained by the scan and counted in the total and in the count of the average,
although May 2019 is not one of the three calendar months March, April and May
2024. The year of a sample is compared only when its month number is greater than
the target's: for the target January 2024 the scan does drop a sample dated
2019-12-10. -/
theorem monthlyScan_keeps_stale_year :
    (monthlyScan 5 2024 [⟨day 2019 5 10, 100⟩]).newDailyMetricList = [⟨day 2019 5 10, 100⟩]
      ∧ (monthlyScan 5 2024 [⟨day 2019 5 10, 100⟩]).total = 100
      ∧ (monthlyScan 5 2024 [⟨day 2019 5 10, 100⟩]).numCounted = 1
      ∧ ¬ (12 * 2024 + 5 - 2 ≤ (day 2019 5 10).monthIndex
            ∧ (day 2019 5 10).monthIndex ≤ 12 * 2024 + 5)
      ∧ (monthlyScan 1 2024 [⟨day 2019 12 10, 100⟩]).newDailyMetricList = [] := by
  refine ⟨by decide, by decide, by decide, by decide, by decide⟩

/-- The month filter of the scan in terms of month numbers, for a target month
`t` in 1..12 and target year `Y`: every retained sample has a month number that is
`t` or one of the two before it in the circle of the twelve months, and is of year
`Y - 1` when its month number is greater than `t`; among the samples dated in the
twelve calendar months that end with month `t` of year `Y` the retained ones are
exactly those of the last three of these months; a sample whose month number is
`t`, `t - 1` or `t - 2` is retained, and the total and the count take in every
sample of the history whose month number is `t`. -/
theorem monthlyScan_retained_months (hist : List DailyMetric) (t : Int) (Y : Int)
    (ht : 1 ≤ t ∧ t ≤ 12) :
    (∀ s ∈ (monthlyScan t Y hist).newDailyMetricList,
        (s.Date.Month = t ∨ s.Date.Month = t - 1 ∨ s.Date.Month = t - 2
            ∨ s.Date.Month = t + 11 ∨ s.Date.Month = t + 10)
          ∧ (t < s.Date.Month → s.Date.Year = Y - 1))
      ∧ (∀ s ∈ hist, 12 * Y + t - 11 ≤ s.Date.monthIndex → s.Date.monthIndex ≤ 12 * Y + t →
          (s ∈ (monthlyScan t Y hist).newDailyMetricList
            ↔ 12 * Y + t - 2 ≤ s.Date.monthIndex))
      ∧ (∀ s ∈ hist, s.Date.Month = t ∨ s.Date.Month = t - 1 ∨ s.Date.Month = t - 2 →
          s ∈ (monthlyScan t Y hist).newDailyMetricList)
      ∧ (monthlyScan t Y hist).total = wrapInt (countsOfMonth t hist).sum
      ∧ (monthlyScan t Y hist).numCounted = (countsOfMonth t hist).length := by
  have hscan : ∀ s, s ∈ (monthlyScan t Y hist).newDailyMetricList
      ↔ (s ∈ hist ∧ (Int.tmod (t - s.Date.Month + 12) 12 < 3
          ∧ (t - s.Date.Month < 0 → s.Date.Year = Y - 1))) := by
    intro s
    unfold monthlyScan
    rw [foldl_monthlyStep_list, List.nil_append, List.mem_filter, decide_eq_true_eq]
  have hmod : ∀ s : DailyMetric, Int.tmod (t - s.Date.Month + 12) 12
      = (t - s.Date.Month + 12) % 12 :=
    fun s => tmod_month_eq t s.Date.Month ht.1 (month_range s.Date).2
  refine ⟨?_, ?_, ?_, ?_, ?_⟩
  · intro s hs
    obtain ⟨_, h1, h2⟩ := (hscan s).mp hs
    rw [hmod] at h1
    have hm := month_range s.Date
    refine ⟨by omega, fun hlt => h2 (by omega)⟩
  · intro s hs hlo hhi
    rw [hscan, hmod]
    have hm := month_range s.Date
    unfold Time.monthIndex at hlo hhi ⊢
    constructor
    · rintro ⟨_, h1, h2⟩
      by_cases hneg : t - s.Date.Month < 0
      · have := h2 hneg
        omega
      · omega
    · intro h
      refine ⟨hs, by omega, fun hneg => by omega⟩
  · intro s hs hm
    rw [hscan, hmod]
    have hr := month_range s.Date
    refine ⟨hs, by omega, fun hneg => by omega⟩
  · unfold monthlyScan
    rw [(foldl_monthlyStep_count t Y hist _).1]
    have h := foldl_intAdd (countsOfMonth t hist) 0
    have hz : wrapInt 0 = 0 := by decide
    rw [hz] at h
    simpa using h
  · unfold monthlyScan
    rw [(foldl_monthlyStep_count t Y hist _).2]
    simp

/-- The month filter at target May 2024 and the history
[2024-03-10, 2024-02-10, 2019-05-10]. -/
theorem monthlyScan_retained_months_witness :
    ((⟨day 2024 3 10, 1⟩ : DailyMetric)
        ∈ (monthlyScan 5 2024
            [⟨day 2024 3 10, 1⟩, ⟨day 2024 2 10, 2⟩, ⟨day 2019 5 10, 3⟩]).newDailyMetricList
      ↔ 12 * 2024 + 5 - 2 ≤ (day 2024 3 10).monthIndex)
      ∧ (⟨day 2019 5 10, 3⟩ : DailyMetric)
        ∈ (monthlyScan 5 2024
            [⟨day 2024 3 10, 1⟩, ⟨day 2024 2 10, 2⟩, ⟨day 2019 5 10, 3⟩]).newDailyMetricList :=
  ⟨(monthlyScan_retained_months
      [⟨day 2024 3 10, 1⟩, ⟨day 2024 2 10, 2⟩, ⟨day 2019 5 10, 3⟩] 5 2024 (by decide)).2.1
      ⟨day 2024 3 10, 1⟩ (by decide) (by decide) (by decide),
    (monthlyScan_retained_months
      [⟨day 2024 3 10, 1⟩, ⟨day 2024 2 10, 2⟩, ⟨day 2019 5 10, 3⟩] 5 2024 (by decide)).2.2.1
      ⟨day 2019 5 10, 3⟩ (by decide) (Or.inl (by decide))⟩

/-! ### C15: sends after `ExecuteMonthly` has returned -/

theorem tally_sum_eq_seen (n : Nat) (events : Nat → Event) :
    (drainLoop events n 0 (0, 0)).1 + (drainLoop events n 0 (0, 0)).2
      = (eventsSeen n events).length := by
  have hseen : ∀ ev ∈ eventsSeen n events, ev ≠ Event.timeout := by
    intro ev hev
    have := List.mem_takeWhile_imp hev
    simpa using this
  rw [drainLoop_eq]
  simp only [Nat.zero_add]
  exact count_results (eventsSeen n events) hseen

theorem eventsSeen_length_lt (n : Nat) (events : Nat → Event)
    (h : ∃ i, i < n ∧ events i = Event.timeout) : (eventsSeen n events).length < n := by
  obtain ⟨i, hi, hto⟩ := h
  have hseen : ∀ ev ∈ eventsSeen n events, ev ≠ Event.timeout := by
    intro ev hev
    have := List.mem_takeWhile_imp hev
    simpa using this
  have hne : eventsSeen n events ≠ (List.range' 0 n).map events := by
    intro heq
    have hmem : events i ∈ eventsSeen n events := by
      rw [heq]
      exact List.mem_map.mpr ⟨i, List.mem_range'_1.mpr ⟨by omega, by omega⟩, rfl⟩
    exact hseen _ hmem hto
  have hsub : (eventsSeen n events).Sublist ((List.range' 0 n).map events) :=
    List.takeWhile_sublist _
  have hlt : (eventsSeen n events).length < ((List.range' 0 n).map events).length := by
    rcases lt_or_eq_of_le hsub.length_le with h | h
    · exact h
    · exact absurd (hsub.eq_of_length h) hne
  simpa using hlt

/-- C15 fails on the code: whatever the events, `workChannel` is closed once
`ExecuteMonthly` has returned (the deferred `finalise` closes it), so the send of
`workDone` in any task still in flight then panics; when the deadline fires in one
of the `n` iterations at least one task is still in flight. With two applications,
one result and then the deadline, one task is orphaned and its send panics. -/
theorem ExecuteMonthly_orphan_send_panics (n : Nat) (events : Nat → Event) :
    (ExecuteMonthly n events).channel.closed = true
      ∧ (ExecuteMonthly n events).channel.send = SendOutcome.panics
      ∧ ((∃ i, i < n ∧ events i = Event.timeout) → 0 < orphans n events)
      ∧ orphans 2 (fun i => if i = 0 then Event.result true else Event.timeout) = 1
      ∧ (ExecuteMonthly 2
          (fun i => if i = 0 then Event.result true else Event.timeout)).channel.send
        = SendOutcome.panics := by
  refine ⟨rfl, rfl, ?_, by decide, by decide⟩
  intro h
  have h1 := tally_sum_eq_seen n events
  have h2 := eventsSeen_length_lt n events h
  unfold orphans ExecuteMonthly
  simp only
  omega

/-- Witness of C15's failing input: two applications, one result, then the
deadline. -/
theorem ExecuteMonthly_orphan_send_panics_witness :
    0 < orphans 2 (fun i => if i = 0 then Event.result true else Event.timeout) :=
  (ExecuteMonthly_orphan_send_panics 2
    (fun i => if i = 0 then Event.result true else Event.timeout)).2.2.1
    ⟨1, by decide, by decide⟩

/-! ### C14: the date and the figures of the new summary -/

theorem yoe_inv (yoe doy : Int) (h0 : 0 ≤ yoe) (h1 : yoe ≤ 399) (hd0 : 0 ≤ doy) (hd1 : doy ≤ 364) :
    (yoe * 365 + yoe / 4 - yoe / 100 + doy - (yoe * 365 + yoe / 4 - yoe / 100 + doy) / 1460
      + (yoe * 365 + yoe / 4 - yoe / 100 + doy) / 36524
      - (yoe * 365 + yoe / 4 - yoe / 100 + doy) / 146096) / 365 = yoe := by
  have he : yoe / 100 = 0 ∨ yoe / 100 = 1 ∨ yoe / 100 = 2 ∨ yoe / 100 = 3 := by omega
  have hi : (yoe * 365 + yoe / 4 - yoe / 100 + doy) / 146096 = 0 := by omega
  have hg : (yoe * 365 + yoe / 4 - yoe / 100 + doy) / 36524 = 0 ∨ (yoe * 365 + yoe / 4 - yoe / 100 + doy) / 36524 = 1 ∨ (yoe * 365 + yoe / 4 - yoe / 100 + doy) / 36524 = 2 ∨ (yoe * 365 + yoe / 4 - yoe / 100 + doy) / 36524 = 3 := by omega
  rcases he with he | he | he | he <;> rcases hg with hg | hg | hg | hg <;> omega

theorem civilFromDays_of (era yoe doy : Int) (h0 : 0 ≤ yoe) (h1 : yoe ≤ 399)
    (hd0 : 0 ≤ doy) (hd1 : doy ≤ 364) :
    civilFromDays (era * 146097 + (yoe * 365 + yoe / 4 - yoe / 100 + doy) - 719468)
        = (if (if (5 * doy + 2) / 153 < 10 then (5 * doy + 2) / 153 + 3
                else (5 * doy + 2) / 153 - 9) ≤ 2
            then yoe + era * 400 + 1 else yoe + era * 400,
           if (5 * doy + 2) / 153 < 10 then (5 * doy + 2) / 153 + 3
             else (5 * doy + 2) / 153 - 9)
      ∧ civilDayOfMonth (era * 146097 + (yoe * 365 + yoe / 4 - yoe / 100 + doy) - 719468)
        = doy - (153 * ((5 * doy + 2) / 153) + 2) / 5 + 1 := by
  have hinv := yoe_inv yoe doy h0 h1 hd0 hd1
  generalize hD : yoe * 365 + yoe / 4 - yoe / 100 + doy = D at hinv
  have hDlo : 0 ≤ D := by omega
  have hDhi : D ≤ 146096 := by omega
  have e1 : era * 146097 + D - 719468 + 719468 = era * 146097 + D := by ring
  have e2 : (era * 146097 + D) / 146097 = era := by omega
  have e3 : era * 146097 + D - era * 146097 = D := by ring
  have e5 : D - (365 * yoe + yoe / 4 - yoe / 100) = doy := by omega
  unfold civilFromDays civilDayOfMonth
  simp only [e1, e2, e3, hinv, e5]
  exact ⟨trivial, trivial⟩

theorem civil_roundtrip (y m : Int) (hm : 1 ≤ m ∧ m ≤ 12) :
    civilFromDays (daysFromCivil y m 1) = (y, m)
      ∧ civilDayOfMonth (daysFromCivil y m 1) = 1 := by
  obtain ⟨hm1, hm12⟩ := hm
  have key : ∀ (y2 doy : Int), 0 ≤ doy → doy ≤ 364 →
      daysFromCivil y m 1 = (y2 / 400) * 146097
        + ((y2 - y2 / 400 * 400) * 365 + (y2 - y2 / 400 * 400) / 4
            - (y2 - y2 / 400 * 400) / 100 + doy) - 719468 →
      civilFromDays (daysFromCivil y m 1)
        = (if (if (5 * doy + 2) / 153 < 10 then (5 * doy + 2) / 153 + 3
                else (5 * doy + 2) / 153 - 9) ≤ 2
            then y2 + 1 else y2,
           if (5 * doy + 2) / 153 < 10 then (5 * doy + 2) / 153 + 3
             else (5 * doy + 2) / 153 - 9)
        ∧ civilDayOfMonth (daysFromCivil y m 1)
          = doy - (153 * ((5 * doy + 2) / 153) + 2) / 5 + 1 := by
    intro y2 doy hd0 hd1 heq
    rw [heq]
    have h := civilFromDays_of (y2 / 400) (y2 - y2 / 400 * 400) doy (by omega) (by omega) hd0 hd1
    have e : y2 - y2 / 400 * 400 + y2 / 400 * 400 = y2 := by ring
    rw [e] at h
    exact h
  have hcases : m = 1 ∨ m = 2 ∨ m = 3 ∨ m = 4 ∨ m = 5 ∨ m = 6 ∨ m = 7 ∨ m = 8 ∨ m = 9
      ∨ m = 10 ∨ m = 11 ∨ m = 12 := by omega
  rcases hcases with h | h | h | h | h | h | h | h | h | h | h | h <;> subst h
  · have := key (y - 1) 306 (by omega) (by omega) (by unfold daysFromCivil; simp only; omega)
    simpa using this
  · have := key (y - 1) 337 (by omega) (by omega) (by unfold daysFromCivil; simp only; omega)
    simpa using this
  · have := key (y) 0 (by omega) (by omega) (by unfold daysFromCivil; simp only; omega)
    simpa using this
  · have := key (y) 31 (by omega) (by omega) (by unfold daysFromCivil; simp only; omega)
    simpa using this
  · have := key (y) 61 (by omega) (by omega) (by unfold daysFromCivil; simp only; omega)
    simpa using this
  · have := key (y) 92 (by omega) (by omega) (by unfold daysFromCivil; simp only; omega)
    simpa using this
  · have := key (y) 122 (by omega) (by omega) (by unfold daysFromCivil; simp only; omega)
    simpa using this
  · have := key (y) 153 (by omega) (by omega) (by unfold daysFromCivil; simp only; omega)
    simpa using this
  · have := key (y) 184 (by omega) (by omega) (by unfold daysFromCivil; simp only; omega)
    simpa using this
  · have := key (y) 214 (by omega) (by omega) (by unfold daysFromCivil; simp only; omega)
    simpa using this
  · have := key (y) 245 (by omega) (by omega) (by unfold daysFromCivil; simp only; omega)
    simpa using this
  · have := key (y) 275 (by omega) (by omega) (by unfold daysFromCivil; simp only; omega)
    simpa using this

theorem date_midnight (y m : Int) :
    (Time.Date y m 1 0 0 0 0).dayNumber = daysFromCivil y m 1
      ∧ (Time.Date y m 1 0 0 0 0).nanoOfDay = 0 := by
  unfold Time.dayNumber Time.nanoOfDay Time.Date nanosPerDay nanosPerHour nanosPerSecond
  simp only
  generalize daysFromCivil y m 1 = z
  constructor <;> omega

/-- C14: the summary built by `constructNewMonthMetric` has the date
`time.Date(cdt.Year(), cdt.Month(), 1, 0, 0, 0, 0, time.UTC)`, an instant of the
year and the month of `cdt`, on day 1, at 00:00:00.000 UTC; its `AvgPlayers` is
`avg` and its `Peak` is `peak`. For `cdt` = 2024-05-17T13:45:10.00000025Z, whose
day of the month is 17, the date is 2024-05-01T00:00:00Z. -/
theorem constructNewMonthMetric_date (previous : Option Metric) (peak avg : Int)
    (cdt : Time) :
    (constructNewMonthMetric previous peak avg cdt).Date
        = Time.Date cdt.Year cdt.Month 1 0 0 0 0
      ∧ (constructNewMonthMetric previous peak avg cdt).Date.Year = cdt.Year
      ∧ (constructNewMonthMetric previous peak avg cdt).Date.Month = cdt.Month
      ∧ (constructNewMonthMetric previous peak avg cdt).Date.Day = 1
      ∧ (constructNewMonthMetric previous peak avg cdt).Date.nanoOfDay = 0
      ∧ (constructNewMonthMetric previous peak avg cdt).AvgPlayers = avg
      ∧ (constructNewMonthMetric previous peak avg cdt).Peak = peak
      ∧ (constructNewMonthMetric none 9 7 (Time.Date 2024 5 17 13 45 10 250)).Date
        = day 2024 5 1
      ∧ (Time.Date 2024 5 17 13 45 10 250).Day = 17 := by
  have hdate : (constructNewMonthMetric previous peak avg cdt).Date
      = Time.Date cdt.Year cdt.Month 1 0 0 0 0 := rfl
  obtain ⟨hnum, hnano⟩ := date_midnight cdt.Year cdt.Month
  obtain ⟨hciv, hday⟩ := civil_roundtrip cdt.Year cdt.Month (month_range cdt)
  refine ⟨hdate, ?_, ?_, ?_, ?_, rfl, rfl, by decide, by decide⟩
  · rw [hdate]
    show (civilFromDays (Time.Date cdt.Year cdt.Month 1 0 0 0 0).dayNumber).1 = cdt.Year
    rw [hnum, hciv]
  · rw [hdate]
    show (civilFromDays (Time.Date cdt.Year cdt.Month 1 0 0 0 0).dayNumber).2 = cdt.Month
    rw [hnum, hciv]
  · rw [hdate]
    show civilDayOfMonth (Time.Date cdt.Year cdt.Month 1 0 0 0 0).dayNumber = 1
    rw [hnum, hday]
  · rw [hdate]
    exact hnano

/-! ### C16: `dayDiff` and whole days -/

theorem roundMag_eq (f : FPFormat) (n d : Nat) :
    roundMag f n d
      = (roundNearestEven (scaleBy n d (ulpExp f n d)).1 (scaleBy n d (ulpExp f n d)).2,
          ulpExp f n d) := rfl

theorem roundNearestEven_bounds (N D : Nat) :
    N / D ≤ roundNearestEven N D ∧ roundNearestEven N D ≤ N / D + 1 := by
  unfold roundNearestEven
  split <;> omega

theorem roundNearestEven_mono (N D N' D' : Nat) (hD : 0 < D) (hD' : 0 < D')
    (h : N * D' ≤ N' * D) : roundNearestEven N D ≤ roundNearestEven N' D' := by
  have hq : N / D ≤ N' / D' := by
    rw [Nat.le_div_iff_mul_le hD']
    have h1 : N / D * D ≤ N := Nat.div_mul_le_self N D
    have h2 : N / D * D' * D ≤ N' * D := by
      calc N / D * D' * D = N / D * D * D' := by ring
        _ ≤ N * D' := Nat.mul_le_mul_right _ h1
        _ ≤ N' * D := h
    exact Nat.le_of_mul_le_mul_right h2 hD
  have hb := roundNearestEven_bounds N D
  have hb' := roundNearestEven_bounds N' D'
  rcases Nat.lt_or_ge (N / D) (N' / D') with hlt | hge
  · omega
  · have heq : N' / D' = N / D := le_antisymm hge hq
    have hN : D * (N / D) + N % D = N := Nat.div_add_mod N D
    have hN' : D' * (N' / D') + N' % D' = N' := Nat.div_add_mod N' D'
    have hrr : N % D * D' ≤ N' % D' * D := by
      rw [heq] at hN'
      have h3 : (D * (N / D) + N % D) * D' ≤ (D' * (N / D) + N' % D') * D := by
        rw [hN, hN']; exact h
      nlinarith [h3]
    unfold roundNearestEven
    rw [heq]
    by_cases hup : D < 2 * (N % D) ∨ (2 * (N % D) = D ∧ N / D % 2 = 1)
    · have hup' : D' < 2 * (N' % D') ∨ (2 * (N' % D') = D' ∧ N / D % 2 = 1) := by
        rcases hup with h1 | ⟨h1, h2⟩
        · left
          have : D * D' < 2 * (N' % D') * D := by nlinarith
          exact Nat.lt_of_mul_lt_mul_right (by linarith : D' * D < 2 * (N' % D') * D)
        · have hle : D' * D ≤ 2 * (N' % D') * D := by nlinarith
          have hle' : D' ≤ 2 * (N' % D') := Nat.le_of_mul_le_mul_right hle hD
          rcases Nat.lt_or_ge D' (2 * (N' % D')) with h4 | h4
          · left; exact h4
          · right; exact ⟨le_antisymm h4 hle', h2⟩
      rw [if_pos hup, if_pos hup']
    · rw [if_neg hup]
      split <;> omega

theorem scaleBy_val (n d : Nat) (e : Int) (hd : 0 < d) :
    0 < (scaleBy n d e).2
      ∧ ((scaleBy n d e).1 : ℚ) / ((scaleBy n d e).2 : ℚ) = (n : ℚ) / d / (2 : ℚ) ^ e := by
  have hd' : (d : ℚ) ≠ 0 := by positivity
  unfold scaleBy
  by_cases he : 0 ≤ e
  · rw [if_pos he]
    obtain ⟨k, rfl⟩ := Int.eq_ofNat_of_zero_le he
    simp only [Int.toNat_ofNat, zpow_natCast]
    refine ⟨by positivity, ?_⟩
    push_cast
    rw [div_div]
  · rw [if_neg he]
    obtain ⟨k, hk⟩ := Int.eq_ofNat_of_zero_le (show 0 ≤ -e by omega)
    have he' : e = -(k : Int) := by omega
    subst he'
    simp only [neg_neg, Int.toNat_ofNat, zpow_neg, zpow_natCast]
    refine ⟨hd, ?_⟩
    push_cast
    field_simp

theorem bitLen_rat (n : Nat) (hn : n ≠ 0) :
    (2 : ℚ) ^ ((bitLen n : Int) - 1) ≤ (n : ℚ) ∧ (n : ℚ) < (2 : ℚ) ^ (bitLen n : Int) := by
  obtain ⟨ha, hb, hc⟩ := bitLen_spec n hn
  generalize bitLen n = L at ha hb hc
  have h1 : ((L : Int) - 1) = ((L - 1 : Nat) : Int) := by omega
  rw [h1, zpow_natCast, zpow_natCast]
  constructor
  · exact_mod_cast ha
  · exact_mod_cast hb

theorem ulpExp_spec (f : FPFormat) (n d : Nat) (hn : 0 < n) (hd : 0 < d) :
    f.emin ≤ ulpExp f n d
      ∧ (n : ℚ) / d < (2 : ℚ) ^ ((f.prec : Int) + ulpExp f n d)
      ∧ (f.emin < ulpExp f n d →
          (2 : ℚ) ^ ((f.prec : Int) - 1 + ulpExp f n d) ≤ (n : ℚ) / d) := by
  obtain ⟨hn1, hn2⟩ := bitLen_rat n (by omega)
  obtain ⟨hd1, hd2⟩ := bitLen_rat d (by omega)
  have hdq : (0 : ℚ) < d := by exact_mod_cast hd
  have h2 : (1 : ℚ) < 2 := by norm_num
  have h20 : (0 : ℚ) < 2 := by norm_num
  -- bounds of x
  have hxlo : (2 : ℚ) ^ ((bitLen n : Int) - 1 - (bitLen d : Int)) < (n : ℚ) / d := by
    rw [lt_div_iff₀ hdq, zpow_sub₀ (by norm_num : (2 : ℚ) ≠ 0)]
    have hpos : (0 : ℚ) < 2 ^ (bitLen d : Int) := zpow_pos h20 _
    calc (2 : ℚ) ^ ((bitLen n : Int) - 1) / 2 ^ (bitLen d : Int) * d
        < (2 : ℚ) ^ ((bitLen n : Int) - 1) / 2 ^ (bitLen d : Int) * 2 ^ (bitLen d : Int) := by
          apply mul_lt_mul_of_pos_left hd2
          exact div_pos (zpow_pos h20 _) hpos
      _ = (2 : ℚ) ^ ((bitLen n : Int) - 1) := by field_simp
      _ ≤ n := hn1
  have hxhi : (n : ℚ) / d < (2 : ℚ) ^ ((bitLen n : Int) - (bitLen d : Int) + 1) := by
    rw [div_lt_iff₀ hdq]
    have e1 : (bitLen n : Int) - (bitLen d : Int) + 1
        = (bitLen n : Int) - ((bitLen d : Int) - 1) := by ring
    rw [e1, zpow_sub₀ (by norm_num : (2 : ℚ) ≠ 0)]
    have hpos : (0 : ℚ) < 2 ^ ((bitLen d : Int) - 1) := zpow_pos h20 _
    calc (n : ℚ) < 2 ^ (bitLen n : Int) := hn2
      _ = (2 : ℚ) ^ (bitLen n : Int) / 2 ^ ((bitLen d : Int) - 1) * 2 ^ ((bitLen d : Int) - 1) := by
          field_simp
      _ ≤ (2 : ℚ) ^ (bitLen n : Int) / 2 ^ ((bitLen d : Int) - 1) * d := by
          apply mul_le_mul_of_nonneg_left hd1
          exact le_of_lt (div_pos (zpow_pos h20 _) hpos)
  unfold ulpExp
  simp only
  generalize he0 : (bitLen n : Int) - (bitLen d : Int) - (f.prec : Int) = e0
  have hlo0 : (2 : ℚ) ^ ((f.prec : Int) - 1 + e0) < (n : ℚ) / d := by
    have : (f.prec : Int) - 1 + e0 = (bitLen n : Int) - 1 - (bitLen d : Int) := by omega
    rw [this]; exact hxlo
  have hhi0 : (n : ℚ) / d < (2 : ℚ) ^ ((f.prec : Int) + (e0 + 1)) := by
    have : (f.prec : Int) + (e0 + 1) = (bitLen n : Int) - (bitLen d : Int) + 1 := by omega
    rw [this]; exact hxhi
  obtain ⟨hs1, hs2⟩ := scaleBy_val n d e0 hd
  -- the test of the candidate exponent
  have hc : ((scaleBy n d e0).1 / (scaleBy n d e0).2 < 2 ^ f.prec)
      ↔ (n : ℚ) / d < (2 : ℚ) ^ ((f.prec : Int) + e0) := by
    rw [Nat.div_lt_iff_lt_mul hs1]
    have hs2q : (0 : ℚ) < ((scaleBy n d e0).2 : ℚ) := by exact_mod_cast hs1
    have hz : (0 : ℚ) < (2 : ℚ) ^ e0 := zpow_pos h20 _
    rw [zpow_add₀ (by norm_num : (2 : ℚ) ≠ 0), ← div_lt_iff₀ hz, ← hs2, div_lt_iff₀ hs2q,
      zpow_natCast]
    constructor
    · intro h; exact_mod_cast h
    · intro h; exact_mod_cast h
  have key : ∀ e1 : Int, (n : ℚ) / d < (2 : ℚ) ^ ((f.prec : Int) + e1) →
      (2 : ℚ) ^ ((f.prec : Int) - 1 + e1) ≤ (n : ℚ) / d →
      f.emin ≤ Max.max e1 f.emin
        ∧ (n : ℚ) / d < (2 : ℚ) ^ ((f.prec : Int) + Max.max e1 f.emin)
        ∧ (f.emin < Max.max e1 f.emin →
            (2 : ℚ) ^ ((f.prec : Int) - 1 + Max.max e1 f.emin) ≤ (n : ℚ) / d) := by
    intro e1 hhi hlo
    refine ⟨le_max_right _ _, ?_, ?_⟩
    · refine lt_of_lt_of_le hhi ?_
      apply zpow_le_zpow_right₀ (le_of_lt h2)
      have := le_max_left e1 f.emin
      omega
    · intro hlt
      have : Max.max e1 f.emin = e1 := by
        rcases le_total e1 f.emin with h | h
        · rw [max_eq_right h] at hlt; exact absurd hlt (lt_irrefl _)
        · exact max_eq_left h
      rw [this]; exact hlo
  by_cases hcond : (scaleBy n d e0).1 / (scaleBy n d e0).2 < 2 ^ f.prec
  · rw [if_pos hcond]
    exact key e0 (hc.mp hcond) (le_of_lt hlo0)
  · rw [if_neg hcond]
    have hge : (2 : ℚ) ^ ((f.prec : Int) + e0) ≤ (n : ℚ) / d := by
      by_contra hlt
      exact hcond (hc.mpr (not_le.mp hlt))
    refine key (e0 + 1) hhi0 ?_
    have : (f.prec : Int) - 1 + (e0 + 1) = (f.prec : Int) + e0 := by ring
    rw [this]; exact hge

theorem fpRound_val_pos (f : FPFormat) (n : Int) (d : Nat) (hn : 0 < n) (hd : 0 < d) :
    0 < (fpRound f n d).den ∧ 0 ≤ (fpRound f n d).num
      ∧ (fpRound f n d).val
        = ((roundMag f n.natAbs d).1 : ℚ) * (2 : ℚ) ^ (roundMag f n.natAbs d).2 := by
  unfold fpRound
  have hc : ¬ (n = 0 ∨ d = 0) := by omega
  rw [if_neg hc]
  have hneg : ¬ n < 0 := by omega
  simp only [if_neg hneg, one_mul]
  obtain ⟨h1, h2⟩ := scaleBy_val (roundMag f n.natAbs d).1 1 (-(roundMag f n.natAbs d).2)
    (by omega)
  refine ⟨h1, by positivity, ?_⟩
  unfold FP.val
  simp only [Int.cast_natCast]
  rw [h2, zpow_neg]
  simp

theorem fpRound_val_zero (f : FPFormat) (d : Nat) :
    0 < (fpRound f 0 d).den ∧ (fpRound f 0 d).num = 0 ∧ (fpRound f 0 d).val = 0 := by
  unfold fpRound FP.val
  simp

theorem roundMag_mono (f : FPFormat) (hp : 1 ≤ f.prec) (n d n' d' : Nat)
    (hn : 0 < n) (hd : 0 < d) (hn' : 0 < n') (hd' : 0 < d')
    (h : (n : ℚ) / d ≤ (n' : ℚ) / d') :
    ((roundMag f n d).1 : ℚ) * (2 : ℚ) ^ (roundMag f n d).2
      ≤ ((roundMag f n' d').1 : ℚ) * (2 : ℚ) ^ (roundMag f n' d').2 := by
  rw [roundMag_eq, roundMag_eq]
  simp only
  obtain ⟨hm, hhi, hlo⟩ := ulpExp_spec f n d hn hd
  obtain ⟨hm', hhi', hlo'⟩ := ulpExp_spec f n' d' hn' hd'
  generalize ulpExp f n d = e at *
  generalize ulpExp f n' d' = e' at *
  obtain ⟨hD, hval⟩ := scaleBy_val n d e hd
  obtain ⟨hD', hval'⟩ := scaleBy_val n' d' e' hd'
  obtain ⟨hb1, hb2⟩ := roundNearestEven_bounds (scaleBy n d e).1 (scaleBy n d e).2
  obtain ⟨hb1', hb2'⟩ := roundNearestEven_bounds (scaleBy n' d' e').1 (scaleBy n' d' e').2
  have h2 : (1 : ℚ) < 2 := by norm_num
  have h20 : (0 : ℚ) < 2 := by norm_num
  have hDq : (0 : ℚ) < ((scaleBy n d e).2 : ℚ) := by exact_mod_cast hD
  have hDq' : (0 : ℚ) < ((scaleBy n' d' e').2 : ℚ) := by exact_mod_cast hD'
  rcases lt_trichotomy e e' with hlt | heq | hgt
  · -- the smaller exponent: mantissa at most 2^prec against at least 2^(prec-1)
    have hq : (scaleBy n d e).1 / (scaleBy n d e).2 < 2 ^ f.prec := by
      rw [Nat.div_lt_iff_lt_mul hD]
      have : ((scaleBy n d e).1 : ℚ) / ((scaleBy n d e).2 : ℚ) < (2 : ℚ) ^ (f.prec : Int) := by
        rw [hval, div_lt_iff₀ (zpow_pos h20 _), ← zpow_add₀ (by norm_num : (2 : ℚ) ≠ 0)]
        exact hhi
      rw [div_lt_iff₀ hDq, zpow_natCast] at this
      exact_mod_cast this
    have hq' : 2 ^ (f.prec - 1) ≤ (scaleBy n' d' e').1 / (scaleBy n' d' e').2 := by
      rw [Nat.le_div_iff_mul_le hD']
      have hl := hlo' (by omega)
      have : (2 : ℚ) ^ ((f.prec : Int) - 1)
          ≤ ((scaleBy n' d' e').1 : ℚ) / ((scaleBy n' d' e').2 : ℚ) := by
        rw [hval', le_div_iff₀ (zpow_pos h20 _), ← zpow_add₀ (by norm_num : (2 : ℚ) ≠ 0)]
        exact hl
      have e1 : ((f.prec : Int) - 1) = ((f.prec - 1 : Nat) : Int) := by omega
      rw [le_div_iff₀ hDq', e1, zpow_natCast] at this
      exact_mod_cast this
    have hm1 : ((roundNearestEven (scaleBy n d e).1 (scaleBy n d e).2 : Nat) : ℚ)
        ≤ (2 : ℚ) ^ (f.prec : Int) := by
      rw [zpow_natCast]
      have : roundNearestEven (scaleBy n d e).1 (scaleBy n d e).2 ≤ 2 ^ f.prec := by omega
      exact_mod_cast this
    have hm2 : (2 : ℚ) ^ ((f.prec : Int) - 1)
        ≤ ((roundNearestEven (scaleBy n' d' e').1 (scaleBy n' d' e').2 : Nat) : ℚ) := by
      have e1 : ((f.prec : Int) - 1) = ((f.prec - 1 : Nat) : Int) := by omega
      rw [e1, zpow_natCast]
      have : 2 ^ (f.prec - 1) ≤ roundNearestEven (scaleBy n' d' e').1 (scaleBy n' d' e').2 := by
        omega
      exact_mod_cast this
    calc ((roundNearestEven (scaleBy n d e).1 (scaleBy n d e).2 : Nat) : ℚ) * (2 : ℚ) ^ e
        ≤ (2 : ℚ) ^ (f.prec : Int) * (2 : ℚ) ^ e :=
          mul_le_mul_of_nonneg_right hm1 (le_of_lt (zpow_pos h20 _))
      _ = (2 : ℚ) ^ ((f.prec : Int) + e) := (zpow_add₀ (by norm_num : (2 : ℚ) ≠ 0) _ _).symm
      _ ≤ (2 : ℚ) ^ ((f.prec : Int) - 1 + e') :=
          zpow_le_zpow_right₀ (le_of_lt h2) (by omega)
      _ = (2 : ℚ) ^ ((f.prec : Int) - 1) * (2 : ℚ) ^ e' :=
          zpow_add₀ (by norm_num : (2 : ℚ) ≠ 0) _ _
      _ ≤ _ := mul_le_mul_of_nonneg_right hm2 (le_of_lt (zpow_pos h20 _))
  · -- the same exponent: rounding to the nearest multiple is monotone
    subst heq
    have hcross : (scaleBy n d e).1 * (scaleBy n' d' e).2
        ≤ (scaleBy n' d' e).1 * (scaleBy n d e).2 := by
      have : ((scaleBy n d e).1 : ℚ) / ((scaleBy n d e).2 : ℚ)
          ≤ ((scaleBy n' d' e).1 : ℚ) / ((scaleBy n' d' e).2 : ℚ) := by
        rw [hval, hval']
        exact div_le_div_of_nonneg_right h (le_of_lt (zpow_pos h20 _))
      rw [div_le_div_iff₀ hDq hDq'] at this
      exact_mod_cast this
    have := roundNearestEven_mono _ _ _ _ hD hD' hcross
    apply mul_le_mul_of_nonneg_right _ (le_of_lt (zpow_pos h20 _))
    exact_mod_cast this
  · -- a larger exponent for the smaller value cannot be
    exfalso
    have hl := hlo (by omega)
    have : (2 : ℚ) ^ ((f.prec : Int) + e') ≤ (2 : ℚ) ^ ((f.prec : Int) - 1 + e) :=
      zpow_le_zpow_right₀ (le_of_lt h2) (by omega)
    linarith

theorem fpRound_mono (f : FPFormat) (hp : 1 ≤ f.prec) (n n' : Int) (d d' : Nat)
    (hn : 0 ≤ n) (hd : 0 < d) (hd' : 0 < d') (h : (n : ℚ) / d ≤ (n' : ℚ) / d') :
    (fpRound f n d).val ≤ (fpRound f n' d').val := by
  have hdq : (0 : ℚ) < d := by exact_mod_cast hd
  have hdq' : (0 : ℚ) < d' := by exact_mod_cast hd'
  have hn' : 0 ≤ n' := by
    have h0 : (0 : ℚ) ≤ (n : ℚ) / d := div_nonneg (by exact_mod_cast hn) (le_of_lt hdq)
    have h1 : (0 : ℚ) ≤ (n' : ℚ) / d' := le_trans h0 h
    by_contra hneg
    have : (n' : ℚ) < 0 := by exact_mod_cast (not_le.mp hneg)
    have := div_neg_of_neg_of_pos this hdq'
    linarith
  rcases eq_or_lt_of_le hn with h0 | hpos
  · subst h0
    rw [(fpRound_val_zero f d).2.2]
    rcases eq_or_lt_of_le hn' with h0' | hpos'
    · subst h0'
      rw [(fpRound_val_zero f d').2.2]
    · obtain ⟨_, _, hv⟩ := fpRound_val_pos f n' d' hpos' hd'
      rw [hv]
      positivity
  · have hpos' : 0 < n' := by
      rcases eq_or_lt_of_le hn' with h0' | hpos'
      · subst h0'
        have h0 : (0 : ℚ) < (n : ℚ) / d := div_pos (by exact_mod_cast hpos) hdq
        simp at h
        linarith
      · exact hpos'
    obtain ⟨_, _, hv⟩ := fpRound_val_pos f n d hpos hd
    obtain ⟨_, _, hv'⟩ := fpRound_val_pos f n' d' hpos' hd'
    rw [hv, hv']
    apply roundMag_mono f hp _ _ _ _ (by omega) hd (by omega) hd'
    have e1 : ((n.natAbs : Nat) : ℚ) = (n : ℚ) := by
      rw [Nat.cast_natAbs, abs_of_nonneg hn]
    have e2 : ((n'.natAbs : Nat) : ℚ) = (n' : ℚ) := by
      rw [Nat.cast_natAbs, abs_of_nonneg hn']
    rw [e1, e2]
    exact h

theorem dayDiff_eq_daysOfDuration (a b : Time) : dayDiff a b = daysOfDuration (a.Sub b) := rfl

theorem fpRound_good (f : FPFormat) (n : Int) (d : Nat) (hn : 0 ≤ n) (hd : 0 < d) :
    (fpRound f n d).Good := by
  rcases eq_or_lt_of_le hn with h0 | hpos
  · subst h0
    exact ⟨(fpRound_val_zero f d).1, le_of_eq (fpRound_val_zero f d).2.1.symm⟩
  · exact ⟨(fpRound_val_pos f n d hpos hd).1, (fpRound_val_pos f n d hpos hd).2.1⟩

theorem FP.Good.val_nonneg {a : FP} (h : a.Good) : 0 ≤ a.val := by
  unfold FP.val
  have h1 : (0 : ℚ) ≤ (a.num : ℚ) := by exact_mod_cast h.2
  have h2 : (0 : ℚ) < (a.den : ℚ) := by exact_mod_cast h.1
  exact div_nonneg h1 (le_of_lt h2)

theorem fpOfInt_val (f : FPFormat) (i : Int) (hi : 0 ≤ i) (hlt : i.natAbs < 2 ^ f.prec)
    (hemin : f.emin ≤ -(f.prec : Int)) :
    (fpOfInt f i).Good ∧ (fpOfInt f i).val = i := by
  obtain ⟨hd, hnum⟩ := fpOfInt_exact f i hlt hemin
  have hdq : (0 : ℚ) < ((fpOfInt f i).den : ℚ) := by exact_mod_cast hd
  refine ⟨⟨hd, ?_⟩, ?_⟩
  · rw [hnum]
    exact mul_nonneg hi (by omega)
  · unfold FP.val
    rw [hnum]
    push_cast
    field_simp

theorem fpAdd_mono (f : FPFormat) (hp : 1 ≤ f.prec) (a b a' b' : FP)
    (ha : a.Good) (hb : b.Good) (ha' : a'.Good) (hb' : b'.Good)
    (h : a.val + b.val ≤ a'.val + b'.val) :
    (fpAdd f a b).Good ∧ (fpAdd f a b).val ≤ (fpAdd f a' b').val := by
  have e : ∀ x y : FP, x.Good → y.Good →
      ((x.num * y.den + y.num * x.den : Int) : ℚ) / ((x.den * y.den : Nat) : ℚ)
        = x.val + y.val := by
    intro x y hx hy
    have h1 : (0 : ℚ) < (x.den : ℚ) := by exact_mod_cast hx.1
    have h2 : (0 : ℚ) < (y.den : ℚ) := by exact_mod_cast hy.1
    unfold FP.val
    push_cast
    field_simp
  have hnum : 0 ≤ a.num * b.den + b.num * a.den :=
    add_nonneg (mul_nonneg ha.2 (by omega)) (mul_nonneg hb.2 (by omega))
  have hden : 0 < a.den * b.den := Nat.mul_pos ha.1 hb.1
  have hden' : 0 < a'.den * b'.den := Nat.mul_pos ha'.1 hb'.1
  unfold fpAdd
  refine ⟨fpRound_good f _ _ hnum hden, ?_⟩
  apply fpRound_mono f hp _ _ _ _ hnum hden hden'
  rw [e a b ha hb, e a' b' ha' hb']
  exact h

theorem fpDiv_mono (f : FPFormat) (hp : 1 ≤ f.prec) (a a' b : FP)
    (ha : a.Good) (ha' : a'.Good) (hb : 0 < b.den ∧ 0 < b.num) (h : a.val ≤ a'.val) :
    (fpDiv f a b).Good ∧ (fpDiv f a b).val ≤ (fpDiv f a' b).val := by
  have hnb : ¬ b.num < 0 := by omega
  have e : ∀ x : FP, x.Good →
      (((if b.num < 0 then -1 else 1) * (x.num * b.den) : Int) : ℚ)
          / ((x.den * b.num.natAbs : Nat) : ℚ)
        = x.val / b.val := by
    intro x hx
    have h1 : (0 : ℚ) < (x.den : ℚ) := by exact_mod_cast hx.1
    have h2 : (0 : ℚ) < (b.den : ℚ) := by exact_mod_cast hb.1
    have h3 : (0 : ℚ) < (b.num : ℚ) := by exact_mod_cast hb.2
    have h4 : ((b.num.natAbs : Nat) : ℚ) = (b.num : ℚ) := by
      rw [Nat.cast_natAbs, abs_of_nonneg (le_of_lt hb.2)]
    unfold FP.val
    rw [if_neg hnb]
    push_cast
    rw [h4]
    field_simp
  have hnum : ∀ x : FP, x.Good → 0 ≤ (if b.num < 0 then -1 else 1) * (x.num * b.den) := by
    intro x hx
    rw [if_neg hnb, one_mul]
    exact mul_nonneg hx.2 (by omega)
  have hden : ∀ x : FP, x.Good → 0 < x.den * b.num.natAbs := by
    intro x hx
    exact Nat.mul_pos hx.1 (by omega)
  have hbv : 0 < b.val := by
    unfold FP.val
    exact div_pos (by exact_mod_cast hb.2) (by exact_mod_cast hb.1)
  unfold fpDiv
  refine ⟨fpRound_good f _ _ (hnum a ha) (hden a ha), ?_⟩
  apply fpRound_mono f hp _ _ _ _ (hnum a ha) (hden a ha) (hden a' ha')
  rw [e a ha, e a' ha']
  exact div_le_div_of_nonneg_right h (le_of_lt hbv)

theorem fpToInt_mono (a b : FP) (ha : a.Good) (hb : b.Good) (h : a.val ≤ b.val) :
    fpToInt a ≤ fpToInt b := by
  unfold fpToInt
  have hda : (0 : Int) < (a.den : Int) := by exact_mod_cast ha.1
  have hdb : (0 : Int) < (b.den : Int) := by exact_mod_cast hb.1
  rw [Int.tdiv_eq_ediv ha.2 (le_of_lt hda), Int.tdiv_eq_ediv hb.2 (le_of_lt hdb)]
  have hcross : a.num * b.den ≤ b.num * a.den := by
    unfold FP.val at h
    have h1 : (0 : ℚ) < (a.den : ℚ) := by exact_mod_cast ha.1
    have h2 : (0 : ℚ) < (b.den : ℚ) := by exact_mod_cast hb.1
    rw [div_le_div_iff₀ h1 h2] at h
    exact_mod_cast h
  rw [Int.le_ediv_iff_mul_le hdb]
  have h1 : a.num / a.den * a.den ≤ a.num := Int.ediv_mul_le _ (by omega)
  have h2 : a.num / a.den * b.den * a.den ≤ b.num * a.den := by nlinarith
  exact le_of_mul_le_mul_right h2 hda

theorem hours_parts (d : Int) (h0 : 0 ≤ d) (h1 : d < 2 ^ 63) :
    (fpOfInt binary64 (Int.tdiv d nanosPerHour)).Good
      ∧ (fpOfInt binary64 (Int.tdiv d nanosPerHour)).val = ((d / nanosPerHour : Int) : ℚ)
      ∧ (fpDiv binary64 (fpOfInt binary64 (Int.tmod d nanosPerHour))
          (fpOfInt binary64 nanosPerHour)).Good
      ∧ (fpDiv binary64 (fpOfInt binary64 (Int.tmod d nanosPerHour))
          (fpOfInt binary64 nanosPerHour)).val ≤ 1 := by
  have hH : nanosPerHour = 3600000000000 := by decide
  have hdiv : Int.tdiv d nanosPerHour = d / nanosPerHour :=
    Int.tdiv_eq_ediv h0 (by rw [hH]; omega)
  have hmod : Int.tmod d nanosPerHour = d % nanosPerHour :=
    Int.tmod_eq_emod h0 (by rw [hH]; omega)
  rw [hdiv, hmod, hH]
  have hq0 : 0 ≤ d / 3600000000000 := Int.ediv_nonneg h0 (by omega)
  have hq1 : (d / 3600000000000).natAbs < 2 ^ binary64.prec := by
    have : binary64.prec = 53 := rfl
    rw [this]
    omega
  have hr0 : 0 ≤ d % 3600000000000 := Int.emod_nonneg _ (by omega)
  have hr1 : d % 3600000000000 < 3600000000000 := Int.emod_lt_of_pos _ (by omega)
  have hr2 : (d % 3600000000000).natAbs < 2 ^ binary64.prec := by
    have : binary64.prec = 53 := rfl
    rw [this]
    omega
  obtain ⟨hA, hAv⟩ := fpOfInt_val binary64 _ hq0 hq1 (by decide)
  obtain ⟨hN, hNv⟩ := fpOfInt_val binary64 _ hr0 hr2 (by decide)
  obtain ⟨hHg, hHv⟩ := fpOfInt_val binary64 3600000000000 (by omega) (by decide) (by decide)
  have hHnum : 0 < (fpOfInt binary64 3600000000000).num := by
    have h := (fpOfInt_exact binary64 3600000000000 (by decide) (by decide)).2
    rw [h]
    exact mul_pos (by omega) (by exact_mod_cast hHg.1)
  obtain ⟨hOne, hOnev⟩ := fpOfInt_val binary64 1 (by omega) (by decide) (by decide)
  refine ⟨hA, hAv, ?_, ?_⟩
  · exact (fpDiv_mono binary64 (by decide) _ _ _ hN hN ⟨hHg.1, hHnum⟩ (le_refl _)).1
  · -- the fraction of an hour is at most the rounding of 1
    have hle : (d % 3600000000000 : Int) ≤ 3600000000000 := le_of_lt hr1
    have hmono := (fpDiv_mono binary64 (by decide) _ _ _ hN hHg ⟨hHg.1, hHnum⟩
      (by rw [hNv, hHv]; exact_mod_cast hle)).2
    refine le_trans hmono ?_
    -- 3.6e12 / 3.6e12 rounds as 1 / 1 does
    have hval : (fpDiv binary64 (fpOfInt binary64 3600000000000)
        (fpOfInt binary64 3600000000000)).val ≤ (fpOfInt binary64 1).val := by
      have : fpDiv binary64 (fpOfInt binary64 3600000000000) (fpOfInt binary64 3600000000000)
          = fpOfInt binary64 1 := by decide
      rw [this]
    rw [hOnev] at hval
    exact_mod_cast hval

theorem hours_mono (d d' : Int) (h0 : 0 ≤ d) (hle : d ≤ d') (h1 : d' < 2 ^ 63) :
    (Duration.Hours d).Good ∧ (Duration.Hours d').Good
      ∧ (Duration.Hours d).val ≤ (Duration.Hours d').val := by
  obtain ⟨hA, hAv, hF, hF1⟩ := hours_parts d h0 (by omega)
  obtain ⟨hA', hAv', hF', hF1'⟩ := hours_parts d' (by omega) h1
  have hH : nanosPerHour = 3600000000000 := by decide
  have hsum : (fpOfInt binary64 (Int.tdiv d nanosPerHour)).val
        + (fpDiv binary64 (fpOfInt binary64 (Int.tmod d nanosPerHour))
            (fpOfInt binary64 nanosPerHour)).val
      ≤ (fpOfInt binary64 (Int.tdiv d' nanosPerHour)).val
        + (fpDiv binary64 (fpOfInt binary64 (Int.tmod d' nanosPerHour))
            (fpOfInt binary64 nanosPerHour)).val := by
    rw [hAv, hAv']
    rcases lt_or_eq_of_le (Int.ediv_le_ediv (show (0 : Int) < nanosPerHour by rw [hH]; omega) hle)
      with hlt | heq
    · -- a later hour
      have h2 : ((d / nanosPerHour : Int) : ℚ) + 1 ≤ ((d' / nanosPerHour : Int) : ℚ) := by
        exact_mod_cast hlt
      have h3 := hF'.val_nonneg
      linarith
    · -- the same hour: the fraction decides
      rw [heq]
      have hmod : Int.tmod d nanosPerHour ≤ Int.tmod d' nanosPerHour := by
        rw [Int.tmod_eq_emod h0 (by rw [hH]; omega),
          Int.tmod_eq_emod (by omega) (by rw [hH]; omega)]
        rw [hH] at heq ⊢
        omega
      have hm0 : 0 ≤ Int.tmod d nanosPerHour := by
        rw [Int.tmod_eq_emod h0 (by rw [hH]; omega)]
        exact Int.emod_nonneg _ (by rw [hH]; omega)
      have hm1 : Int.tmod d' nanosPerHour < 3600000000000 := by
        rw [Int.tmod_eq_emod (by omega) (by rw [hH]; omega), hH]
        exact Int.emod_lt_of_pos _ (by omega)
      have hb : ∀ x : Int, 0 ≤ x → x < 3600000000000 → x.natAbs < 2 ^ binary64.prec := by
        intro x hx0 hx1
        have : binary64.prec = 53 := rfl
        rw [this]
        omega
      obtain ⟨hN, hNv⟩ := fpOfInt_val binary64 _ hm0 (hb _ hm0 (by omega)) (by decide)
      obtain ⟨hN', hNv'⟩ := fpOfInt_val binary64 _ (le_trans hm0 hmod)
        (hb _ (le_trans hm0 hmod) hm1) (by decide)
      obtain ⟨hHg, hHv⟩ := fpOfInt_val binary64 nanosPerHour (by rw [hH]; omega)
        (by decide) (by decide)
      have hHnum : 0 < (fpOfInt binary64 nanosPerHour).num := by
        have h := (fpOfInt_exact binary64 nanosPerHour (by decide) (by decide)).2
        rw [h]
        exact mul_pos (by rw [hH]; omega) (by exact_mod_cast hHg.1)
      have := (fpDiv_mono binary64 (by decide) _ _ _ hN hN' ⟨hHg.1, hHnum⟩
        (by rw [hNv, hNv']; exact_mod_cast hmod)).2
      linarith
  unfold Duration.Hours
  simp only
  have h := fpAdd_mono binary64 (by decide) _ _ _ _ hA hF hA' hF' hsum
  have h' := fpAdd_mono binary64 (by decide) _ _ _ _ hA' hF' hA' hF' (le_refl _)
  exact ⟨h.1, h'.1, h.2⟩

theorem daysOfDuration_mono (d d' : Int) (h0 : 0 ≤ d) (hle : d ≤ d') (h1 : d' < 2 ^ 63) :
    daysOfDuration d ≤ daysOfDuration d' := by
  obtain ⟨hg, hg', hv⟩ := hours_mono d d' h0 hle h1
  have h24 : HOURSPERDAY = 24 := rfl
  obtain ⟨hDg, _⟩ := fpOfInt_val binary64 24 (by omega) (by decide) (by decide)
  have hDnum : 0 < (fpOfInt binary64 24).num := by
    have h := (fpOfInt_exact binary64 24 (by decide) (by decide)).2
    rw [h]
    exact mul_pos (by omega) (by exact_mod_cast hDg.1)
  unfold daysOfDuration
  rw [h24]
  have h := fpDiv_mono binary64 (by decide) _ _ _ hg hg' ⟨hDg.1, hDnum⟩ hv
  have h' := fpDiv_mono binary64 (by decide) _ _ _ hg' hg' ⟨hDg.1, hDnum⟩ (le_refl _)
  exact fpToInt_mono _ _ h.1 h'.1 h.2

theorem fpRound_neg (f : FPFormat) (n : Int) (d : Nat) :
    fpRound f (-n) d = fpNeg (fpRound f n d) := by
  unfold fpRound fpNeg
  by_cases h0 : n = 0
  · subst h0
    simp
  · by_cases hd : d = 0
    · subst hd
      simp
    · have hc : ¬ (n = 0 ∨ d = 0) := by omega
      have hc' : ¬ (-n = 0 ∨ d = 0) := by omega
      rw [if_neg hc, if_neg hc', Int.natAbs_neg]
      simp only
      by_cases hneg : n < 0
      · have : ¬ -n < 0 := by omega
        rw [if_pos hneg, if_neg this]
        simp
      · have : -n < 0 := by omega
        rw [if_neg hneg, if_pos this]
        simp

theorem fpOfInt_neg (f : FPFormat) (i : Int) : fpOfInt f (-i) = fpNeg (fpOfInt f i) :=
  fpRound_neg f i 1

theorem fpDiv_neg (f : FPFormat) (a b : FP) : fpDiv f (fpNeg a) b = fpNeg (fpDiv f a b) := by
  unfold fpDiv
  rw [← fpRound_neg]
  simp [fpNeg]

theorem fpAdd_neg (f : FPFormat) (a b : FP) :
    fpAdd f (fpNeg a) (fpNeg b) = fpNeg (fpAdd f a b) := by
  unfold fpAdd
  rw [← fpRound_neg]
  simp only [fpNeg]
  congr 1
  ring

theorem fpToInt_neg (a : FP) : fpToInt (fpNeg a) = -fpToInt a := by
  unfold fpToInt fpNeg
  exact Int.neg_tdiv _ _

theorem daysOfDuration_neg (d : Int) : daysOfDuration (-d) = -daysOfDuration d := by
  unfold daysOfDuration Duration.Hours
  have hmod : Int.tmod (-d) nanosPerHour = -Int.tmod d nanosPerHour := by
    rw [Int.tmod_def, Int.tmod_def, Int.neg_tdiv]
    ring
  simp only [Int.neg_tdiv, hmod, fpOfInt_neg, fpDiv_neg, fpAdd_neg, fpToInt_neg]

theorem fpRound_ge_int (f : FPFormat) (hp : 1 ≤ f.prec) (hemin : f.emin ≤ -(f.prec : Int))
    (i : Int) (hi : 0 ≤ i) (hlt : i.natAbs < 2 ^ f.prec) (n : Int) (d : Nat) (hd : 0 < d)
    (h : (i : ℚ) ≤ (n : ℚ) / d) : (i : ℚ) ≤ (fpRound f n d).val := by
  have h1 := fpRound_mono f hp i n 1 d hi (by omega) hd (by simpa using h)
  have h2 := (fpOfInt_val f i hi hlt hemin).2
  unfold fpOfInt at h2
  rw [h2] at h1
  exact h1

theorem fpAdd_ge_int (f : FPFormat) (hp : 1 ≤ f.prec) (hemin : f.emin ≤ -(f.prec : Int))
    (i : Int) (hi : 0 ≤ i) (hlt : i.natAbs < 2 ^ f.prec) (a b : FP) (ha : a.Good) (hb : b.Good)
    (h : (i : ℚ) ≤ a.val + b.val) : (i : ℚ) ≤ (fpAdd f a b).val := by
  unfold fpAdd
  apply fpRound_ge_int f hp hemin i hi hlt _ _ (Nat.mul_pos ha.1 hb.1)
  have h1 : (0 : ℚ) < (a.den : ℚ) := by exact_mod_cast ha.1
  have h2 : (0 : ℚ) < (b.den : ℚ) := by exact_mod_cast hb.1
  have e : ((a.num * b.den + b.num * a.den : Int) : ℚ) / ((a.den * b.den : Nat) : ℚ)
      = a.val + b.val := by
    unfold FP.val
    push_cast
    field_simp
  rw [e]
  exact h

theorem fpDiv_ge_int (f : FPFormat) (hp : 1 ≤ f.prec) (hemin : f.emin ≤ -(f.prec : Int))
    (i : Int) (hi : 0 ≤ i) (hlt : i.natAbs < 2 ^ f.prec) (a b : FP) (ha : a.Good)
    (hb : 0 < b.den ∧ 0 < b.num) (h : (i : ℚ) ≤ a.val / b.val) :
    (i : ℚ) ≤ (fpDiv f a b).val := by
  unfold fpDiv
  apply fpRound_ge_int f hp hemin i hi hlt _ _ (Nat.mul_pos ha.1 (by omega))
  have hnb : ¬ b.num < 0 := by omega
  have h1 : (0 : ℚ) < (a.den : ℚ) := by exact_mod_cast ha.1
  have h2 : (0 : ℚ) < (b.den : ℚ) := by exact_mod_cast hb.1
  have h3 : (0 : ℚ) < (b.num : ℚ) := by exact_mod_cast hb.2
  have h4 : ((b.num.natAbs : Nat) : ℚ) = (b.num : ℚ) := by
    rw [Nat.cast_natAbs, abs_of_nonneg (le_of_lt hb.2)]
  have e : (((if b.num < 0 then -1 else 1) * (a.num * b.den) : Int) : ℚ)
        / ((a.den * b.num.natAbs : Nat) : ℚ) = a.val / b.val := by
    unfold FP.val
    rw [if_neg hnb]
    push_cast
    rw [h4]
    field_simp
  rw [e]
  exact h

theorem daysOfDuration_lower (k : Nat) (n : Int) (hk : (k : Int) * nanosPerDay ≤ n)
    (h1 : n < 2 ^ 63) : (k : Int) ≤ daysOfDuration n := by
  have hH : nanosPerHour = 3600000000000 := by decide
  have hD : nanosPerDay = 86400000000000 := by decide
  rw [hD] at hk
  have h0 : 0 ≤ n := by omega
  obtain ⟨hA, hAv, hF, _⟩ := hours_parts n h0 h1
  have hhour : 24 * (k : Int) ≤ n / nanosPerHour := by
    rw [hH]
    omega
  have hk53 : ∀ j : Int, 0 ≤ j → j ≤ n / nanosPerHour → j.natAbs < 2 ^ binary64.prec := by
    intro j hj0 hj
    have : binary64.prec = 53 := rfl
    rw [this]
    rw [hH] at hj
    omega
  -- the hours are at least 24 k
  have hX : ((24 * (k : Int) : Int) : ℚ) ≤ (Duration.Hours n).val := by
    unfold Duration.Hours
    simp only
    apply fpAdd_ge_int binary64 (by decide) (by decide) _ (by omega) (hk53 _ (by omega) (by omega))
      _ _ hA hF
    rw [hAv]
    have h3 := hF.val_nonneg
    have h4 : ((24 * (k : Int) : Int) : ℚ) ≤ ((n / nanosPerHour : Int) : ℚ) := by
      exact_mod_cast hhour
    linarith
  obtain ⟨hg, _, _⟩ := hours_mono n n h0 (le_refl _) h1
  obtain ⟨hDg, hDv⟩ := fpOfInt_val binary64 24 (by omega) (by decide) (by decide)
  have hDnum : 0 < (fpOfInt binary64 24).num := by
    have h := (fpOfInt_exact binary64 24 (by decide) (by decide)).2
    rw [h]
    exact mul_pos (by omega) (by exact_mod_cast hDg.1)
  have h24 : HOURSPERDAY = 24 := rfl
  have hY : ((k : Int) : ℚ) ≤ (fpDiv binary64 (Duration.Hours n) (fpOfInt binary64 24)).val := by
    apply fpDiv_ge_int binary64 (by decide) (by decide) _ (by omega) (hk53 _ (by omega) (by omega))
      _ _ hg ⟨hDg.1, hDnum⟩
    rw [hDv, le_div_iff₀ (by norm_num)]
    push_cast at hX ⊢
    linarith
  have hYg := (fpDiv_mono binary64 (by decide) _ _ _ hg hg ⟨hDg.1, hDnum⟩ (le_refl _)).1
  unfold daysOfDuration
  rw [h24]
  generalize fpDiv binary64 (Duration.Hours n) (fpOfInt binary64 24) = Y at hY hYg
  unfold fpToInt
  have hd : (0 : Int) < (Y.den : Int) := by exact_mod_cast hYg.1
  rw [Int.tdiv_eq_ediv hYg.2 (le_of_lt hd), Int.le_ediv_iff_mul_le hd]
  unfold FP.val at hY
  have hdq : (0 : ℚ) < (Y.den : ℚ) := by exact_mod_cast hYg.1
  rw [le_div_iff₀ hdq] at hY
  exact_mod_cast hY

set_option maxHeartbeats 4000000 in
theorem daysOfDuration_table :
    (∀ q ∈ List.range 170, daysOfDuration (((q : Int) + 1) * nanosPerDay - 1) = (q : Int))
      ∧ daysOfDuration (171 * nanosPerDay - 2) = 170 := by
  refine ⟨by decide!, by decide⟩

theorem daysOfDuration_of_nonneg (n : Int) (h0 : 0 ≤ n) (h1 : n < 171 * nanosPerDay - 1) :
    daysOfDuration n = n / nanosPerDay := by
  have hD : nanosPerDay = 86400000000000 := by decide
  obtain ⟨t2, t3⟩ := daysOfDuration_table
  obtain ⟨k, hk⟩ := Int.eq_ofNat_of_zero_le
    (Int.ediv_nonneg h0 (show (0 : Int) ≤ nanosPerDay by rw [hD]; omega))
  have h1lo := daysOfDuration_lower k n (by rw [hD] at hk ⊢; omega) (by rw [hD] at h1; omega)
  rw [hD] at h1 t2 t3 hk ⊢
  have hk171 : k < 171 := by omega
  have hhi : daysOfDuration n ≤ (k : Int) := by
    rcases Nat.lt_or_ge k 170 with hk170 | hk170
    · have hle : n ≤ ((k : Int) + 1) * 86400000000000 - 1 := by omega
      have := daysOfDuration_mono _ _ h0 hle (by omega)
      rw [t2 k (List.mem_range.mpr hk170)] at this
      exact this
    · have hk' : k = 170 := by omega
      subst hk'
      have hle : n ≤ 171 * 86400000000000 - 2 := by omega
      have := daysOfDuration_mono _ _ h0 hle (by omega)
      rw [t3] at this
      exact_mod_cast this
  rw [hk]
  omega

theorem daysOfDuration_eq_wholeDays (n : Int) (hlo : -(171 * nanosPerDay - 1) < n)
    (hhi : n < 171 * nanosPerDay - 1) : daysOfDuration n = wholeDays n := by
  have hD : nanosPerDay = 86400000000000 := by decide
  unfold wholeDays
  rcases le_or_lt 0 n with h0 | hneg
  · rw [daysOfDuration_of_nonneg n h0 hhi, Int.tdiv_eq_ediv h0 (by rw [hD]; omega)]
  · have h := daysOfDuration_of_nonneg (-n) (by omega) (by omega)
    rw [daysOfDuration_neg] at h
    have h2 := Int.neg_tdiv n nanosPerDay
    rw [Int.tdiv_eq_ediv (show 0 ≤ -n by omega) (by rw [hD]; omega)] at h2
    omega

theorem sub_cases (a b : Time) :
    (a.Sub b = a.unixNano - b.unixNano ∧ b.Sub a = -(a.unixNano - b.unixNano))
      ∨ (a.Sub b = 2 ^ 63 - 1 ∧ b.Sub a = -(2 ^ 63))
      ∨ (a.Sub b = -(2 ^ 63) ∧ b.Sub a = 2 ^ 63 - 1) := by
  unfold Time.Sub
  simp only
  split_ifs <;> omega

/-- C16, as stated, fails: 2024-06-19T23:59:59.999999999Z is 171 days less one
nanosecond after 2024-01-01T00:00:00Z, that is 170 whole days, but `dayDiff`
returns 171: `Hours()` adds 4103 and a fraction just below 1 in `float64`, and
the sum rounds to 4104. -/
theorem dayDiff_rounds_up :
    (Time.Date 2024 6 19 23 59 59 999999999).unixNano - (day 2024 1 1).unixNano
        = 171 * nanosPerDay - 1
      ∧ wholeDays ((Time.Date 2024 6 19 23 59 59 999999999).unixNano
          - (day 2024 1 1).unixNano) = 170
      ∧ dayDiff (Time.Date 2024 6 19 23 59 59 999999999) (day 2024 1 1) = 171
      ∧ (Duration.Hours (171 * nanosPerDay - 1)).val = 4104 := by
  refine ⟨by decide, by decide, by decide, ?_⟩
  have h : (Duration.Hours (171 * nanosPerDay - 1)).num
        = 4104 * ((Duration.Hours (171 * nanosPerDay - 1)).den : Int)
      ∧ 0 < (Duration.Hours (171 * nanosPerDay - 1)).den := by decide
  have hd : (0 : ℚ) < ((Duration.Hours (171 * nanosPerDay - 1)).den : ℚ) := by
    exact_mod_cast h.2
  unfold FP.val
  rw [h.1]
  push_cast
  field_simp

/-- C16, amended: for every pair of instants `dayDiff(a, b) = -dayDiff(b, a)`;
two instants less than 24 hours apart have day difference 0 in either direction;
and whenever the instants are less than 171 days less one nanosecond apart,
`dayDiff(a, b)` is the number of whole 24-hour days in `a - b`, the fraction
truncated toward zero (89 for 89.5 days, -89 for -89.5 days). -/
theorem dayDiff_whole_days (a b : Time) :
    dayDiff a b = -dayDiff b a
      ∧ (-nanosPerDay < a.unixNano - b.unixNano → a.unixNano - b.unixNano < nanosPerDay →
          dayDiff a b = 0 ∧ dayDiff b a = 0)
      ∧ (-(171 * nanosPerDay - 1) < a.unixNano - b.unixNano →
          a.unixNano - b.unixNano < 171 * nanosPerDay - 1 →
          dayDiff a b = wholeDays (a.unixNano - b.unixNano))
      ∧ dayDiff (day 2024 6 1) (Time.Date 2024 3 3 12 0 0 0) = 89
      ∧ dayDiff (Time.Date 2024 3 3 12 0 0 0) (day 2024 6 1) = -89 := by
  have hD : nanosPerDay = 86400000000000 := by decide
  have hanti : dayDiff a b = -dayDiff b a := by
    rw [dayDiff_eq_daysOfDuration, dayDiff_eq_daysOfDuration]
    rcases sub_cases a b with ⟨h1, h2⟩ | ⟨h1, h2⟩ | ⟨h1, h2⟩
    · rw [h1, h2, daysOfDuration_neg, neg_neg]
    · rw [h1, h2]
      decide
    · rw [h1, h2]
      decide
  have hwhole : -(171 * nanosPerDay - 1) < a.unixNano - b.unixNano →
      a.unixNano - b.unixNano < 171 * nanosPerDay - 1 →
      dayDiff a b = wholeDays (a.unixNano - b.unixNano) := by
    intro hlo hhi
    rw [dayDiff_eq_daysOfDuration]
    have hsub : a.Sub b = a.unixNano - b.unixNano := by
      unfold Time.Sub
      simp only
      rw [hD] at hlo hhi
      split_ifs <;> omega
    rw [hsub]
    exact daysOfDuration_eq_wholeDays _ hlo hhi
  refine ⟨hanti, ?_, hwhole, by decide, by decide⟩
  intro hlo hhi
  have h0 : dayDiff a b = 0 := by
    rw [hwhole (by rw [hD] at hlo ⊢; omega) (by rw [hD] at hhi ⊢; omega)]
    unfold wholeDays
    generalize a.unixNano - b.unixNano = n at hlo hhi
    rcases le_or_lt 0 n with hn | hn
    · exact Int.tdiv_eq_zero_of_lt hn hhi
    · have h := Int.neg_tdiv n nanosPerDay
      rw [Int.tdiv_eq_zero_of_lt (show 0 ≤ -n by omega) (by omega)] at h
      omega
  refine ⟨h0, ?_⟩
  rw [hanti] at h0
  omega

/-- Witness of C16 (amended) at two instants 36 hours apart, in either order. -/
theorem dayDiff_whole_days_witness :
    dayDiff (Time.Date 2024 3 4 12 0 0 0) (day 2024 3 3)
        = wholeDays ((Time.Date 2024 3 4 12 0 0 0).unixNano - (day 2024 3 3).unixNano)
      ∧ dayDiff (day 2024 3 3) (Time.Date 2024 3 3 23 59 59 999999999) = 0 :=
  ⟨(dayDiff_whole_days (Time.Date 2024 3 4 12 0 0 0) (day 2024 3 3)).2.2.1
      (by decide) (by decide),
    ((dayDiff_whole_days (day 2024 3 3) (Time.Date 2024 3 3 23 59 59 999999999)).2.1
      (by decide) (by decide)).1⟩

end PlayerCount
